import Mathlib

/-!
# Emergency mesh protocol engine (`emergency_protocol.cpp`)

A shallow embedding of the protocol engine of `android/app/src/main/cpp/emergency_protocol.cpp`
and a verification of its specification.

Modelling conventions.

* The process-wide globals (`g_self_device_id`, `g_neighbors`, ...) are the fields of `Engine`;
  every public function takes the state and returns the new one.
* `std::unordered_map` is an association list (`mapFind`, `mapAssign`, `mapErase`); the erase
  loops of `gc_cleanup` are `List.filter`.
* A byte is a `Fin 256`; a `std::string` is a `List Byte`; a `const char *` argument is an
  `Option (List Byte)` (`none` is the null pointer, the list is the text before the terminator).
* `std::time(nullptr)` is the argument `clock`; one call of a public function reads one clock
  value. `uint32_t` arithmetic is written with explicit `% 4294967296`.
* Behaviour the C++ language leaves undefined is a `Fault`: a read outside the raw buffer, an
  index outside the fragment vector, a shift of the 32-bit mask by 32 or more, and the
  construction of a `std::string` from a null pointer.
-/

namespace EmergencyProtocol

/-! ## Data model -/

/-- A byte: `uint8_t`, or one `char` of a `std::string`. -/
abbrev Byte := Fin 256

/-- Truncation of an integer to `uint8_t`. -/
def toByte (n : Nat) : Byte := Fin.ofNat n

/-- The constant `MAX_NEIGHBORS` of line 35, `NEIGHBOR_MAX` in the header. -/
abbrev MAX_NEIGHBORS : Nat := 256

/-- The constant `DEDUPE_WINDOW` of line 36, `DEDUPE_WINDOW_SECONDS` in the header. -/
abbrev DEDUPE_WINDOW : Nat := 300

/-- The constant `MAX_INCOMING_BUF` of line 37, `EVENT_BUF_MAX` in the header. -/
abbrev MAX_INCOMING_BUF : Nat := 1024

/-- The constant `MAX_DEVICE_ID` of line 38, `DEVICE_ID_LEN` in the header. -/
abbrev MAX_DEVICE_ID : Nat := 32

/-- Undefined behaviour of the C++ source, made observable. -/
inductive Fault where
  | bufferOverread
  | fragIndexOutOfRange
  | shiftOutOfRange
  | nullAddress
  deriving DecidableEq, Repr

deriving instance DecidableEq for Except

/-- The struct `IncomingPacket`. -/
structure IncomingPacket where
  data : List Byte
  rssi : Int
  remote_addr : List Byte
  device_id : List Byte
  timestamp : Nat
  deriving DecidableEq, Repr

/-- The struct `Neighbor`. -/
structure Neighbor where
  device_id : List Byte
  address : List Byte
  rssi : Int
  last_seen : Nat
  deriving DecidableEq, Repr

/-- The struct `ReassemblyEntry`; `received_mask` is the bit pattern of the `int`. -/
structure ReassemblyEntry where
  msg_id : Nat
  frag_count : Nat
  frags : List (List Byte)
  device_id : List Byte
  received_mask : Nat
  first_seen : Nat
  deriving DecidableEq, Repr

/-- The global state of the engine (lines 80-86). -/
structure Engine where
  g_self_device_id : List Byte
  g_neighbors : List (List Byte × Neighbor)
  g_incoming_queue : List IncomingPacket
  g_reassembly : List (Nat × ReassemblyEntry)
  g_msg_timestamps : List (Nat × Nat)
  g_recent_messages : List Nat
  g_next_msg_id : Nat
  deriving DecidableEq, Repr

/-- The header fields and payload slice that lines 140-167 extract from a raw frame. -/
structure ParsedFrame where
  msg_id : Nat
  frag_idx : Nat
  frag_count : Nat
  ttl : Nat
  device_id : List Byte
  payload : List Byte
  deriving DecidableEq, Repr

/-! ## Maps -/

/-- The lookup `m.find(k)` of an `unordered_map`. -/
def mapFind {κ α : Type} [DecidableEq κ] : List (κ × α) → κ → Option α
  | [], _ => none
  | (k1, v) :: rest, k => if k1 = k then some v else mapFind rest k

/-- The assignment `m[k] = v`: overwrite the record of `k`, or add one. -/
def mapAssign {κ α : Type} [DecidableEq κ] : List (κ × α) → κ → α → List (κ × α)
  | [], k, v => [(k, v)]
  | (k1, v1) :: rest, k, v =>
    if k1 = k then (k, v) :: rest else (k1, v1) :: mapAssign rest k v

/-- The removal `m.erase(k)`. -/
def mapErase {κ α : Type} [DecidableEq κ] (m : List (κ × α)) (k : κ) : List (κ × α) :=
  m.filter (fun p => decide (p.1 ≠ k))

/-! ## Helpers of the source -/

/-- Sequencing of two steps, the second of which runs only if the first did not fault. -/
def andThen {α β : Type} (r : Except Fault α) (k : α → Except Fault β) : Except Fault β :=
  match r with
  | .ok a => k a
  | .error e => .error e

/-- The read `raw[i]`. -/
def rd (raw : List Byte) (i : Nat) : Except Fault Byte :=
  match raw[i]? with
  | some b => .ok b
  | none => .error .bufferOverread

/-- The read of the `len` bytes at `raw + start`. -/
def rdRange (raw : List Byte) (start len : Nat) : Except Fault (List Byte) :=
  if len = 0 then .ok []
  else if start + len ≤ raw.length then .ok ((raw.drop start).take len)
  else .error .bufferOverread

/-- The helper `read_u32_be(raw + off)`. -/
def read_u32_be (raw : List Byte) (off : Nat) : Except Fault Nat :=
  andThen (rd raw off) fun p0 =>
  andThen (rd raw (off + 1)) fun p1 =>
  andThen (rd raw (off + 2)) fun p2 =>
  andThen (rd raw (off + 3)) fun p3 =>
  .ok ((p0.val <<< 24) ||| (p1.val <<< 16) ||| (p2.val <<< 8) ||| p3.val)

/-- The helper `read_u16_be(raw + off)`. -/
def read_u16_be (raw : List Byte) (off : Nat) : Except Fault Nat :=
  andThen (rd raw off) fun p0 =>
  andThen (rd raw (off + 1)) fun p1 =>
  .ok ((p0.val <<< 8) ||| p1.val)

/-- The helper `now_s()`: the clock as a `uint32_t`. -/
def now_s (clock : Nat) : Nat := clock % 4294967296

/-- The subtraction `a - b` of two `uint32_t`. -/
def sub_u32 (a b : Nat) : Nat := (a % 4294967296 + 4294967296 - b % 4294967296) % 4294967296

/-- The loop `while (q.size() > limit) q.pop_front()`. -/
def capQueue (limit : Nat) (q : List IncomingPacket) : List IncomingPacket :=
  q.drop (q.length - limit)

/-- The function `gc_cleanup` (lines 105-135). -/
def gc_cleanup (s : Engine) (clock : Nat) : Engine :=
  let now := now_s clock
  { s with
    g_msg_timestamps :=
      s.g_msg_timestamps.filter (fun p => !decide (sub_u32 now p.2 > DEDUPE_WINDOW))
    g_reassembly :=
      s.g_reassembly.filter (fun p => !decide (sub_u32 now p.2.first_seen > DEDUPE_WINDOW))
    g_incoming_queue := capQueue 1024 s.g_incoming_queue
    g_neighbors :=
      s.g_neighbors.filter (fun p => !decide (sub_u32 now p.2.last_seen > DEDUPE_WINDOW * 2)) }

/-- The helper `fragerCountMax` (lines 269-272). -/
def fragerCountMax (frag_count : Nat) : Nat :=
  if frag_count = 0 then 1 else frag_count

/-! ## Receiving -/

/-- Lines 140-167 of `parse_raw_frame_and_feed`: validation and decoding of the header.
`none` is the silent `return` of a rejected buffer. -/
def parse_header (raw : List Byte) (raw_len : Nat) : Except Fault (Option ParsedFrame) :=
  if raw_len < 12 then .ok none else
  andThen (rd raw 0) fun m0 =>
  if m0.val ≠ 69 then .ok none else
  andThen (rd raw 1) fun m1 =>
  if m1.val ≠ 80 then .ok none else
  andThen (rd raw 2) fun ver =>
  if ver.val ≠ 1 then .ok none else
  andThen (read_u32_be raw 3) fun msg_id =>
  andThen (rd raw 7) fun frag_idx =>
  andThen (rd raw 8) fun frag_count =>
  andThen (rd raw 9) fun ttl =>
  andThen (rd raw 10) fun devlen =>
  if 11 + devlen.val + 2 > raw_len then .ok none else
  andThen (rdRange raw 11 devlen.val) fun device_id =>
  let idx := 11 + devlen.val
  if idx + 2 > raw_len then .ok none else
  andThen (read_u16_be raw idx) fun payload_len =>
  if idx + 2 + payload_len > raw_len then .ok none else
  andThen (rdRange raw (idx + 2) payload_len) fun payload =>
  .ok (some
    { msg_id := msg_id, frag_idx := frag_idx.val, frag_count := frag_count.val, ttl := ttl.val,
      device_id := device_id, payload := payload })

/-- Lines 176-190: find or create the reassembly entry of the frame's message id. -/
def find_or_create (s : Engine) (clock : Nat) (f : ParsedFrame) : Engine × ReassemblyEntry :=
  match mapFind s.g_reassembly f.msg_id with
  | some e => (s, e)
  | none =>
    let e : ReassemblyEntry :=
      { msg_id := f.msg_id, frag_count := f.frag_count,
        frags := List.replicate (fragerCountMax f.frag_count) [],
        device_id := f.device_id, received_mask := 0, first_seen := now_s clock }
    ({ s with g_reassembly := mapAssign s.g_reassembly f.msg_id e }, e)

/-- Line 197: the store `entry.frags[frag_idx] = payload`. -/
def store_frag (frags : List (List Byte)) (frag_idx : Nat) (payload : List Byte) :
    Except Fault (List (List Byte)) :=
  if frag_idx < frags.length then .ok (frags.set frag_idx payload)
  else .error .fragIndexOutOfRange

/-- Line 198: `received_mask |= (1 << frag_idx)` on a 32-bit `int`. -/
def mark_received (mask frag_idx : Nat) : Except Fault Nat :=
  if frag_idx < 32 then .ok (mask ||| (1 <<< frag_idx)) else .error .shiftOutOfRange

/-- Lines 200-221: create or refresh the neighbor record of the sender. -/
def update_neighbor (nb : List (List Byte × Neighbor)) (clock : Nat) (device_id : List Byte)
    (rssi : Int) (remote_addr : Option (List Byte)) :
    Except Fault (List (List Byte × Neighbor)) :=
  if device_id = [] then .ok nb else
  let t := now_s clock
  match mapFind nb device_id with
  | none =>
    let n : Neighbor :=
      { device_id := device_id, address := remote_addr.getD [], rssi := rssi, last_seen := t }
    if nb.length < MAX_NEIGHBORS then .ok (mapAssign nb device_id n) else .ok nb
  | some n =>
    let n1 : Neighbor := { n with rssi := rssi, last_seen := t }
    if n.address ≠ [] then
      match remote_addr with
      | none => .error .nullAddress
      | some a =>
        if n.address ≠ a then .ok (mapAssign nb device_id { n1 with address := a })
        else .ok (mapAssign nb device_id n1)
    else .ok (mapAssign nb device_id n1)

/-- Lines 224-232: the loop over `i < frag_count` that tests bit `i` of the mask and stops at
the first missing one; `remaining` iterations are left, the next index is `i`. -/
def check_complete (mask : Nat) : Nat → Nat → Except Fault Bool
  | 0, _ => .ok true
  | remaining + 1, i =>
    if 32 ≤ i then .error .shiftOutOfRange
    else if (mask >>> i) &&& 1 = 0 then .ok false
    else check_complete mask remaining (i + 1)

/-- Lines 236-241: the loop that joins `frags[i]` for `i < frag_count`. -/
def join_frags (frags : List (List Byte)) : Nat → Nat → Except Fault (List Byte)
  | 0, _ => .ok []
  | remaining + 1, i =>
    match frags[i]? with
    | none => .error .fragIndexOutOfRange
    | some f => andThen (join_frags frags remaining (i + 1)) fun rest => .ok (f ++ rest)

/-- Lines 243-259: the dedupe test and the delivery into the queue. -/
def deliver (s : Engine) (clock : Nat) (msg_id : Nat) (full : List Byte) (rssi : Int)
    (remote_addr : Option (List Byte)) (entry_device_id : List Byte) : Engine :=
  let now := now_s clock
  let ip : IncomingPacket :=
    { data := full, rssi := rssi, remote_addr := remote_addr.getD [],
      device_id := entry_device_id, timestamp := now }
  let pushed : Engine :=
    { s with
      g_msg_timestamps := mapAssign s.g_msg_timestamps msg_id now
      g_incoming_queue := capQueue MAX_INCOMING_BUF (s.g_incoming_queue ++ [ip]) }
  match mapFind s.g_msg_timestamps msg_id with
  | none => pushed
  | some ts => if sub_u32 now ts > DEDUPE_WINDOW then pushed else s

/-- Lines 169-266 of `parse_raw_frame_and_feed`: what happens to a decoded frame. -/
def feed_frame (s : Engine) (clock : Nat) (f : ParsedFrame) (rssi : Int)
    (remote_addr : Option (List Byte)) : Except Fault Engine :=
  let (s1, entry) := find_or_create s clock f
  if f.frag_idx ≥ entry.frags.length then .ok s1 else
  andThen (store_frag entry.frags f.frag_idx f.payload) fun frags =>
  andThen (mark_received entry.received_mask f.frag_idx) fun mask =>
  let entry1 : ReassemblyEntry := { entry with frags := frags, received_mask := mask }
  let s2 : Engine := { s1 with g_reassembly := mapAssign s1.g_reassembly f.msg_id entry1 }
  andThen (update_neighbor s2.g_neighbors clock f.device_id rssi remote_addr) fun nb =>
  let s3 : Engine := { s2 with g_neighbors := nb }
  andThen (check_complete entry1.received_mask entry1.frag_count 0) fun complete =>
  if complete then
    andThen (join_frags entry1.frags entry1.frag_count 0) fun full =>
    let s4 := deliver s3 clock f.msg_id full rssi remote_addr entry1.device_id
    .ok (gc_cleanup { s4 with g_reassembly := mapErase s4.g_reassembly f.msg_id } clock)
  else .ok (gc_cleanup s3 clock)

/-- The function `parse_raw_frame_and_feed` (lines 138-266). -/
def parse_raw_frame_and_feed (s : Engine) (clock : Nat) (raw : List Byte) (raw_len : Nat)
    (rssi : Int) (remote_addr : Option (List Byte)) : Except Fault Engine :=
  andThen (parse_header raw raw_len) fun parsed =>
  match parsed with
  | none => .ok s
  | some f => feed_frame s clock f rssi remote_addr

/-- The function `emergency_receive_raw` (lines 365-372): the status and the new state. -/
def emergency_receive_raw (s : Engine) (clock : Nat) (raw : Option (List Byte)) (raw_len : Nat)
    (rssi : Int) (remote_addr : Option (List Byte)) : Except Fault (Int × Engine) :=
  match raw with
  | none => .ok (-1, s)
  | some buf =>
    if raw_len = 0 then .ok (-1, s)
    else andThen (parse_raw_frame_and_feed s clock buf raw_len rssi remote_addr) fun s1 =>
      .ok (0, s1)

/-! ## Initialisation, sending, polling -/

/-- The function `emergency_protocol_init` (lines 281-296). -/
def emergency_protocol_init (self_device_id : Option (List Byte)) (clock : Nat) : Engine :=
  { g_self_device_id :=
      match self_device_id with
      | some d => d
      | none => [117, 110, 107, 110, 111, 119, 110]
    g_neighbors := []
    g_incoming_queue := []
    g_reassembly := []
    g_msg_timestamps := []
    g_recent_messages := []
    g_next_msg_id := (clock % 4294967296) &&& 2147483647 }

/-- Lines 322-346: the wire frame of fragment `i`. -/
def encode_frame (self_id : List Byte) (msg_id : Nat) (payload_vec : List Byte)
    (frag_count i : Nat) : List Byte :=
  let start := i * 20
  let chunk_len := min 20 (payload_vec.length - start)
  let devlen := (min self_id.length (MAX_DEVICE_ID - 1)) % 256
  let chunk_len_u16 := chunk_len % 65536
  [69, 80, 1,
    toByte ((msg_id >>> 24) &&& 255), toByte ((msg_id >>> 16) &&& 255),
    toByte ((msg_id >>> 8) &&& 255), toByte ((msg_id >>> 0) &&& 255),
    toByte i, toByte frag_count, 4, toByte devlen]
  ++ self_id.take devlen
  ++ [toByte ((chunk_len_u16 >>> 8) &&& 255), toByte ((chunk_len_u16 >>> 0) &&& 255)]
  ++ (payload_vec.drop start).take chunk_len

/-- Line 313-315: the fragment count, a `uint8_t`. -/
def send_frag_count (len : Nat) : Nat :=
  let frag_count := ((len + 20 - 1) / 20) % 256
  if frag_count = 0 then 1 else frag_count

/-- The frames that one call of `emergency_send_broadcast` builds, in loop order. -/
def send_frames (self_id : List Byte) (msg_id : Nat) (message : List Byte) : List (List Byte) :=
  (List.range (send_frag_count message.length)).map
    (encode_frame self_id msg_id message (send_frag_count message.length))

/-- The function `emergency_send_broadcast` (lines 298-362): the status and the new state. -/
def emergency_send_broadcast (s : Engine) (clock : Nat) (message : Option (List Byte)) :
    Int × Engine :=
  match message with
  | none => (-1, s)
  | some msg =>
    let msg_id := (s.g_next_msg_id + 1) % 4294967296
    let packets : List IncomingPacket :=
      (send_frames s.g_self_device_id msg_id msg).map fun frame =>
        { data := frame, rssi := 0, remote_addr := [108, 111, 99, 97, 108],
          device_id := s.g_self_device_id, timestamp := now_s clock }
    (0, { s with g_next_msg_id := msg_id, g_incoming_queue := s.g_incoming_queue ++ packets })

/-- The conversion `(int)x` of a `uint32_t`. -/
def toInt32 (x : Nat) : Int :=
  if x % 4294967296 < 2147483648 then (x % 4294967296 : Nat) else (x % 4294967296 : Nat) - 4294967296

/-- The function `emergency_poll_incoming` (lines 375-408): the status, the bytes copied to the
start of `out_buf`, and the new state. -/
def emergency_poll_incoming (s : Engine) (max_len : Nat) : Int × List Byte × Engine :=
  match s.g_incoming_queue with
  | [] => (0, [], s)
  | ip :: rest =>
    let s1 : Engine := { s with g_incoming_queue := rest }
    if ip.data.length ≥ 12 ∧ ip.data[0]? = some 69 ∧ ip.data[1]? = some 80 then
      let devlen := (ip.data.getD 10 0).val
      let idx := 11 + devlen
      if idx + 2 > ip.data.length then (0, [], s1) else
      let payload_len := ((ip.data.getD idx 0).val <<< 8) ||| (ip.data.getD (idx + 1) 0).val
      if idx + 2 + payload_len > ip.data.length then (0, [], s1) else
      let payload_len1 := if payload_len > max_len then max_len % 65536 else payload_len
      (toInt32 payload_len1, (ip.data.drop (idx + 2)).take payload_len1, s1)
    else
      let copy_len := min max_len (ip.data.length % 4294967296)
      (toInt32 copy_len, ip.data.take copy_len, s1)

/-! ## Reachable states -/

/-- The states the public interface can produce, starting at `emergency_protocol_init`.
`emergency_get_neighbors_json` only reads the state, so it adds no state. -/
inductive Reachable : Engine → Prop where
  | init (self_device_id : Option (List Byte)) (clock : Nat) :
      Reachable (emergency_protocol_init self_device_id clock)
  | send {s : Engine} (clock : Nat) (message : Option (List Byte)) :
      Reachable s → Reachable (emergency_send_broadcast s clock message).2
  | receive {s s1 : Engine} {status : Int} (clock : Nat) (raw : Option (List Byte))
      (raw_len : Nat) (rssi : Int) (remote_addr : Option (List Byte)) :
      Reachable s → emergency_receive_raw s clock raw raw_len rssi remote_addr = .ok (status, s1) →
      Reachable s1
  | poll {s : Engine} (max_len : Nat) :
      Reachable s → Reachable (emergency_poll_incoming s max_len).2.2

/-! ## Definitions used to state the properties -/

/-- The sender-id length a buffer declares at offset 10. -/
def declaredDevLen (raw : List Byte) : Nat := (raw.getD 10 0).val

/-- The payload length a buffer declares, big-endian, right after the sender id. -/
def declaredPayloadLen (raw : List Byte) : Nat :=
  ((raw.getD (11 + declaredDevLen raw) 0).val <<< 8) ||| (raw.getD (11 + declaredDevLen raw + 1) 0).val

/-- The decoder of lines 140-167 on a buffer that really holds `raw_len` bytes: no read can
leave the buffer, so the result is a plain optional frame. -/
def decode (raw : List Byte) (raw_len : Nat) : Option ParsedFrame :=
  if raw_len < 12 then none
  else if (raw.getD 0 0).val ≠ 69 then none
  else if (raw.getD 1 0).val ≠ 80 then none
  else if (raw.getD 2 0).val ≠ 1 then none
  else if 11 + declaredDevLen raw + 2 > raw_len then none
  else if 11 + declaredDevLen raw + 2 + declaredPayloadLen raw > raw_len then none
  else some
    { msg_id := ((raw.getD 3 0).val <<< 24) ||| ((raw.getD 4 0).val <<< 16)
        ||| ((raw.getD 5 0).val <<< 8) ||| (raw.getD 6 0).val
      frag_idx := (raw.getD 7 0).val
      frag_count := (raw.getD 8 0).val
      ttl := (raw.getD 9 0).val
      device_id := (raw.drop 11).take (declaredDevLen raw)
      payload := (raw.drop (11 + declaredDevLen raw + 2)).take (declaredPayloadLen raw) }

/-- A concrete engine state used to exercise the theorems: one tracked neighbor, one queued
packet, one open reassembly, one dedupe record. -/
def sampleEngine : Engine :=
  { g_self_device_id := [100, 101]
    g_neighbors := [([65], { device_id := [65], address := [120], rssi := -50, last_seen := 1000 })]
    g_incoming_queue :=
      [{ data := [1, 2, 3], rssi := -60, remote_addr := [120], device_id := [65], timestamp := 900 }]
    g_reassembly :=
      [(9, { msg_id := 9, frag_count := 2, frags := [[7], []], device_id := [65],
             received_mask := 1, first_seen := 1000 })]
    g_msg_timestamps := [(5, 900)]
    g_recent_messages := []
    g_next_msg_id := 41 }

/-- The state after `n` further calls `emergency_send_broadcast("")`. -/
def sendEmptyTimes : Nat → Engine → Engine
  | 0, s => s
  | n + 1, s => sendEmptyTimes n (emergency_send_broadcast s 0 (some [])).2

/-- The message bytes at offsets `[a, b)`. -/
def bytesBetween (msg : List Byte) (a b : Nat) : List Byte := (msg.take b).drop a

/-- The reassembly entry of a frame once its fragment is stored and marked (lines 197-198). -/
def storedEntry (s : Engine) (clock : Nat) (f : ParsedFrame) : ReassemblyEntry :=
  { (find_or_create s clock f).2 with
    frags := (find_or_create s clock f).2.frags.set f.frag_idx f.payload
    received_mask := (find_or_create s clock f).2.received_mask ||| (1 <<< f.frag_idx) }

/-- The engine state at line 222: fragment stored, neighbor table updated to `nb`. -/
def storedState (s : Engine) (clock : Nat) (f : ParsedFrame)
    (nb : List (List Byte × Neighbor)) : Engine :=
  { (find_or_create s clock f).1 with
    g_reassembly := mapAssign (find_or_create s clock f).1.g_reassembly f.msg_id (storedEntry s clock f)
    g_neighbors := nb }

/-- The test of lines 224-232: every bit below the expected fragment count is set. -/
def isComplete (e : ReassemblyEntry) : Prop :=
  ∀ j, j < e.frag_count → e.received_mask.testBit j = true

instance (e : ReassemblyEntry) : Decidable (isComplete e) := by
  unfold isComplete
  exact Nat.decidableBallLT _ _

/-- The frame and the reassembly entry it joins stay within the 32-bit completion mask, and the
entry has one slot per expected fragment: no shift of lines 198 and 227 is out of range. -/
def withinMask (s : Engine) (clock : Nat) (f : ParsedFrame) : Prop :=
  f.frag_idx < 32 ∧ (find_or_create s clock f).2.frag_count ≤ 32 ∧
    (find_or_create s clock f).2.frag_count ≤ (find_or_create s clock f).2.frags.length

instance (s : Engine) (clock : Nat) (f : ParsedFrame) : Decidable (withinMask s clock f) := by
  unfold withinMask
  exact inferInstance

/-- The fragment of the frame is stored: its index is inside the fragment vector of the entry
(the test of line 191 fails). -/
def isStored (s : Engine) (clock : Nat) (f : ParsedFrame) : Prop :=
  f.frag_idx < (find_or_create s clock f).2.frags.length

instance (s : Engine) (clock : Nat) (f : ParsedFrame) : Decidable (isStored s clock f) := by
  unfold isStored
  exact inferInstance

/-- The records the sweep keeps in the neighbor table at time `clock`. -/
def keptNeighbors (clock : Nat) (nb : List (List Byte × Neighbor)) : List (List Byte × Neighbor) :=
  nb.filter (fun p => !decide (sub_u32 (now_s clock) p.2.last_seen > DEDUPE_WINDOW * 2))

/-- Every reassembly entry has the fragment vector that line 183 gave it: one slot per expected
fragment (one slot for a count of 0). -/
def FragsSized (s : Engine) : Prop :=
  ∀ p ∈ s.g_reassembly, p.2.frags.length = fragerCountMax p.2.frag_count

/-- The outcome of a step is not an out-of-bounds access: neither a read past the raw buffer
nor an index past the fragment vector. -/
def InBounds {α : Type} (r : Except Fault α) : Prop :=
  r ≠ .error .bufferOverread ∧ r ≠ .error .fragIndexOutOfRange

/-- An engine whose neighbor table is full: 256 records, one per one-byte sender id. -/
def fullTableEngine : Engine :=
  { g_self_device_id := [100, 101]
    g_neighbors := (List.range 256).map fun i =>
      ([toByte i], { device_id := [toByte i], address := [120], rssi := -50, last_seen := 1000 })
    g_incoming_queue := []
    g_reassembly := []
    g_msg_timestamps := []
    g_recent_messages := []
    g_next_msg_id := 41 }

/-- One call of the receive path on a frame that has been decoded, with a source address. -/
structure FrameCall where
  clock : Nat
  frame : ParsedFrame
  rssi : Int
  remote_addr : List Byte
  deriving DecidableEq, Repr

/-- One call `emergency_receive_raw(raw, raw.size(), rssi, remote_addr)` with a source address. -/
structure RawCall where
  clock : Nat
  raw : List Byte
  rssi : Int
  remote_addr : List Byte
  deriving DecidableEq, Repr

/-- Lines 169-266 run on a sequence of decoded frames, in order. -/
def feed_all (s : Engine) : List FrameCall → Except Fault Engine
  | [] => .ok s
  | c :: rest =>
    andThen (feed_frame s c.clock c.frame c.rssi (some c.remote_addr)) fun s1 => feed_all s1 rest

/-- The calls of `emergency_receive_raw` on a sequence of raw frames, in order. -/
def receive_all (s : Engine) : List RawCall → Except Fault Engine
  | [] => .ok s
  | c :: rest =>
    andThen (emergency_receive_raw s c.clock (some c.raw) c.raw.length c.rssi (some c.remote_addr))
      fun r => receive_all r.2 rest

/-- The state of a reassembly entry that expects `n` fragments with payloads `pay 0 .. pay (n-1)`
after the fragments with the indices `done` have been stored. -/
def EntryInv (n : Nat) (pay : Nat → List Byte) (done : List Nat) (e : ReassemblyEntry) : Prop :=
  e.frag_count = n ∧ e.frags.length = n ∧
    (∀ j, j < n → (e.received_mask.testBit j = true ↔ j ∈ done)) ∧
    (∀ j, j ∈ done → e.frags[j]? = some (pay j))

/-- The records the sweep keeps in the dedupe table at time `clock`. -/
def keptTimestamps (clock : Nat) (ts : List (Nat × Nat)) : List (Nat × Nat) :=
  ts.filter (fun p => !decide (sub_u32 (now_s clock) p.2 > DEDUPE_WINDOW))

/-- The packet that lines 249-254 build for a completed message. -/
def deliveredPacket (clock : Nat) (full : List Byte) (rssi : Int) (remote_addr : List Byte)
    (entry_device_id : List Byte) : IncomingPacket :=
  { data := full, rssi := rssi, remote_addr := remote_addr, device_id := entry_device_id,
    timestamp := now_s clock }

/-- The fragment index a raw frame carries at offset 7. -/
def fragIndexOf (raw : List Byte) : Nat := (raw.getD 7 0).val

/-- The frame a raw buffer, passed with its true length, decodes to (a frame of zeros if it is
rejected). -/
def frameOf (raw : List Byte) : ParsedFrame :=
  (decode raw raw.length).getD
    { msg_id := 0, frag_idx := 0, frag_count := 0, ttl := 0, device_id := [], payload := [] }

/-- The decoded form of a raw call. -/
def toFrameCall (c : RawCall) : FrameCall :=
  { clock := c.clock, frame := frameOf c.raw, rssi := c.rssi, remote_addr := c.remote_addr }

/-- The raw frames are a complete set of fragments of message `id`: every one passes the
decoder of lines 140-167 (called with its true length), carries
the id `id`, the fragment count `n` and the payload `pay idx` of its index, and the indices are
`0 .. n-1`, each exactly once, in any order. -/
def CompleteSet (id n : Nat) (pay : Nat → List Byte) (raws : List (List Byte)) : Prop :=
  (∀ r ∈ raws, ∃ f, parse_header r r.length = .ok (some f) ∧ f.msg_id = id ∧ f.frag_count = n ∧
    f.payload = pay f.frag_idx) ∧
  (raws.map fragIndexOf).Perm (List.range n)

/-- Every call of the pass happens at most `DEDUPE_WINDOW` seconds (on the 32-bit clock) after
the first call of the pass. -/
def WithinWindow (calls : List RawCall) : Prop :=
  ∀ c0 ∈ calls.head?, ∀ c ∈ calls, sub_u32 (now_s c.clock) (now_s c0.clock) ≤ DEDUPE_WINDOW

instance (calls : List RawCall) : Decidable (WithinWindow calls) := by
  unfold WithinWindow
  exact inferInstance

/-- Fragment 0 of a two-fragment message with id 7 from sender `B`, payload 1. -/
def sampleFragment0 : List Byte := [69, 80, 1, 0, 0, 0, 7, 0, 2, 4, 1, 66, 0, 1, 1]

/-- Fragment 1 of the same message, payload 2. -/
def sampleFragment1 : List Byte := [69, 80, 1, 0, 0, 0, 7, 1, 2, 4, 1, 66, 0, 1, 2]

/-- The payloads of the sample message by fragment index. -/
def samplePayload (i : Nat) : List Byte := [toByte (i + 1)]

/-- A first pass over the sample message, in reverse order, at times 1000 and 1001. -/
def samplePass1 : List RawCall :=
  [{ clock := 1000, raw := sampleFragment1, rssi := -40, remote_addr := [120] },
   { clock := 1001, raw := sampleFragment0, rssi := -41, remote_addr := [120] }]

/-- A second pass over the sample message at times `t` and `t + 1`, in index order. -/
def samplePass2 (t : Nat) : List RawCall :=
  [{ clock := t, raw := sampleFragment0, rssi := -42, remote_addr := [120] },
   { clock := t + 1, raw := sampleFragment1, rssi := -43, remote_addr := [120] }]

/-- The frames that `emergency_send_broadcast(message)` encodes in state `s0`: the contents of
the packets the call appends to the queue, in order. -/
def broadcast_frames (s0 : Engine) (clock : Nat) (message : List Byte) : List (List Byte) :=
  ((emergency_send_broadcast s0 clock (some message)).2.g_incoming_queue.drop
    s0.g_incoming_queue.length).map fun ip => ip.data

/-- The message id that `emergency_send_broadcast` allocates in state `s0` (line 305). -/
def broadcast_msg_id (s0 : Engine) : Nat := (s0.g_next_msg_id + 1) % 4294967296

/-- A 25-byte sample message, the letters `A` to `Y`. -/
def sampleMessage : List Byte := (List.range 25).map fun i => toByte (65 + i)

/-- The frames of `sampleMessage` broadcast from `sampleEngine`, received in reverse order. -/
def sampleCalls : List RawCall :=
  (broadcast_frames sampleEngine 1000 sampleMessage).reverse.map fun r =>
    { clock := 2000, raw := r, rssi := -40, remote_addr := [120] }

/-- The frames of a 641-byte broadcast (33 fragments), received in index order. -/
def longCalls : List RawCall :=
  (broadcast_frames (emergency_protocol_init (some []) 5) 5 (List.replicate 641 65)).map fun r =>
    { clock := 10, raw := r, rssi := -40, remote_addr := [120] }

/-! ## Definitions for the send, poll and sweep properties -/

/-- The bytes of a string literal of the source. -/
def strBytes (str : String) : List Byte := str.toList.map fun c => toByte c.toNat

/-- The packet that `emergency_send_broadcast` queues for one frame (lines 351-357). -/
def loopbackPacket (s : Engine) (clock : Nat) (frame : List Byte) : IncomingPacket :=
  { data := frame, rssi := 0, remote_addr := strBytes "local",
    device_id := s.g_self_device_id, timestamp := now_s clock }

/-- The chunk that `encode_frame` writes for fragment `i` (lines 318-321, 345-346). -/
def encodedChunk (msg : List Byte) (i : Nat) : List Byte :=
  (msg.drop (i * 20)).take (min 20 (msg.length - i * 20))

/-- Successive calls of `emergency_poll_incoming`, one per buffer size in the list: the
status and the copied bytes of each call in order, and the final state. -/
def poll_each (s : Engine) : List Nat → List (Int × List Byte) × Engine
  | [] => ([], s)
  | m :: ms =>
    let r := emergency_poll_incoming s m
    let t := poll_each r.2.2 ms
    ((r.1, r.2.1) :: t.1, t.2)

/-- What one poll hands out when `ip` is the oldest packet: the status and the bytes. -/
def pollOutput (s : Engine) (ip : IncomingPacket) (max_len : Nat) : Int × List Byte :=
  ((emergency_poll_incoming { s with g_incoming_queue := [ip] } max_len).1,
   (emergency_poll_incoming { s with g_incoming_queue := [ip] } max_len).2.1)

/-- The elapsed time `(now - t) mod 2^32`, in the words of the specification. -/
def elapsedMod (now t : Nat) : Nat := (((now : Int) - (t : Int)) % 4294967296).toNat

/-- The postcondition of a sweep at time `now`: no dedupe record and no reassembly entry older
than 300 seconds, no neighbor record older than 600 seconds, at most 1024 queued packets. -/
def SweepPost (s : Engine) (now : Nat) : Prop :=
  (∀ p ∈ s.g_msg_timestamps, elapsedMod now p.2 ≤ 300) ∧
  (∀ p ∈ s.g_reassembly, elapsedMod now p.2.first_seen ≤ 300) ∧
  (∀ p ∈ s.g_neighbors, elapsedMod now p.2.last_seen ≤ 600) ∧
  s.g_incoming_queue.length ≤ 1024

instance (s : Engine) (now : Nat) : Decidable (SweepPost s now) := by
  unfold SweepPost
  infer_instance

/-- A well-formed frame from sender `A` for message 9 with fragment index 5 of 2: the index
bound of line 191 discards it. -/
def discardedFrame : List Byte := [69, 80, 1, 0, 0, 0, 9, 5, 2, 4, 1, 65, 0, 1, 7]

/-- The same frame with fragment index 1 of 2: it is stored. -/
def storedFrame : List Byte := [69, 80, 1, 0, 0, 0, 9, 1, 2, 4, 1, 65, 0, 1, 7]

/-- A well-formed frame whose fragment-count field is 0. -/
def zeroCountFrame : List Byte := [69, 80, 1, 0, 0, 0, 77, 0, 0, 4, 1, 66, 0, 1, 7]

/-- A well-formed frame whose fragment-count field is 40. -/
def overCountFrame : List Byte := [69, 80, 1, 0, 0, 0, 78, 0, 40, 4, 1, 66, 0, 1, 7]

/-- Fragment `i` of a three-fragment message with id 11 from sender `C`, payload `10 + i`. -/
def tripleFragment (i : Nat) : List Byte :=
  [69, 80, 1, 0, 0, 0, 11, toByte i, 3, 4, 1, 67, 0, 1, toByte (10 + i)]

/-- The payloads of the three-fragment message by fragment index. -/
def triplePayload (i : Nat) : List Byte := [toByte (10 + i)]

/-- The three fragments received in the order 2, 0, 1 at times 1000 to 1002. -/
def shuffledCalls : List RawCall :=
  [{ clock := 1000, raw := tripleFragment 2, rssi := -40, remote_addr := [120] },
   { clock := 1001, raw := tripleFragment 0, rssi := -41, remote_addr := [120] },
   { clock := 1002, raw := tripleFragment 1, rssi := -42, remote_addr := [120] }]

/-! ## The neighbor listing -/

/-- The decimal text that `operator<<` prints for an unsigned value. -/
def decimalNat (n : Nat) : List Byte := (Nat.toDigits 10 n).map fun c => toByte c.toNat

/-- The decimal text that `operator<<` prints for an `int`. -/
def decimalInt (i : Int) : List Byte :=
  if i < 0 then strBytes "-" ++ decimalNat i.natAbs else decimalNat i.natAbs

/-- Lines 417-430: the loop over `g_neighbors`, in the iteration order of the table; `first` is
the flag of line 416 and `ss` the text streamed so far. -/
def json_records : List (List Byte × Neighbor) → Bool → List Byte → List Byte
  | [], _, ss => ss
  | (_, n) :: rest, first, ss =>
    let ss1 := if !first then ss ++ strBytes "," else ss
    let ss2 := ss1 ++ strBytes "\x7b"
    let ss3 := ss2 ++ strBytes "\"device_id\":\"" ++ n.device_id ++ strBytes "\","
    let ss4 := ss3 ++ strBytes "\"address\":\"" ++ n.address ++ strBytes "\","
    let ss5 := ss4 ++ strBytes "\"rssi\":" ++ decimalInt n.rssi ++ strBytes ","
    let ss6 := ss5 ++ strBytes "\"last_seen\":" ++ decimalNat n.last_seen
    json_records rest false (ss6 ++ strBytes "\x7d")

/-- The function `emergency_get_neighbors_json` (lines 411-436): the status and the bytes copied
to `out_json`, if any. The state is only read. -/
def emergency_get_neighbors_json (s : Engine) (max_len : Nat) : Int × Option (List Byte) :=
  let str := json_records s.g_neighbors true (strBytes "[") ++ strBytes "]"
  if str.length + 1 > max_len then (-1, none)
  else (toInt32 str.length, some (str ++ [0]))

/-- One neighbor record as the object
`{"device_id":"<id>","address":"<addr>","rssi":<int>,"last_seen":<uint>}`. -/
def jsonObject (n : Neighbor) : List Byte :=
  strBytes "\x7b\"device_id\":\"" ++ n.device_id ++ strBytes "\",\"address\":\"" ++ n.address
    ++ strBytes "\",\"rssi\":" ++ decimalInt n.rssi ++ strBytes ",\"last_seen\":"
    ++ decimalNat n.last_seen ++ strBytes "\x7d"

/-- The serialization of the specification: `[`, the objects separated by commas, `]`. -/
def jsonArray (records : List Neighbor) : List Byte :=
  strBytes "[" ++ List.intercalate (strBytes ",") (records.map jsonObject) ++ strBytes "]"

/-- The second fragment of the message of `overCountFrame`: index 1, fragment count 40. -/
def overCountFrame1 : List Byte := [69, 80, 1, 0, 0, 0, 78, 1, 40, 4, 1, 66, 0, 1, 8]

/-- The engine after `overCountFrame` was received in the initial state at time 100: one open
reassembly entry of 40 slots for message 78, holding fragment 0. -/
def overCountEngine : Engine :=
  { g_self_device_id := [100]
    g_neighbors := [([66], { device_id := [66], address := [120], rssi := -40, last_seen := 100 })]
    g_incoming_queue := []
    g_reassembly :=
      [(78, { msg_id := 78, frag_count := 40, frags := [7] :: List.replicate 39 [],
              device_id := [66], received_mask := 1, first_seen := 100 })]
    g_msg_timestamps := []
    g_recent_messages := []
    g_next_msg_id := 100 }

/-! ## The receive path when an out-of-range shift yields a value

The source shifts the 32-bit `int` mask by `frag_idx` (line 198) and by `i` (line 227), which
C++ leaves undefined from 32 on. `feed_frame` ends the call there with `shiftOutOfRange`. The
definitions below follow a running program instead: the shift yields some value and the call
goes on, through the store, the completion loop and the join. -/

/-- The values a running program computes for the two out-of-range shifts; nothing is assumed
about them. -/
structure ShiftOracle where
  /-- The mask after `received_mask |= (1 << frag_idx)` for `frag_idx ≥ 32`. -/
  marked : Nat → Nat → Nat
  /-- The value of `received_mask >> i` for `i ≥ 32`. -/
  shifted : Nat → Nat → Nat

/-- The shifts of an x86-64 build: the shift count is taken modulo 32. -/
def x86Shifts : ShiftOracle :=
  { marked := fun mask frag_idx => mask ||| (1 <<< (frag_idx % 32))
    shifted := fun mask i => mask >>> (i % 32) }

/-- Line 198 with the oracle: `received_mask |= (1 << frag_idx)`. -/
def mark_received_with (o : ShiftOracle) (mask frag_idx : Nat) : Nat :=
  if frag_idx < 32 then mask ||| (1 <<< frag_idx) else o.marked mask frag_idx

/-- Lines 224-232 with the oracle: the loop over `i < frag_count` that tests bit `i` of the mask
and stops at the first missing one. -/
def check_complete_with (o : ShiftOracle) (mask : Nat) : Nat → Nat → Bool
  | 0, _ => true
  | remaining + 1, i =>
    if (if 32 ≤ i then o.shifted mask i else mask >>> i) &&& 1 = 0 then false
    else check_complete_with o mask remaining (i + 1)

/-- Lines 169-266 with the oracle; the bounds of the fragment vector are checked as in
`feed_frame`. -/
def feed_frame_with (o : ShiftOracle) (s : Engine) (clock : Nat) (f : ParsedFrame) (rssi : Int)
    (remote_addr : Option (List Byte)) : Except Fault Engine :=
  let (s1, entry) := find_or_create s clock f
  if f.frag_idx ≥ entry.frags.length then .ok s1 else
  andThen (store_frag entry.frags f.frag_idx f.payload) fun frags =>
  let mask := mark_received_with o entry.received_mask f.frag_idx
  let entry1 : ReassemblyEntry := { entry with frags := frags, received_mask := mask }
  let s2 : Engine := { s1 with g_reassembly := mapAssign s1.g_reassembly f.msg_id entry1 }
  andThen (update_neighbor s2.g_neighbors clock f.device_id rssi remote_addr) fun nb =>
  let s3 : Engine := { s2 with g_neighbors := nb }
  if check_complete_with o entry1.received_mask entry1.frag_count 0 then
    andThen (join_frags entry1.frags entry1.frag_count 0) fun full =>
    let s4 := deliver s3 clock f.msg_id full rssi remote_addr entry1.device_id
    .ok (gc_cleanup { s4 with g_reassembly := mapErase s4.g_reassembly f.msg_id } clock)
  else .ok (gc_cleanup s3 clock)

/-- The function `parse_raw_frame_and_feed` (lines 138-266) with the oracle. -/
def parse_raw_frame_and_feed_with (o : ShiftOracle) (s : Engine) (clock : Nat) (raw : List Byte)
    (raw_len : Nat) (rssi : Int) (remote_addr : Option (List Byte)) : Except Fault Engine :=
  andThen (parse_header raw raw_len) fun parsed =>
  match parsed with
  | none => .ok s
  | some f => feed_frame_with o s clock f rssi remote_addr

/-- The function `emergency_receive_raw` (lines 365-372) with the oracle. -/
def emergency_receive_raw_with (o : ShiftOracle) (s : Engine) (clock : Nat)
    (raw : Option (List Byte)) (raw_len : Nat) (rssi : Int) (remote_addr : Option (List Byte)) :
    Except Fault (Int × Engine) :=
  match raw with
  | none => .ok (-1, s)
  | some buf =>
    if raw_len = 0 then .ok (-1, s)
    else andThen (parse_raw_frame_and_feed_with o s clock buf raw_len rssi remote_addr) fun s1 =>
      .ok (0, s1)

/-- The states the public interface can produce when out-of-range shifts yield values: every
call of `emergency_receive_raw` may see any oracle. -/
inductive ReachableWith : Engine → Prop where
  | init (self_device_id : Option (List Byte)) (clock : Nat) :
      ReachableWith (emergency_protocol_init self_device_id clock)
  | send {s : Engine} (clock : Nat) (message : Option (List Byte)) :
      ReachableWith s → ReachableWith (emergency_send_broadcast s clock message).2
  | receive {s s1 : Engine} {status : Int} (o : ShiftOracle) (clock : Nat)
      (raw : Option (List Byte)) (raw_len : Nat) (rssi : Int) (remote_addr : Option (List Byte)) :
      ReachableWith s →
      emergency_receive_raw_with o s clock raw raw_len rssi remote_addr = .ok (status, s1) →
      ReachableWith s1
  | poll {s : Engine} (max_len : Nat) :
      ReachableWith s → ReachableWith (emergency_poll_incoming s max_len).2.2

/-- The calls of `emergency_receive_raw` on a sequence of raw frames, in order, with the
oracle. -/
def receive_all_with (o : ShiftOracle) (s : Engine) : List RawCall → Except Fault Engine
  | [] => .ok s
  | c :: rest =>
    andThen (emergency_receive_raw_with o s c.clock (some c.raw) c.raw.length c.rssi
      (some c.remote_addr)) fun r => receive_all_with o r.2 rest

/-- The only way a step ends early is the null source address of line 218. -/
def OnlyNull {α : Type} (r : Except Fault α) : Prop :=
  ∀ e, r = .error e → e = Fault.nullAddress

/-- Fragment `i` of a message with id 79 from sender `B` that declares 40 fragments, payload
`i`. -/
def overCountFragment (i : Nat) : List Byte :=
  [69, 80, 1, 0, 0, 0, 79, toByte i, 40, 4, 1, 66, 0, 1, toByte i]

/-- The fragments 0 to 30 of that message, received in index order at time 100. -/
def overCountCalls : List RawCall :=
  (List.range 31).map fun i =>
    { clock := 100, raw := overCountFragment i, rssi := -40, remote_addr := [120] }

/-- The state a sequence of calls leaves when out-of-range shifts yield the oracle's values
(the starting state if a call ends at a fault). -/
def run_with (o : ShiftOracle) (s : Engine) (calls : List RawCall) : Engine :=
  match receive_all_with o s calls with
  | .ok s1 => s1
  | .error _ => s

/-- The frames of `longCalls` received a second time, at time 500: more than `DEDUPE_WINDOW`
seconds after the first pass. -/
def longCallsLate : List RawCall :=
  longCalls.map fun c => { c with clock := 500 }

/-! ## Basic lemmas -/

@[simp] theorem andThen_ok {α β : Type} (a : α) (k : α → Except Fault β) :
    andThen (.ok a) k = k a := rfl

@[simp] theorem andThen_error {α β : Type} (e : Fault) (k : α → Except Fault β) :
    andThen (.error e : Except Fault α) k = .error e := rfl

theorem andThen_eq_ok {α β : Type} {r : Except Fault α} {k : α → Except Fault β} {b : β}
    (h : andThen r k = .ok b) : ∃ a, r = .ok a ∧ k a = .ok b := by
  cases r with
  | ok a => exact ⟨a, rfl, h⟩
  | error e => simp at h

theorem rd_of_lt (raw : List Byte) (i : Nat) (h : i < raw.length) :
    rd raw i = .ok (raw.getD i 0) := by
  simp [rd, List.getD, List.getElem?_eq_getElem h]

theorem rdRange_of_le (raw : List Byte) (start len : Nat) (h : start + len ≤ raw.length) :
    rdRange raw start len = .ok ((raw.drop start).take len) := by
  unfold rdRange
  by_cases hl : len = 0
  · simp [hl]
  · simp [hl, h]

theorem read_u32_be_of_le (raw : List Byte) (off : Nat) (h : off + 4 ≤ raw.length) :
    read_u32_be raw off = .ok (((raw.getD off 0).val <<< 24) ||| ((raw.getD (off + 1) 0).val <<< 16)
      ||| ((raw.getD (off + 2) 0).val <<< 8) ||| (raw.getD (off + 3) 0).val) := by
  simp [read_u32_be, rd_of_lt raw off (by omega), rd_of_lt raw (off + 1) (by omega),
    rd_of_lt raw (off + 2) (by omega), rd_of_lt raw (off + 3) (by omega)]

theorem read_u16_be_of_le (raw : List Byte) (off : Nat) (h : off + 2 ≤ raw.length) :
    read_u16_be raw off = .ok (((raw.getD off 0).val <<< 8) ||| (raw.getD (off + 1) 0).val) := by
  simp [read_u16_be, rd_of_lt raw off (by omega), rd_of_lt raw (off + 1) (by omega)]

theorem parse_header_eq_decode (raw : List Byte) (raw_len : Nat) (h : raw_len ≤ raw.length) :
    parse_header raw raw_len = .ok (decode raw raw_len) := by
  unfold parse_header decode declaredPayloadLen declaredDevLen
  by_cases h12 : raw_len < 12
  · simp [h12]
  · have hl : 12 ≤ raw.length := by omega
    simp only [h12, if_false]
    rw [rd_of_lt raw 0 (by omega), rd_of_lt raw 1 (by omega), rd_of_lt raw 2 (by omega),
      rd_of_lt raw 7 (by omega), rd_of_lt raw 8 (by omega), rd_of_lt raw 9 (by omega),
      rd_of_lt raw 10 (by omega), read_u32_be_of_le raw 3 (by omega)]
    simp only [andThen_ok]
    by_cases h0 : (raw.getD 0 0).val ≠ 69
    · rw [if_pos h0, if_pos h0]
    rw [if_neg h0, if_neg h0]
    by_cases h1 : (raw.getD 1 0).val ≠ 80
    · rw [if_pos h1, if_pos h1]
    rw [if_neg h1, if_neg h1]
    by_cases h2 : (raw.getD 2 0).val ≠ 1
    · rw [if_pos h2, if_pos h2]
    rw [if_neg h2, if_neg h2]
    by_cases h3 : 11 + (raw.getD 10 0).val + 2 > raw_len
    · rw [if_pos h3, if_pos h3]
    rw [if_neg h3, if_neg h3]
    rw [rdRange_of_le raw 11 _ (by omega), read_u16_be_of_le raw _ (by omega)]
    simp only [andThen_ok]
    rw [if_neg h3]
    by_cases h4 : 11 + (raw.getD 10 0).val + 2 +
        (((raw.getD (11 + (raw.getD 10 0).val) 0).val <<< 8) |||
          (raw.getD (11 + (raw.getD 10 0).val + 1) 0).val) > raw_len
    · rw [if_pos h4, if_pos h4]
    rw [if_neg h4, if_neg h4]
    rw [rdRange_of_le raw _ _ (by omega)]
    simp only [andThen_ok]


theorem decode_rejected (raw : List Byte) (raw_len : Nat)
    (h : raw_len < 12 ∨ raw.getD 0 0 ≠ 69 ∨ raw.getD 1 0 ≠ 80 ∨ raw.getD 2 0 ≠ 1 ∨
      raw_len < 11 + declaredDevLen raw + 2 ∨
      raw_len < 11 + declaredDevLen raw + 2 + declaredPayloadLen raw) :
    decode raw raw_len = none := by
  unfold decode
  split_ifs with a b c d e f <;> try rfl
  exfalso
  rcases h with h | h | h | h | h | h
  · exact a h
  · exact h (Fin.ext (not_not.mp b))
  · exact h (Fin.ext (not_not.mp c))
  · exact h (Fin.ext (not_not.mp d))
  · omega
  · omega

/-- C4. Invalid input to `emergency_receive_raw` never mutates state: an absent buffer or a
length of 0 gives status -1; a buffer (really holding `raw_len` bytes) that is shorter than the
12-byte minimum header, or has a magic other than 'E','P', or a version other than 1, or whose
declared sender-id length or payload length would read past the end, gives status 0; in every
one of these cases the returned engine state is the state before the call. -/
theorem receive_raw_invalid_no_mutation (s : Engine) (clock : Nat) (rssi : Int)
    (remote_addr : Option (List Byte)) :
    (∀ raw_len, emergency_receive_raw s clock none raw_len rssi remote_addr = .ok (-1, s)) ∧
    (∀ buf, emergency_receive_raw s clock (some buf) 0 rssi remote_addr = .ok (-1, s)) ∧
    (∀ buf raw_len, 0 < raw_len → raw_len ≤ buf.length →
      (raw_len < 12 ∨ buf.getD 0 0 ≠ 69 ∨ buf.getD 1 0 ≠ 80 ∨ buf.getD 2 0 ≠ 1 ∨
        raw_len < 11 + declaredDevLen buf + 2 ∨
        raw_len < 11 + declaredDevLen buf + 2 + declaredPayloadLen buf) →
      emergency_receive_raw s clock (some buf) raw_len rssi remote_addr = .ok (0, s)) := by
  refine ⟨fun _ => rfl, fun _ => rfl, ?_⟩
  intro buf raw_len hpos hlen hrej
  have hne : raw_len ≠ 0 := by omega
  simp [emergency_receive_raw, parse_raw_frame_and_feed, hne,
    parse_header_eq_decode buf raw_len hlen, decode_rejected buf raw_len hrej]

/-- Witness for C4: a 14-byte buffer with the right magic and version whose declared payload
length (5) passes the end of the buffer is rejected with status 0 and no state change. -/
theorem receive_raw_invalid_no_mutation_witness :
    emergency_receive_raw sampleEngine 1000 (some [69, 80, 1, 0, 0, 0, 9, 1, 2, 4, 1, 65, 0, 5]) 14
      (-40) none = .ok (0, sampleEngine) :=
  (receive_raw_invalid_no_mutation sampleEngine 1000 (-40) none).2.2
    [69, 80, 1, 0, 0, 0, 9, 1, 2, 4, 1, 65, 0, 5] 14 (by decide) (by decide)
    (Or.inr (Or.inr (Or.inr (Or.inr (Or.inr (by decide))))))

/-! ## Polling -/

theorem toInt32_of_lt (x : Nat) (h : x < 2147483648) : toInt32 x = (x : Int) := by
  unfold toInt32
  have h1 : x % 4294967296 = x := Nat.mod_eq_of_lt (by omega)
  rw [h1, if_pos h]

/-- C6 (as stated) fails: a one-fragment frame whose 12-byte payload `P` begins with 'E','P' is
delivered by the receive path, yet `emergency_poll_incoming` with room for 100 bytes returns 0
and copies nothing, where the claim promises `min 100 |P| = 12` bytes of `P`. -/
theorem poll_incoming_payload_counterexample :
    ∃ s1 : Engine,
      emergency_receive_raw (emergency_protocol_init none 1000) 1000
        (some [69, 80, 1, 0, 0, 0, 7, 0, 1, 4, 0, 0, 12, 69, 80, 0, 0, 0, 0, 0, 0, 0, 0, 0, 0]) 25
        (-40) (some [120]) = .ok (0, s1) ∧
      s1.g_incoming_queue.map (fun ip => ip.data) = [[69, 80, 0, 0, 0, 0, 0, 0, 0, 0, 0, 0]] ∧
      (emergency_poll_incoming s1 100).1 = 0 ∧
      (emergency_poll_incoming s1 100).2.1 = [] ∧
      min 100 ([69, 80, 0, 0, 0, 0, 0, 0, 0, 0, 0, 0] : List Byte).length = 12 :=
  ⟨_, rfl, rfl, rfl, rfl, rfl⟩

/-- C6 (amended). For every state whose oldest queued packet holds a reassembled payload `P`
(at most 255 fragments of at most 65535 bytes) that is shorter than 12 bytes or does not begin
with the bytes 'E','P', and every `max_len`, `emergency_poll_incoming` returns
`min max_len |P|`, copies exactly the first `min max_len |P|` bytes of `P` into the buffer and
removes that packet from the queue. -/
theorem poll_incoming_returns_payload (s : Engine) (ip : IncomingPacket)
    (rest : List IncomingPacket) (max_len : Nat)
    (hq : s.g_incoming_queue = ip :: rest)
    (hsize : ip.data.length ≤ 255 * 65535)
    (hplain : ip.data.length < 12 ∨ ip.data[0]? ≠ some 69 ∨ ip.data[1]? ≠ some 80) :
    emergency_poll_incoming s max_len =
      (((min max_len ip.data.length : Nat) : Int), ip.data.take (min max_len ip.data.length),
        { s with g_incoming_queue := rest }) := by
  have hcond : ¬ (ip.data.length ≥ 12 ∧ ip.data[0]? = some 69 ∧ ip.data[1]? = some 80) := by
    rintro ⟨h1, h2, h3⟩
    rcases hplain with h | h | h
    · omega
    · exact h h2
    · exact h h3
  have hmod : ip.data.length % 4294967296 = ip.data.length := Nat.mod_eq_of_lt (by omega)
  unfold emergency_poll_incoming
  rw [hq]
  simp only [if_neg hcond, hmod]
  rw [toInt32_of_lt _ (by omega)]

/-- Witness for C6 (amended): the three-byte payload queued in `sampleEngine`, polled with room
for two bytes. -/
theorem poll_incoming_returns_payload_witness :
    emergency_poll_incoming sampleEngine 2 =
      (2, [1, 2], { sampleEngine with g_incoming_queue := [] }) :=
  poll_incoming_returns_payload sampleEngine
    { data := [1, 2, 3], rssi := -60, remote_addr := [120], device_id := [65], timestamp := 900 }
    [] 2 rfl (by decide) (Or.inl (by decide))

/-! ## The delivery queue bound -/

theorem send_broadcast_queue_length (s : Engine) (clock : Nat) (msg : List Byte) :
    (emergency_send_broadcast s clock (some msg)).2.g_incoming_queue.length =
      s.g_incoming_queue.length + send_frag_count msg.length := by
  simp [emergency_send_broadcast, send_frames]

theorem sendEmptyTimes_reachable (n : Nat) (s : Engine) (h : Reachable s) :
    Reachable (sendEmptyTimes n s) := by
  induction n generalizing s with
  | zero => exact h
  | succ n ih => exact ih _ (Reachable.send 0 (some []) h)

theorem sendEmptyTimes_queue_length (n : Nat) (s : Engine) :
    (sendEmptyTimes n s).g_incoming_queue.length = s.g_incoming_queue.length + n := by
  induction n generalizing s with
  | zero => rfl
  | succ n ih =>
    show (sendEmptyTimes n (emergency_send_broadcast s 0 (some [])).2).g_incoming_queue.length = _
    rw [ih, send_broadcast_queue_length]
    have : send_frag_count ([] : List Byte).length = 1 := rfl
    omega

/-- C7 (code defect). After `emergency_protocol_init` and 1025 calls of
`emergency_send_broadcast("")` the engine is in a reachable state whose delivery queue holds
1025 packets, more than the capacity `MAX_INCOMING_BUF` = 1024: the send path appends its
loopback packets without the cap that the receive path and the sweep apply. -/
theorem send_broadcast_exceeds_queue_capacity :
    Reachable (sendEmptyTimes 1025 (emergency_protocol_init none 0)) ∧
    (sendEmptyTimes 1025 (emergency_protocol_init none 0)).g_incoming_queue.length = 1025 ∧
    ¬ (sendEmptyTimes 1025 (emergency_protocol_init none 0)).g_incoming_queue.length
        ≤ MAX_INCOMING_BUF := by
  have hlen := sendEmptyTimes_queue_length 1025 (emergency_protocol_init none 0)
  have h0 : (emergency_protocol_init none 0).g_incoming_queue.length = 0 := rfl
  refine ⟨sendEmptyTimes_reachable 1025 _ (Reachable.init none 0), by omega, ?_⟩
  show ¬ _ ≤ 1024
  omega

/-! ## The wire codec -/

theorem toByte_val (n : Nat) : (toByte n).val = n % 256 := rfl

theorem testBit_eq_false_of_lt {x i j : Nat} (h : x < 2 ^ i) (hij : i ≤ j) : x.testBit j = false :=
  Nat.testBit_lt_two_pow (lt_of_lt_of_le h (Nat.pow_le_pow_right (by decide) hij))

theorem u16_be_roundtrip (L : Nat) (h : L < 65536) :
    ((toByte ((L >>> 8) &&& 255)).val <<< 8) ||| (toByte ((L >>> 0) &&& 255)).val = L := by
  apply Nat.eq_of_testBit_eq
  intro j
  have e255 : (255 : Nat) = 2 ^ 8 - 1 := rfl
  have e256 : (256 : Nat) = 2 ^ 8 := rfl
  simp only [toByte_val, e255, e256, Nat.testBit_or, Nat.testBit_shiftLeft, Nat.testBit_mod_two_pow,
    Nat.testBit_and, Nat.testBit_shiftRight, Nat.testBit_two_pow_sub_one]
  by_cases h1 : j < 8
  · simp [h1]
  · by_cases h2 : j < 16
    · have e : 8 + (j - 8) = j := by omega
      have h3 : j - 8 < 8 := by omega
      have h4 : j ≥ 8 := by omega
      simp [h1, h3, h4, e]
    · have hf : L.testBit j = false := testBit_eq_false_of_lt (i := 16) h (by omega)
      have h3 : ¬ j - 8 < 8 := by omega
      simp [h1, h3, hf]

theorem u32_be_roundtrip (m : Nat) (h : m < 4294967296) :
    ((toByte ((m >>> 24) &&& 255)).val <<< 24) ||| ((toByte ((m >>> 16) &&& 255)).val <<< 16)
      ||| ((toByte ((m >>> 8) &&& 255)).val <<< 8) ||| (toByte ((m >>> 0) &&& 255)).val = m := by
  apply Nat.eq_of_testBit_eq
  intro j
  have e255 : (255 : Nat) = 2 ^ 8 - 1 := rfl
  have e256 : (256 : Nat) = 2 ^ 8 := rfl
  simp only [toByte_val, e255, e256, Nat.testBit_or, Nat.testBit_shiftLeft, Nat.testBit_mod_two_pow,
    Nat.testBit_and, Nat.testBit_shiftRight, Nat.testBit_two_pow_sub_one]
  by_cases h1 : j < 8
  · simp [h1]
    omega
  · by_cases h2 : j < 16
    · have e : 8 + (j - 8) = j := by omega
      have h3 : j - 8 < 8 := by omega
      have h4 : j ≥ 8 := by omega
      have h5 : ¬ j ≥ 16 := by omega
      have h6 : ¬ j ≥ 24 := by omega
      simp [h1, h3, h4, h5, h6, e]
    · by_cases h2b : j < 24
      · have e : 16 + (j - 16) = j := by omega
        have h3 : j - 16 < 8 := by omega
        have h4 : j ≥ 16 := by omega
        have h5 : ¬ j - 8 < 8 := by omega
        have h6 : ¬ j ≥ 24 := by omega
        simp [h1, h3, h4, h5, h6, e]
      · by_cases h2c : j < 32
        · have e : 24 + (j - 24) = j := by omega
          have h3 : j - 24 < 8 := by omega
          have h4 : j ≥ 24 := by omega
          have h5 : ¬ j - 8 < 8 := by omega
          have h6 : ¬ j - 16 < 8 := by omega
          simp [h1, h3, h4, h5, h6, e]
        · have hf : m.testBit j = false := testBit_eq_false_of_lt (i := 32) h (by omega)
          have h3 : ¬ j - 8 < 8 := by omega
          have h5 : ¬ j - 16 < 8 := by omega
          have h6 : ¬ j - 24 < 8 := by omega
          simp [h1, h3, h5, h6, hf]

theorem toByte_val_of_lt (n : Nat) (h : n < 256) : (toByte n).val = n := by
  rw [toByte_val]; exact Nat.mod_eq_of_lt h

theorem getD_append_length (l1 l2 : List Byte) (k : Nat) :
    (l1 ++ l2).getD (l1.length + k) 0 = l2.getD k 0 := by
  simp [List.getD, List.getElem?_append_right]

theorem getD_frame_tail (hdr l1 l2 : List Byte) (n k : Nat) (hn : hdr.length = n) :
    (hdr ++ l1 ++ l2).getD (n + l1.length + k) 0 = l2.getD k 0 := by
  subst hn
  rw [← List.length_append, getD_append_length]

/-- The decoder on a buffer of the shape the encoder writes. -/
theorem decode_frame_shape (b3 b4 b5 b6 bi bc bt : Byte) (dev chunk : List Byte)
    (hdev : dev.length < 256) (hchunk : chunk.length < 65536) :
    decode ([69, 80, 1, b3, b4, b5, b6, bi, bc, bt, toByte dev.length] ++ dev
        ++ [toByte ((chunk.length >>> 8) &&& 255), toByte ((chunk.length >>> 0) &&& 255)] ++ chunk)
      (11 + dev.length + 2 + chunk.length) =
    some { msg_id := (b3.val <<< 24) ||| (b4.val <<< 16) ||| (b5.val <<< 8) ||| b6.val
           frag_idx := bi.val, frag_count := bc.val, ttl := bt.val
           device_id := dev, payload := chunk } := by
  have hdl : declaredDevLen ([69, 80, 1, b3, b4, b5, b6, bi, bc, bt, toByte dev.length] ++ dev
        ++ [toByte ((chunk.length >>> 8) &&& 255), toByte ((chunk.length >>> 0) &&& 255)] ++ chunk)
      = dev.length := by
    simp [declaredDevLen, toByte_val_of_lt _ hdev]
  have hpl : declaredPayloadLen ([69, 80, 1, b3, b4, b5, b6, bi, bc, bt, toByte dev.length] ++ dev
        ++ [toByte ((chunk.length >>> 8) &&& 255), toByte ((chunk.length >>> 0) &&& 255)] ++ chunk)
      = chunk.length := by
    unfold declaredPayloadLen
    rw [hdl, List.append_assoc _ _ chunk]
    have e0 := getD_frame_tail [69, 80, 1, b3, b4, b5, b6, bi, bc, bt, toByte dev.length] dev
      ([toByte ((chunk.length >>> 8) &&& 255), toByte ((chunk.length >>> 0) &&& 255)] ++ chunk)
      11 0 rfl
    have e1 := getD_frame_tail [69, 80, 1, b3, b4, b5, b6, bi, bc, bt, toByte dev.length] dev
      ([toByte ((chunk.length >>> 8) &&& 255), toByte ((chunk.length >>> 0) &&& 255)] ++ chunk)
      11 1 rfl
    rw [Nat.add_zero] at e0
    rw [e0, e1]
    exact u16_be_roundtrip chunk.length hchunk
  have hdrop1 : (([69, 80, 1, b3, b4, b5, b6, bi, bc, bt, toByte dev.length] ++ dev
        ++ [toByte ((chunk.length >>> 8) &&& 255), toByte ((chunk.length >>> 0) &&& 255)] ++ chunk).drop
          11).take dev.length = dev := by
    simp
  have hdrop2 : (([69, 80, 1, b3, b4, b5, b6, bi, bc, bt, toByte dev.length] ++ dev
        ++ [toByte ((chunk.length >>> 8) &&& 255), toByte ((chunk.length >>> 0) &&& 255)] ++ chunk).drop
          (11 + dev.length + 2)).take chunk.length = chunk := by
    have e : [69, 80, 1, b3, b4, b5, b6, bi, bc, bt, toByte dev.length] ++ dev
        ++ [toByte ((chunk.length >>> 8) &&& 255), toByte ((chunk.length >>> 0) &&& 255)] ++ chunk
        = ([69, 80, 1, b3, b4, b5, b6, bi, bc, bt, toByte dev.length] ++ dev
        ++ [toByte ((chunk.length >>> 8) &&& 255), toByte ((chunk.length >>> 0) &&& 255)]) ++ chunk := rfl
    rw [e, List.drop_left' (by simp; omega), List.take_length]
  unfold decode
  rw [hdl, hpl, hdrop1, hdrop2]
  have c1 : ¬ (11 + dev.length + 2 + chunk.length < 12) := by omega
  have c5 : ¬ (11 + dev.length + 2 > 11 + dev.length + 2 + chunk.length) := by omega
  have c6 : ¬ (11 + dev.length + 2 + chunk.length > 11 + dev.length + 2 + chunk.length) := by omega
  rw [if_neg c1, if_neg c5, if_neg c6]
  simp
  exact ⟨rfl, rfl⟩

theorem encode_frame_length (self_id : List Byte) (msg_id : Nat) (pv : List Byte) (fc i : Nat) :
    (encode_frame self_id msg_id pv fc i).length =
      11 + (self_id.take 31).length + 2 + ((pv.drop (i * 20)).take 20).length := by
  simp [encode_frame]
  omega

/-- Codec round trip: the decoder recovers what `encode_frame` wrote. -/
theorem decode_encode_frame (self_id : List Byte) (msg_id : Nat) (pv : List Byte) (fc i : Nat)
    (hm : msg_id < 4294967296) (hfc : fc < 256) (hi : i < 256) :
    decode (encode_frame self_id msg_id pv fc i) (encode_frame self_id msg_id pv fc i).length =
      some { msg_id := msg_id, frag_idx := i, frag_count := fc, ttl := 4
             device_id := self_id.take 31, payload := (pv.drop (i * 20)).take 20 } := by
  have hD : (min self_id.length (MAX_DEVICE_ID - 1)) % 256 = (self_id.take 31).length := by
    simp [MAX_DEVICE_ID]
    omega
  have hT : self_id.take (self_id.take 31).length = self_id.take 31 := by
    simp [List.take_eq_take]
  have hC : (pv.drop (i * 20)).take (min 20 (pv.length - i * 20)) = (pv.drop (i * 20)).take 20 := by
    simp [List.take_eq_take]
  have hL : (min 20 (pv.length - i * 20)) % 65536 = ((pv.drop (i * 20)).take 20).length := by
    simp
  have hshape := decode_frame_shape (toByte ((msg_id >>> 24) &&& 255))
    (toByte ((msg_id >>> 16) &&& 255)) (toByte ((msg_id >>> 8) &&& 255))
    (toByte ((msg_id >>> 0) &&& 255)) (toByte i) (toByte fc) 4 (self_id.take 31)
    ((pv.drop (i * 20)).take 20) (by simp) (by simp)
  rw [encode_frame_length]
  unfold encode_frame
  simp only [hD, hC, hL]
  rw [hT]
  rw [hshape, u32_be_roundtrip msg_id hm, toByte_val_of_lt i hi, toByte_val_of_lt fc hfc]
  rfl

/-! ## Fragmentation -/

theorem send_frag_count_of_le (len : Nat) (h : len ≤ 5100) :
    send_frag_count len = max 1 ((len + 19) / 20) := by
  unfold send_frag_count
  have h1 : (len + 20 - 1) / 20 = (len + 19) / 20 := by congr 1
  have h2 : (len + 19) / 20 < 256 := by omega
  simp only [h1, Nat.mod_eq_of_lt h2]
  split_ifs with h0 <;> omega

theorem bytesBetween_chunk (msg : List Byte) (i : Nat) :
    bytesBetween msg (20 * i) (min msg.length (20 * i + 20)) = (msg.drop (i * 20)).take 20 := by
  unfold bytesBetween
  rw [List.drop_take, Nat.mul_comm 20 i]
  simp [List.take_eq_take]
  omega

theorem join_chunks_take (msg : List Byte) (n : Nat) :
    ((List.range n).map (fun i => (msg.drop (i * 20)).take 20)).flatten = msg.take (n * 20) := by
  induction n with
  | zero => simp
  | succ n ih =>
    rw [List.range_succ, List.map_append, List.flatten_append, ih]
    simp only [List.map_cons, List.map_nil, List.flatten_cons, List.flatten_nil, List.append_nil]
    rw [Nat.succ_mul, List.take_add]

/-- The frames of a 5101-byte broadcast: the fragment count 256 wraps to 0 in the `uint8_t` of
line 313, is reset to 1, and one frame with the first 20 bytes is built. -/
theorem send_frames_overlong :
    send_frames [] 6 (List.replicate 5101 65) =
      [[69, 80, 1, 0, 0, 0, 6, 0, 1, 4, 0, 0, 20] ++ List.replicate 20 65] := by
  have hl : (List.replicate 5101 (65 : Byte)).length = 5101 := List.length_replicate _ _
  have hc : send_frag_count 5101 = 1 := by decide
  unfold send_frames
  rw [hl, hc]
  show [encode_frame [] 6 (List.replicate 5101 65) 1 0] = _
  unfold encode_frame
  rw [hl]
  simp only [Nat.zero_mul, List.drop_zero, List.take_replicate]
  decide

/-- C10 (as stated) fails: for a message of 5101 bytes `emergency_send_broadcast` builds and
queues a single frame, not `max 1 (ceil (5101 / 20)) = 256`; that frame declares a fragment
count of 1 and carries only the first 20 bytes. -/
theorem send_broadcast_fragments_counterexample :
    max 1 ((5101 + 19) / 20) = 256 ∧
    send_frames [] 6 (List.replicate 5101 65) =
      [[69, 80, 1, 0, 0, 0, 6, 0, 1, 4, 0, 0, 20] ++ List.replicate 20 65] ∧
    (emergency_send_broadcast (emergency_protocol_init (some []) 5) 5
        (some (List.replicate 5101 65))).2.g_incoming_queue.length = 1 := by
  have hl : (List.replicate 5101 (65 : Byte)).length = 5101 := List.length_replicate _ _
  have hc : send_frag_count 5101 = 1 := by decide
  refine ⟨by decide, send_frames_overlong, ?_⟩
  rw [send_broadcast_queue_length, hl, hc]
  rfl

/-- C10 (amended). For every message of length `len ≤ 5100`, `emergency_send_broadcast` appends
to the queue exactly `n = max 1 (ceil (len / 20))` frames in fragment order; frame `i` passes
the decoder with fragment index `i`, fragment count `n`, and as payload the message bytes
`[20 * i, min len (20 * i + 20))`; the payloads concatenated in index order are the message. -/
theorem send_broadcast_fragments (s : Engine) (clock : Nat) (msg : List Byte)
    (hlen : msg.length ≤ 5100) :
    (emergency_send_broadcast s clock (some msg)).2.g_incoming_queue.map (fun ip => ip.data) =
      s.g_incoming_queue.map (fun ip => ip.data) ++
        send_frames s.g_self_device_id ((s.g_next_msg_id + 1) % 4294967296) msg ∧
    (send_frames s.g_self_device_id ((s.g_next_msg_id + 1) % 4294967296) msg).length =
      max 1 ((msg.length + 19) / 20) ∧
    (send_frames s.g_self_device_id ((s.g_next_msg_id + 1) % 4294967296) msg).map
        (fun fr => parse_header fr fr.length) =
      (List.range (max 1 ((msg.length + 19) / 20))).map (fun i => .ok (some
        { msg_id := (s.g_next_msg_id + 1) % 4294967296, frag_idx := i
          frag_count := max 1 ((msg.length + 19) / 20), ttl := 4
          device_id := s.g_self_device_id.take 31
          payload := bytesBetween msg (20 * i) (min msg.length (20 * i + 20)) })) ∧
    ((List.range (max 1 ((msg.length + 19) / 20))).map
        (fun i => bytesBetween msg (20 * i) (min msg.length (20 * i + 20)))).flatten = msg := by
  have hn := send_frag_count_of_le msg.length hlen
  have hn256 : max 1 ((msg.length + 19) / 20) < 256 := by omega
  refine ⟨?_, ?_, ?_, ?_⟩
  · simp [emergency_send_broadcast, Function.comp_def]
  · simp [send_frames, hn]
  · unfold send_frames
    rw [hn, List.map_map]
    apply List.map_congr_left
    intro i hi
    have hi2 : i < max 1 ((msg.length + 19) / 20) := List.mem_range.mp hi
    simp only [Function.comp_apply]
    rw [parse_header_eq_decode _ _ (le_refl _),
      decode_encode_frame _ _ _ _ _ (Nat.mod_lt _ (by decide)) hn256 (by omega),
      bytesBetween_chunk]
  · simp only [bytesBetween_chunk]
    rw [join_chunks_take]
    apply List.take_of_length_le
    omega

/-- Witness for C10 (amended): the 25-byte message `A..Y` sent from `sampleEngine`. -/
theorem send_broadcast_fragments_witness :
    (send_frames [100, 101] 42 ((List.range 25).map (fun i => toByte (65 + i)))).length = 2 :=
  (send_broadcast_fragments sampleEngine 1000 ((List.range 25).map (fun i => toByte (65 + i)))
    (by decide)).2.1

/-! ## Maps -/

theorem mapFind_mapAssign_self {κ α : Type} [DecidableEq κ] (m : List (κ × α)) (k : κ) (v : α) :
    mapFind (mapAssign m k v) k = some v := by
  induction m with
  | nil => simp [mapAssign, mapFind]
  | cons p rest ih =>
    obtain ⟨k1, v1⟩ := p
    by_cases h : k1 = k
    · simp [mapAssign, mapFind, h]
    · simp [mapAssign, mapFind, h, ih]

theorem mapFind_mapAssign_ne {κ α : Type} [DecidableEq κ] (m : List (κ × α)) (k k2 : κ) (v : α)
    (hne : k2 ≠ k) : mapFind (mapAssign m k v) k2 = mapFind m k2 := by
  induction m with
  | nil =>
    have : ¬ k = k2 := fun h => hne h.symm
    simp [mapAssign, mapFind, this]
  | cons p rest ih =>
    obtain ⟨k1, v1⟩ := p
    by_cases h : k1 = k
    · have h2 : ¬ k = k2 := fun h => hne h.symm
      have h3 : ¬ k1 = k2 := by rw [h]; exact h2
      simp [mapAssign, mapFind, h, h2]
    · by_cases h3 : k1 = k2
      · subst h3
        simp [mapAssign, mapFind, h]
      · simp [mapAssign, mapFind, h, h3, ih]

theorem mapAssign_length_of_some {κ α : Type} [DecidableEq κ] (m : List (κ × α)) (k : κ) (v v0 : α)
    (h : mapFind m k = some v0) : (mapAssign m k v).length = m.length := by
  induction m with
  | nil => simp [mapFind] at h
  | cons p rest ih =>
    obtain ⟨k1, v1⟩ := p
    by_cases hk : k1 = k
    · simp [mapAssign, hk]
    · simp only [mapFind, hk, if_false] at h
      simp [mapAssign, hk, ih h]

theorem mapAssign_length_of_none {κ α : Type} [DecidableEq κ] (m : List (κ × α)) (k : κ) (v : α)
    (h : mapFind m k = none) : (mapAssign m k v).length = m.length + 1 := by
  induction m with
  | nil => simp [mapAssign]
  | cons p rest ih =>
    obtain ⟨k1, v1⟩ := p
    by_cases hk : k1 = k
    · simp [mapFind, hk] at h
    · simp only [mapFind, hk, if_false] at h
      simp [mapAssign, hk, ih h]

theorem mem_mapAssign {κ α : Type} [DecidableEq κ] (m : List (κ × α)) (k : κ) (v : α)
    (p : κ × α) (h : p ∈ mapAssign m k v) : p = (k, v) ∨ p ∈ m := by
  induction m with
  | nil => simpa [mapAssign] using h
  | cons q rest ih =>
    obtain ⟨k1, v1⟩ := q
    by_cases hk : k1 = k
    · simp only [mapAssign, hk, if_true, List.mem_cons] at h
      rcases h with h | h
      · exact Or.inl h
      · exact Or.inr (List.mem_cons_of_mem _ h)
    · simp only [mapAssign, hk, if_false, List.mem_cons] at h
      rcases h with h | h
      · exact Or.inr (by rw [h]; exact List.mem_cons_self _ _)
      · rcases ih h with h2 | h2
        · exact Or.inl h2
        · exact Or.inr (List.mem_cons_of_mem _ h2)

theorem mapFind_some_mem {κ α : Type} [DecidableEq κ] (m : List (κ × α)) (k : κ) (v : α)
    (h : mapFind m k = some v) : (k, v) ∈ m := by
  induction m with
  | nil => simp [mapFind] at h
  | cons p rest ih =>
    obtain ⟨k1, v1⟩ := p
    by_cases hk : k1 = k
    · simp only [mapFind, hk, if_true, Option.some.injEq] at h
      rw [hk, h]
      exact List.mem_cons_self _ _
    · simp only [mapFind, hk, if_false] at h
      exact List.mem_cons_of_mem _ (ih h)

theorem mapFind_eq_none_iff {κ α : Type} [DecidableEq κ] (m : List (κ × α)) (k : κ) :
    mapFind m k = none ↔ ∀ p ∈ m, p.1 ≠ k := by
  induction m with
  | nil => simp [mapFind]
  | cons p rest ih =>
    obtain ⟨k1, v1⟩ := p
    by_cases hk : k1 = k
    · simp [mapFind, hk]
    · simp [mapFind, hk, ih]

theorem mapFind_filter_none {κ α : Type} [DecidableEq κ] (m : List (κ × α)) (k : κ)
    (q : κ × α → Bool) (h : mapFind m k = none) : mapFind (m.filter q) k = none := by
  rw [mapFind_eq_none_iff] at h ⊢
  intro p hp
  exact h p (List.mem_filter.mp hp).1

theorem mapFind_filter_some {κ α : Type} [DecidableEq κ] (m : List (κ × α)) (k : κ) (v : α)
    (q : κ × α → Bool) (h : mapFind m k = some v) (hq : q (k, v) = true) :
    mapFind (m.filter q) k = some v := by
  induction m with
  | nil => simp [mapFind] at h
  | cons p rest ih =>
    obtain ⟨k1, v1⟩ := p
    by_cases hk : k1 = k
    · simp only [mapFind, hk, if_true, Option.some.injEq] at h
      subst hk h
      simp [List.filter, hq, mapFind]
    · simp only [mapFind, hk, if_false] at h
      by_cases hq1 : q (k1, v1) = true
      · simp [List.filter, hq1, mapFind, hk, ih h]
      · simp [List.filter, hq1, ih h]

theorem mapFind_mapErase_self {κ α : Type} [DecidableEq κ] (m : List (κ × α)) (k : κ) :
    mapFind (mapErase m k) k = none := by
  rw [mapFind_eq_none_iff]
  intro p hp
  have := (List.mem_filter.mp hp).2
  simpa using this

theorem mapFind_filter_key {κ α : Type} [DecidableEq κ] (m : List (κ × α)) (k : κ)
    (q : κ × α → Bool) (hq : ∀ v, q (k, v) = true) : mapFind (m.filter q) k = mapFind m k := by
  induction m with
  | nil => rfl
  | cons p rest ih =>
    obtain ⟨k1, v1⟩ := p
    by_cases hk : k1 = k
    · subst hk
      simp [List.filter, hq, mapFind]
    · by_cases hq1 : q (k1, v1) = true
      · simp [List.filter, hq1, mapFind, hk, ih]
      · simp [List.filter, hq1, mapFind, hk, ih]

theorem mapFind_mapErase_ne {κ α : Type} [DecidableEq κ] (m : List (κ × α)) (k k2 : κ)
    (hne : k2 ≠ k) : mapFind (mapErase m k) k2 = mapFind m k2 := by
  unfold mapErase
  apply mapFind_filter_key
  intro v
  simpa using hne

/-! ## The loops of the receive path -/

theorem mask_bit_zero_iff (mask i : Nat) : ((mask >>> i) &&& 1 = 0) ↔ mask.testBit i = false := by
  simp [Nat.testBit, Nat.and_comm]

theorem check_complete_eq (mask r i : Nat) (h : i + r ≤ 32) :
    check_complete mask r i =
      .ok (decide (∀ j, i ≤ j → j < i + r → mask.testBit j = true)) := by
  induction r generalizing i with
  | zero =>
    simp only [check_complete]
    congr 1
    symm
    rw [decide_eq_true_iff]
    intro j h1 h2
    omega
  | succ r ih =>
    have hi : ¬ 32 ≤ i := by omega
    simp only [check_complete, if_neg hi]
    by_cases hb : (mask >>> i) &&& 1 = 0
    · rw [if_pos hb]
      congr 1
      symm
      rw [decide_eq_false_iff_not]
      intro hall
      have := hall i (le_refl i) (by omega)
      rw [(mask_bit_zero_iff mask i).mp hb] at this
      exact Bool.false_ne_true this
    · rw [if_neg hb, ih (i + 1) (by omega)]
      congr 1
      rw [decide_eq_decide]
      have hbit : mask.testBit i = true := by
        rw [mask_bit_zero_iff] at hb
        simpa using hb
      constructor
      · intro hall j h1 h2
        by_cases hj : j = i
        · rw [hj]; exact hbit
        · exact hall j (by omega) (by omega)
      · intro hall j h1 h2
        exact hall j (by omega) (by omega)

theorem join_frags_eq (frags : List (List Byte)) (r i : Nat) (h : i + r ≤ frags.length) :
    join_frags frags r i = .ok (((frags.drop i).take r).flatten) := by
  induction r generalizing i with
  | zero => simp [join_frags]
  | succ r ih =>
    have hi : i < frags.length := by omega
    simp only [join_frags, List.getElem?_eq_getElem hi]
    rw [ih (i + 1) (by omega)]
    simp only [andThen_ok]
    rw [List.drop_eq_getElem_cons hi, List.take_succ_cons, List.flatten_cons]

theorem check_complete_of_complete (mask n : Nat) (h : n ≤ 32)
    (hall : ∀ j, j < n → mask.testBit j = true) : check_complete mask n 0 = .ok true := by
  rw [check_complete_eq mask n 0 (by omega)]
  congr 1
  rw [decide_eq_true_iff]
  intro j _ hj
  exact hall j (by omega)

theorem check_complete_of_incomplete (mask n : Nat) (h : n ≤ 32)
    (hnot : ¬ ∀ j, j < n → mask.testBit j = true) : check_complete mask n 0 = .ok false := by
  rw [check_complete_eq mask n 0 (by omega)]
  congr 1
  rw [decide_eq_false_iff_not]
  intro hall
  exact hnot (fun j hj => hall j (Nat.zero_le j) (by omega))

/-! ## One step of the receive path -/

theorem deliver_reassembly (s : Engine) (clock msg_id : Nat) (full : List Byte) (rssi : Int)
    (addr : Option (List Byte)) (dev : List Byte) :
    (deliver s clock msg_id full rssi addr dev).g_reassembly = s.g_reassembly := by
  unfold deliver
  split
  · rfl
  · simp only []
    split <;> rfl

theorem deliver_neighbors (s : Engine) (clock msg_id : Nat) (full : List Byte) (rssi : Int)
    (addr : Option (List Byte)) (dev : List Byte) :
    (deliver s clock msg_id full rssi addr dev).g_neighbors = s.g_neighbors := by
  unfold deliver
  split
  · rfl
  · simp only []
    split <;> rfl

/-- A frame whose index is outside the fragment vector is dropped at line 194: only the
reassembly entry that lines 180-188 may have created is left behind. -/
theorem feed_frame_discarded (s : Engine) (clock : Nat) (f : ParsedFrame) (rssi : Int)
    (addr : Option (List Byte))
    (hidx : (find_or_create s clock f).2.frags.length ≤ f.frag_idx) :
    feed_frame s clock f rssi addr = .ok (find_or_create s clock f).1 := by
  unfold feed_frame
  simp only [ge_iff_le, if_pos hidx]

/-- The result of lines 196-266 for a frame whose fragment is stored. -/
theorem feed_frame_stored (s : Engine) (clock : Nat) (f : ParsedFrame) (rssi : Int)
    (addr : Option (List Byte)) (nb : List (List Byte × Neighbor))
    (hidx : f.frag_idx < (find_or_create s clock f).2.frags.length)
    (h32 : f.frag_idx < 32)
    (hnb : update_neighbor s.g_neighbors clock f.device_id rssi addr = .ok nb)
    (hcnt : (find_or_create s clock f).2.frag_count ≤ 32)
    (hlen : (find_or_create s clock f).2.frag_count ≤ (find_or_create s clock f).2.frags.length) :
    feed_frame s clock f rssi addr = .ok
      (if isComplete (storedEntry s clock f) then
        gc_cleanup
          { deliver (storedState s clock f nb) clock f.msg_id
              (((storedEntry s clock f).frags.take (storedEntry s clock f).frag_count).flatten)
              rssi addr (storedEntry s clock f).device_id with
            g_reassembly := mapErase (storedState s clock f nb).g_reassembly f.msg_id } clock
      else gc_cleanup (storedState s clock f nb) clock) := by
  have hs1 : (find_or_create s clock f).1.g_neighbors = s.g_neighbors := by
    unfold find_or_create
    split <;> rfl
  unfold feed_frame
  have hnot : ¬ (f.frag_idx ≥ (find_or_create s clock f).2.frags.length) := by omega
  simp only [if_neg hnot, store_frag, if_pos hidx, mark_received, if_pos h32, andThen_ok, hs1, hnb]
  by_cases hc : isComplete (storedEntry s clock f)
  · have e : check_complete ((find_or_create s clock f).2.received_mask ||| 1 <<< f.frag_idx)
        (find_or_create s clock f).2.frag_count 0 = .ok true :=
      check_complete_of_complete _ _ hcnt hc
    rw [e, if_pos hc]
    simp only [andThen_ok, if_true]
    rw [join_frags_eq _ _ 0 (by simpa using hlen)]
    simp only [andThen_ok, List.drop_zero]
    rw [deliver_reassembly]
    rfl
  · have e : check_complete ((find_or_create s clock f).2.received_mask ||| 1 <<< f.frag_idx)
        (find_or_create s clock f).2.frag_count 0 = .ok false :=
      check_complete_of_incomplete _ _ hcnt hc
    rw [e, if_neg hc]
    simp only [andThen_ok]
    rfl

/-! ## The neighbor table -/

theorem sub_u32_self (a : Nat) : sub_u32 a a = 0 := by
  unfold sub_u32
  omega

theorem find_or_create_neighbors (s : Engine) (clock : Nat) (f : ParsedFrame) :
    (find_or_create s clock f).1.g_neighbors = s.g_neighbors := by
  unfold find_or_create
  split <;> rfl

theorem find_or_create_queue (s : Engine) (clock : Nat) (f : ParsedFrame) :
    (find_or_create s clock f).1.g_incoming_queue = s.g_incoming_queue := by
  unfold find_or_create
  split <;> rfl

theorem find_or_create_timestamps (s : Engine) (clock : Nat) (f : ParsedFrame) :
    (find_or_create s clock f).1.g_msg_timestamps = s.g_msg_timestamps := by
  unfold find_or_create
  split <;> rfl

theorem find_or_create_find (s : Engine) (clock : Nat) (f : ParsedFrame) :
    mapFind (find_or_create s clock f).1.g_reassembly f.msg_id =
      some (find_or_create s clock f).2 := by
  unfold find_or_create
  split
  · next e he => exact he
  · exact mapFind_mapAssign_self _ _ _

/-- The neighbor update for a sender that is tracked, when the call cannot fault. -/
theorem update_neighbor_tracked (nb : List (List Byte × Neighbor)) (clock : Nat)
    (d : List Byte) (rssi : Int) (addr : Option (List Byte)) (n : Neighbor)
    (hd : d ≠ []) (hn : mapFind nb d = some n) (haddr : n.address ≠ [] → addr ≠ none) :
    ∃ n1 : Neighbor, update_neighbor nb clock d rssi addr = .ok (mapAssign nb d n1) ∧
      n1.rssi = rssi ∧ n1.last_seen = now_s clock ∧
      (n.address ≠ [] → ∀ a, addr = some a → n1.address = a) := by
  unfold update_neighbor
  simp only [if_neg hd, hn]
  by_cases ha : n.address = []
  · refine ⟨{ n with rssi := rssi, last_seen := now_s clock }, ?_, rfl, rfl, ?_⟩
    · simp [ha]
    · intro h; exact absurd ha h
  · cases addr with
    | none => exact absurd rfl (haddr ha)
    | some a =>
      by_cases hne : n.address = a
      · refine ⟨{ n with rssi := rssi, last_seen := now_s clock }, ?_, rfl, rfl, ?_⟩
        · simp [ha, hne]
        · intro _ a1 h1
          simp only [Option.some.injEq] at h1
          rw [← h1]; exact hne
      · refine ⟨{ n with rssi := rssi, last_seen := now_s clock, address := a }, ?_, rfl, rfl, ?_⟩
        · simp [ha, hne]
        · intro _ a1 h1
          simp only [Option.some.injEq] at h1
          rw [← h1]

/-- The neighbor update for a sender that is not tracked while the table is full. -/
theorem update_neighbor_full (nb : List (List Byte × Neighbor)) (clock : Nat)
    (d : List Byte) (rssi : Int) (addr : Option (List Byte))
    (hn : mapFind nb d = none) (hfull : MAX_NEIGHBORS ≤ nb.length) :
    update_neighbor nb clock d rssi addr = .ok nb := by
  unfold update_neighbor
  by_cases hd : d = []
  · simp [hd]
  · have : ¬ nb.length < MAX_NEIGHBORS := by omega
    simp only [if_neg hd, hn, if_neg this]

/-- The neighbor update never lets the table grow past `MAX_NEIGHBORS`. -/
theorem update_neighbor_length (nb nb1 : List (List Byte × Neighbor)) (clock : Nat)
    (d : List Byte) (rssi : Int) (addr : Option (List Byte))
    (h : update_neighbor nb clock d rssi addr = .ok nb1) (hle : nb.length ≤ MAX_NEIGHBORS) :
    nb1.length ≤ MAX_NEIGHBORS := by
  unfold update_neighbor at h
  by_cases hd : d = []
  · simp only [if_pos hd, Except.ok.injEq] at h
    rw [← h]; exact hle
  · simp only [if_neg hd] at h
    cases hf : mapFind nb d with
    | none =>
      simp only [hf] at h
      by_cases hlt : nb.length < MAX_NEIGHBORS
      · simp only [if_pos hlt, Except.ok.injEq] at h
        rw [← h, mapAssign_length_of_none _ _ _ hf]
        omega
      · simp only [if_neg hlt, Except.ok.injEq] at h
        rw [← h]; exact hle
    | some n =>
      simp only [hf] at h
      by_cases ha : n.address = []
      · simp only [ha, ne_eq, not_true_eq_false, if_false, Except.ok.injEq] at h
        rw [← h, mapAssign_length_of_some _ _ _ _ hf]; exact hle
      · simp only [ne_eq, ha, not_false_eq_true, if_true] at h
        cases addr with
        | none => simp at h
        | some a =>
          simp only at h
          by_cases hne : n.address = a
          · simp only [hne, not_true_eq_false, if_false, Except.ok.injEq] at h
            rw [← h, mapAssign_length_of_some _ _ _ _ hf]; exact hle
          · simp only [hne, not_false_eq_true, if_true, Except.ok.injEq] at h
            rw [← h, mapAssign_length_of_some _ _ _ _ hf]; exact hle

theorem decode_some_len (buf : List Byte) (raw_len : Nat) (f : ParsedFrame)
    (h : decode buf raw_len = some f) : 12 ≤ raw_len := by
  unfold decode at h
  by_cases h12 : raw_len < 12
  · simp [h12] at h
  · omega

/-- A buffer that decodes is handed to lines 169-266 and the call returns 0. -/
theorem receive_raw_of_decode (s : Engine) (clock : Nat) (buf : List Byte) (raw_len : Nat)
    (rssi : Int) (addr : Option (List Byte)) (f : ParsedFrame)
    (hlen : raw_len ≤ buf.length) (hdec : decode buf raw_len = some f) :
    emergency_receive_raw s clock (some buf) raw_len rssi addr =
      andThen (feed_frame s clock f rssi addr) (fun s1 => .ok (0, s1)) := by
  have h12 := decode_some_len buf raw_len f hdec
  have hne : raw_len ≠ 0 := by omega
  simp only [emergency_receive_raw, if_neg hne, parse_raw_frame_and_feed,
    parse_header_eq_decode buf raw_len hlen, hdec, andThen_ok]

theorem parse_header_some_len (buf : List Byte) (raw_len : Nat) (f : ParsedFrame)
    (h : parse_header buf raw_len = .ok (some f)) : 12 ≤ raw_len := by
  by_contra hlt
  unfold parse_header at h
  rw [if_pos (by omega)] at h
  simp at h

/-- A buffer that passes the decoder is handed to lines 169-266 and the call returns 0. -/
theorem receive_raw_of_parse (s : Engine) (clock : Nat) (buf : List Byte) (raw_len : Nat)
    (rssi : Int) (addr : Option (List Byte)) (f : ParsedFrame)
    (hparse : parse_header buf raw_len = .ok (some f)) :
    emergency_receive_raw s clock (some buf) raw_len rssi addr =
      andThen (feed_frame s clock f rssi addr) (fun s1 => .ok (0, s1)) := by
  have h12 := parse_header_some_len buf raw_len f hparse
  have hne : raw_len ≠ 0 := by omega
  simp only [emergency_receive_raw, if_neg hne, parse_raw_frame_and_feed, hparse, andThen_ok]

theorem decode_of_parse (raw : List Byte) (f : ParsedFrame)
    (h : parse_header raw raw.length = .ok (some f)) : decode raw raw.length = some f := by
  rw [parse_header_eq_decode raw raw.length (le_refl _)] at h
  simpa using h

theorem parse_of_decode (raw : List Byte) (f : ParsedFrame)
    (h : decode raw raw.length = some f) : parse_header raw raw.length = .ok (some f) := by
  rw [parse_header_eq_decode raw raw.length (le_refl _), h]

theorem gc_cleanup_neighbors (s : Engine) (clock : Nat) :
    (gc_cleanup s clock).g_neighbors = keptNeighbors clock s.g_neighbors := rfl

/-- The neighbor table after a stored fragment: the updated table, swept. -/
theorem feed_frame_stored_neighbors (s : Engine) (clock : Nat) (f : ParsedFrame) (rssi : Int)
    (addr : Option (List Byte)) (nb : List (List Byte × Neighbor))
    (hst : isStored s clock f) (hm : withinMask s clock f)
    (hnb : update_neighbor s.g_neighbors clock f.device_id rssi addr = .ok nb) :
    ∃ s1, feed_frame s clock f rssi addr = .ok s1 ∧ s1.g_neighbors = keptNeighbors clock nb := by
  rw [feed_frame_stored s clock f rssi addr nb hst hm.1 hnb hm.2.1 hm.2.2]
  refine ⟨_, rfl, ?_⟩
  split_ifs
  · rw [gc_cleanup_neighbors]
    show keptNeighbors clock (deliver _ _ _ _ _ _ _).g_neighbors = _
    rw [deliver_neighbors]
    rfl
  · rfl

theorem keptNeighbors_find_fresh (clock : Nat) (nb : List (List Byte × Neighbor)) (d : List Byte)
    (n1 : Neighbor) (h : n1.last_seen = now_s clock) :
    mapFind (keptNeighbors clock (mapAssign nb d n1)) d = some n1 := by
  unfold keptNeighbors
  apply mapFind_filter_some _ _ _ _ (mapFind_mapAssign_self _ _ _)
  simp [h, sub_u32_self]

/-- A stored frame from a tracked sender refreshes the sender's record. -/
theorem receive_raw_tracked_refresh (s : Engine) (clock : Nat) (buf : List Byte) (raw_len : Nat)
    (rssi : Int) (addr : Option (List Byte)) (f : ParsedFrame) (n : Neighbor)
    (hparse : parse_header buf raw_len = .ok (some f))
    (hd : f.device_id ≠ []) (hn : mapFind s.g_neighbors f.device_id = some n)
    (hst : isStored s clock f) (hm : withinMask s clock f)
    (haddr : n.address ≠ [] → addr ≠ none) :
    ∃ s1 n1, emergency_receive_raw s clock (some buf) raw_len rssi addr = .ok (0, s1) ∧
      mapFind s1.g_neighbors f.device_id = some n1 ∧
      n1.rssi = rssi ∧ n1.last_seen = now_s clock ∧
      (n.address ≠ [] → ∀ a, addr = some a → n1.address = a) := by
  obtain ⟨n1, hup, h1, h2, h3⟩ :=
    update_neighbor_tracked s.g_neighbors clock f.device_id rssi addr n hd hn haddr
  obtain ⟨s1, hfeed, hnb⟩ := feed_frame_stored_neighbors s clock f rssi addr _ hst hm hup
  refine ⟨s1, n1, ?_, ?_, h1, h2, h3⟩
  · rw [receive_raw_of_parse s clock buf raw_len rssi addr f hparse, hfeed]
    rfl
  · rw [hnb]
    exact keptNeighbors_find_fresh clock _ _ n1 h2

/-! ## Inversion of a successful receive -/

/-- What a call of lines 169-266 that does not fault has done. -/
theorem feed_frame_ok_cases (s s1 : Engine) (clock : Nat) (f : ParsedFrame) (rssi : Int)
    (addr : Option (List Byte)) (h : feed_frame s clock f rssi addr = .ok s1) :
    (¬ isStored s clock f ∧ s1 = (find_or_create s clock f).1) ∨
    (isStored s clock f ∧ ∃ nb, update_neighbor s.g_neighbors clock f.device_id rssi addr = .ok nb ∧
      (s1 = gc_cleanup (storedState s clock f nb) clock ∨
        ∃ full, s1 = gc_cleanup
          { deliver (storedState s clock f nb) clock f.msg_id full rssi addr
              (storedEntry s clock f).device_id with
            g_reassembly := mapErase (storedState s clock f nb).g_reassembly f.msg_id } clock)) := by
  by_cases hst : isStored s clock f
  · right
    refine ⟨hst, ?_⟩
    unfold feed_frame at h
    have hnot : ¬ (f.frag_idx ≥ (find_or_create s clock f).2.frags.length) := by
      unfold isStored at hst; omega
    simp only [if_neg hnot] at h
    obtain ⟨frags, hfr, h⟩ := andThen_eq_ok h
    obtain ⟨mask, hmk, h⟩ := andThen_eq_ok h
    obtain ⟨nb, hnb, h⟩ := andThen_eq_ok h
    obtain ⟨complete, hcp, h⟩ := andThen_eq_ok h
    have hfr2 : frags = (find_or_create s clock f).2.frags.set f.frag_idx f.payload := by
      unfold store_frag at hfr
      have hst1 : f.frag_idx < (find_or_create s clock f).2.frags.length := hst
      rw [if_pos hst1] at hfr
      simpa using hfr.symm
    have hmk2 : mask = (find_or_create s clock f).2.received_mask ||| (1 <<< f.frag_idx) := by
      unfold mark_received at hmk
      by_cases h32 : f.frag_idx < 32
      · rw [if_pos h32] at hmk
        simpa using hmk.symm
      · rw [if_neg h32] at hmk
        simp at hmk
    subst hfr2 hmk2
    rw [find_or_create_neighbors] at hnb
    refine ⟨nb, hnb, ?_⟩
    cases complete with
    | false =>
      left
      simp only [Bool.false_eq_true, if_false, Except.ok.injEq] at h
      rw [← h]
      rfl
    | true =>
      right
      simp only [if_true] at h
      obtain ⟨full, _, h⟩ := andThen_eq_ok h
      refine ⟨full, ?_⟩
      simp only [Except.ok.injEq] at h
      rw [← h, deliver_reassembly]
      rfl
  · left
    refine ⟨hst, ?_⟩
    have hidx : (find_or_create s clock f).2.frags.length ≤ f.frag_idx := by
      unfold isStored at hst; omega
    rw [feed_frame_discarded s clock f rssi addr hidx] at h
    simpa using h.symm

/-- What a call of `emergency_receive_raw` that does not fault has done. -/
theorem receive_raw_ok_cases (s s1 : Engine) (clock : Nat) (raw : Option (List Byte))
    (raw_len : Nat) (rssi : Int) (addr : Option (List Byte)) (status : Int)
    (h : emergency_receive_raw s clock raw raw_len rssi addr = .ok (status, s1)) :
    s1 = s ∨ ∃ f, feed_frame s clock f rssi addr = .ok s1 := by
  unfold emergency_receive_raw at h
  cases raw with
  | none =>
    simp only [Except.ok.injEq, Prod.mk.injEq] at h
    exact Or.inl h.2.symm
  | some buf =>
    simp only at h
    by_cases h0 : raw_len = 0
    · rw [if_pos h0] at h
      simp only [Except.ok.injEq, Prod.mk.injEq] at h
      exact Or.inl h.2.symm
    · rw [if_neg h0] at h
      obtain ⟨s2, hp, h⟩ := andThen_eq_ok h
      simp only [Except.ok.injEq, Prod.mk.injEq] at h
      obtain ⟨_, rfl⟩ := h
      unfold parse_raw_frame_and_feed at hp
      obtain ⟨parsed, _, hp⟩ := andThen_eq_ok hp
      cases parsed with
      | none =>
        simp only [Except.ok.injEq] at hp
        exact Or.inl hp.symm
      | some f => exact Or.inr ⟨f, hp⟩

/-! ## Invariants of the reachable states -/

theorem fragsSized_of_sublist (s s1 : Engine) (h : FragsSized s)
    (hsub : ∀ p ∈ s1.g_reassembly, p ∈ s.g_reassembly) : FragsSized s1 :=
  fun p hp => h p (hsub p hp)

theorem find_or_create_fragsSized (s : Engine) (clock : Nat) (f : ParsedFrame)
    (h : FragsSized s) : FragsSized (find_or_create s clock f).1 := by
  unfold find_or_create
  split
  · exact h
  · intro p hp
    rcases mem_mapAssign _ _ _ p hp with hp1 | hp1
    · rw [hp1]
      simp
    · exact h p hp1

theorem find_or_create_entry_sized (s : Engine) (clock : Nat) (f : ParsedFrame)
    (h : FragsSized s) :
    (find_or_create s clock f).2.frags.length =
      fragerCountMax (find_or_create s clock f).2.frag_count :=
  find_or_create_fragsSized s clock f h _
    (mapFind_some_mem _ _ _ (find_or_create_find s clock f))

theorem frag_count_le_fragerCountMax (n : Nat) : n ≤ fragerCountMax n := by
  unfold fragerCountMax
  split_ifs <;> omega

theorem storedState_fragsSized (s : Engine) (clock : Nat) (f : ParsedFrame)
    (nb : List (List Byte × Neighbor)) (h : FragsSized s) :
    FragsSized (storedState s clock f nb) := by
  intro p hp
  rcases mem_mapAssign _ _ _ p hp with hp1 | hp1
  · rw [hp1]
    simp only [storedEntry, List.length_set]
    exact find_or_create_entry_sized s clock f h
  · exact find_or_create_fragsSized s clock f h p hp1

theorem gc_cleanup_fragsSized (s : Engine) (clock : Nat) (h : FragsSized s) :
    FragsSized (gc_cleanup s clock) :=
  fun p hp => h p (List.mem_filter.mp hp).1

theorem feed_frame_fragsSized (s s1 : Engine) (clock : Nat) (f : ParsedFrame) (rssi : Int)
    (addr : Option (List Byte)) (hfeed : feed_frame s clock f rssi addr = .ok s1)
    (h : FragsSized s) : FragsSized s1 := by
  rcases feed_frame_ok_cases s s1 clock f rssi addr hfeed with ⟨_, rfl⟩ | ⟨_, nb, _, h1 | ⟨full, h1⟩⟩
  · exact find_or_create_fragsSized s clock f h
  · rw [h1]
    exact gc_cleanup_fragsSized _ _ (storedState_fragsSized s clock f nb h)
  · rw [h1]
    apply gc_cleanup_fragsSized
    intro p hp
    exact storedState_fragsSized s clock f nb h p (List.mem_filter.mp hp).1

theorem poll_incoming_reassembly (s : Engine) (max_len : Nat) :
    (emergency_poll_incoming s max_len).2.2.g_reassembly = s.g_reassembly := by
  unfold emergency_poll_incoming
  split
  · rfl
  · simp only []
    split_ifs <;> rfl

theorem poll_incoming_neighbors (s : Engine) (max_len : Nat) :
    (emergency_poll_incoming s max_len).2.2.g_neighbors = s.g_neighbors := by
  unfold emergency_poll_incoming
  split
  · rfl
  · simp only []
    split_ifs <;> rfl

theorem send_broadcast_reassembly (s : Engine) (clock : Nat) (message : Option (List Byte)) :
    (emergency_send_broadcast s clock message).2.g_reassembly = s.g_reassembly := by
  cases message <;> rfl

theorem send_broadcast_neighbors (s : Engine) (clock : Nat) (message : Option (List Byte)) :
    (emergency_send_broadcast s clock message).2.g_neighbors = s.g_neighbors := by
  cases message <;> rfl

/-- In every reachable state every reassembly entry has one slot per expected fragment. -/
theorem reachable_fragsSized (s : Engine) (h : Reachable s) : FragsSized s := by
  induction h with
  | init d c => intro p hp; simp [emergency_protocol_init] at hp
  | send c m _ ih =>
    intro p hp
    rw [send_broadcast_reassembly] at hp
    exact ih p hp
  | receive c raw raw_len rssi addr _ hr ih =>
    rcases receive_raw_ok_cases _ _ c raw raw_len rssi addr _ hr with rfl | ⟨f, hf⟩
    · exact ih
    · exact feed_frame_fragsSized _ _ c f rssi addr hf ih
  | poll m _ ih =>
    intro p hp
    rw [poll_incoming_reassembly] at hp
    exact ih p hp

theorem keptNeighbors_length_le (clock : Nat) (nb : List (List Byte × Neighbor)) :
    (keptNeighbors clock nb).length ≤ nb.length :=
  List.length_filter_le _ _

theorem feed_frame_neighbors_length (s s1 : Engine) (clock : Nat) (f : ParsedFrame) (rssi : Int)
    (addr : Option (List Byte)) (hfeed : feed_frame s clock f rssi addr = .ok s1)
    (h : s.g_neighbors.length ≤ MAX_NEIGHBORS) : s1.g_neighbors.length ≤ MAX_NEIGHBORS := by
  rcases feed_frame_ok_cases s s1 clock f rssi addr hfeed with
    ⟨_, rfl⟩ | ⟨_, nb, hnb, h1 | ⟨full, h1⟩⟩
  · rw [find_or_create_neighbors]; exact h
  · rw [h1]
    have := update_neighbor_length _ _ clock f.device_id rssi addr hnb h
    exact le_trans (keptNeighbors_length_le clock nb) this
  · rw [h1, gc_cleanup_neighbors]
    show (keptNeighbors clock (deliver _ _ _ _ _ _ _).g_neighbors).length ≤ _
    rw [deliver_neighbors]
    have := update_neighbor_length _ _ clock f.device_id rssi addr hnb h
    exact le_trans (keptNeighbors_length_le clock nb) this

/-- In every reachable state the neighbor table has at most `MAX_NEIGHBORS` records. -/
theorem reachable_neighbors_length (s : Engine) (h : Reachable s) :
    s.g_neighbors.length ≤ MAX_NEIGHBORS := by
  induction h with
  | init d c => simp [emergency_protocol_init]
  | send c m _ ih => rw [send_broadcast_neighbors]; exact ih
  | receive c raw raw_len rssi addr _ hr ih =>
    rcases receive_raw_ok_cases _ _ c raw raw_len rssi addr _ hr with rfl | ⟨f, hf⟩
    · exact ih
    · exact feed_frame_neighbors_length _ _ c f rssi addr hf ih
  | poll m _ ih => rw [poll_incoming_neighbors]; exact ih

/-! ## Memory safety of the receive path -/

theorem inBounds_ok {α : Type} (a : α) : InBounds (.ok a : Except Fault α) :=
  ⟨fun h => (by cases h), fun h => (by cases h)⟩

theorem inBounds_error_shift {α : Type} : InBounds (.error .shiftOutOfRange : Except Fault α) :=
  ⟨fun h => (by cases h), fun h => (by cases h)⟩

theorem inBounds_error_null {α : Type} : InBounds (.error .nullAddress : Except Fault α) :=
  ⟨fun h => (by cases h), fun h => (by cases h)⟩

theorem inBounds_andThen {α β : Type} (r : Except Fault α) (k : α → Except Fault β)
    (hr : InBounds r) (hk : ∀ a, r = .ok a → InBounds (k a)) : InBounds (andThen r k) := by
  cases r with
  | ok a => exact hk a rfl
  | error e =>
    constructor
    · intro h
      apply hr.1
      simpa using h
    · intro h
      apply hr.2
      simpa using h

theorem mark_received_inBounds (mask idx : Nat) : InBounds (mark_received mask idx) := by
  unfold mark_received
  split_ifs
  · exact inBounds_ok _
  · exact inBounds_error_shift

theorem update_neighbor_inBounds (nb : List (List Byte × Neighbor)) (clock : Nat)
    (d : List Byte) (rssi : Int) (addr : Option (List Byte)) :
    InBounds (update_neighbor nb clock d rssi addr) := by
  unfold update_neighbor
  by_cases hd : d = []
  · rw [if_pos hd]
    exact inBounds_ok _
  · rw [if_neg hd]
    simp only []
    cases mapFind nb d with
    | none =>
      simp only []
      split_ifs <;> exact inBounds_ok _
    | some n =>
      simp only []
      by_cases ha : n.address ≠ []
      · rw [if_pos ha]
        cases addr with
        | none => exact inBounds_error_null
        | some a =>
          simp only []
          split_ifs <;> exact inBounds_ok _
      · rw [if_neg ha]
        exact inBounds_ok _

theorem check_complete_inBounds (mask r i : Nat) : InBounds (check_complete mask r i) := by
  induction r generalizing i with
  | zero => exact inBounds_ok _
  | succ r ih =>
    unfold check_complete
    split_ifs
    · exact inBounds_error_shift
    · exact inBounds_ok _
    · exact ih (i + 1)

/-- With one slot per expected fragment, lines 169-266 never index outside the fragment vector
(and read nothing from the raw buffer). -/
theorem feed_frame_inBounds (s : Engine) (clock : Nat) (f : ParsedFrame) (rssi : Int)
    (addr : Option (List Byte)) (h : FragsSized s) :
    InBounds (feed_frame s clock f rssi addr) := by
  have hsz := find_or_create_entry_sized s clock f h
  have hle := frag_count_le_fragerCountMax (find_or_create s clock f).2.frag_count
  unfold feed_frame
  simp only []
  split_ifs with hidx
  · exact inBounds_ok _
  · have hst : f.frag_idx < (find_or_create s clock f).2.frags.length := by omega
    simp only [store_frag, if_pos hst, andThen_ok]
    apply inBounds_andThen _ _ (mark_received_inBounds _ _)
    intro mask _
    apply inBounds_andThen _ _ (update_neighbor_inBounds _ _ _ _ _)
    intro nb _
    apply inBounds_andThen _ _ (check_complete_inBounds _ _ _)
    intro complete _
    cases complete with
    | false => exact inBounds_ok _
    | true =>
      simp only [if_true]
      rw [join_frags_eq _ _ 0 (by simp only [List.length_set]; omega)]
      exact inBounds_ok _

/-- The state `sampleEngine` is reachable: initialise, receive the one-fragment message 5 at
time 900, then fragment 0 of the two-fragment message 9 at time 1000. -/
theorem sampleEngine_reachable : Reachable sampleEngine := by
  have h0 := Reachable.init (some [100, 101]) 41
  have h1 : Reachable
      { sampleEngine with
        g_neighbors := [([65], { device_id := [65], address := [120], rssi := -60, last_seen := 900 })]
        g_reassembly := [] } :=
    @Reachable.receive _ _ 0 900 (some [69, 80, 1, 0, 0, 0, 5, 0, 1, 4, 1, 65, 0, 3, 1, 2, 3]) 17
      (-60) (some [120]) h0 (by decide)
  exact @Reachable.receive _ _ 0 1000 (some [69, 80, 1, 0, 0, 0, 9, 0, 2, 4, 1, 65, 0, 1, 7]) 15
    (-50) (some [120]) h1 (by decide)

/-! ## Neighbor refresh -/

/-- A decoded frame from an untracked sender that meets a full table adds no record. -/
theorem receive_raw_full_table (s : Engine) (clock : Nat) (buf : List Byte) (raw_len : Nat)
    (rssi : Int) (addr : Option (List Byte)) (f : ParsedFrame)
    (hparse : parse_header buf raw_len = .ok (some f))
    (hn : mapFind s.g_neighbors f.device_id = none) (hfull : MAX_NEIGHBORS ≤ s.g_neighbors.length)
    (hm : isStored s clock f → withinMask s clock f) :
    ∃ s1, emergency_receive_raw s clock (some buf) raw_len rssi addr = .ok (0, s1) ∧
      mapFind s1.g_neighbors f.device_id = none ∧ s1.g_neighbors.Sublist s.g_neighbors := by
  rw [receive_raw_of_parse s clock buf raw_len rssi addr f hparse]
  by_cases hst : isStored s clock f
  · have hup := update_neighbor_full s.g_neighbors clock f.device_id rssi addr hn hfull
    obtain ⟨s1, hfeed, hnb⟩ := feed_frame_stored_neighbors s clock f rssi addr _ hst (hm hst) hup
    refine ⟨s1, by rw [hfeed]; rfl, ?_, ?_⟩
    · rw [hnb]
      exact mapFind_filter_none _ _ _ hn
    · rw [hnb]
      exact List.filter_sublist _
  · have hidx : (find_or_create s clock f).2.frags.length ≤ f.frag_idx := by
      unfold isStored at hst; omega
    refine ⟨(find_or_create s clock f).1, ?_, ?_, ?_⟩
    · rw [feed_frame_discarded s clock f rssi addr hidx]; rfl
    · rw [find_or_create_neighbors]; exact hn
    · rw [find_or_create_neighbors]

theorem fullTableEngine_length : fullTableEngine.g_neighbors.length = 256 := by
  simp [fullTableEngine]

theorem fullTableEngine_unseen : mapFind fullTableEngine.g_neighbors [1, 1] = none := by
  rw [mapFind_eq_none_iff]
  intro p hp
  simp only [fullTableEngine, List.mem_map] at hp
  obtain ⟨i, _, rfl⟩ := hp
  simp

theorem testBit_one_shiftLeft (i j : Nat) : (1 <<< i).testBit j = decide (i = j) := by
  rw [Nat.one_shiftLeft, Nat.testBit_two_pow]

theorem find_or_create_of_some (s : Engine) (clock : Nat) (f : ParsedFrame) (e : ReassemblyEntry)
    (h : mapFind s.g_reassembly f.msg_id = some e) : find_or_create s clock f = (s, e) := by
  unfold find_or_create
  rw [h]

theorem find_or_create_of_none (s : Engine) (clock : Nat) (f : ParsedFrame)
    (h : mapFind s.g_reassembly f.msg_id = none) :
    (find_or_create s clock f).2 =
      { msg_id := f.msg_id, frag_count := f.frag_count,
        frags := List.replicate (fragerCountMax f.frag_count) [],
        device_id := f.device_id, received_mask := 0, first_seen := now_s clock } := by
  unfold find_or_create
  rw [h]

/-- A freshly created entry has stored nothing. -/
theorem entryInv_fresh (s : Engine) (clock : Nat) (f : ParsedFrame) (pay : Nat → List Byte)
    (h : mapFind s.g_reassembly f.msg_id = none) (hn : 1 ≤ f.frag_count) :
    EntryInv f.frag_count pay [] (find_or_create s clock f).2 := by
  rw [find_or_create_of_none s clock f h]
  have hc : fragerCountMax f.frag_count = f.frag_count := by
    unfold fragerCountMax
    rw [if_neg (by omega)]
  refine ⟨rfl, by simp [hc], ?_, ?_⟩
  · intro j _
    simp
  · intro j hj
    simp at hj

/-- Storing fragment `idx` extends the set of stored indices by `idx`. -/
theorem entryInv_store (n : Nat) (pay : Nat → List Byte) (done : List Nat) (e : ReassemblyEntry)
    (idx : Nat) (h : EntryInv n pay done e) (hidx : idx < n) :
    EntryInv n pay (idx :: done)
      { e with frags := e.frags.set idx (pay idx)
               received_mask := e.received_mask ||| (1 <<< idx) } := by
  obtain ⟨h1, h2, h3, h4⟩ := h
  refine ⟨h1, by simpa using h2, ?_, ?_⟩
  · intro j hj
    simp only [Nat.testBit_or, testBit_one_shiftLeft, Bool.or_eq_true, decide_eq_true_eq,
      List.mem_cons]
    rw [h3 j hj]
    constructor
    · rintro (h | h)
      · exact Or.inr h
      · exact Or.inl h.symm
    · rintro (h | h)
      · exact Or.inr h.symm
      · exact Or.inl h
  · intro j hj
    simp only [List.getElem?_set]
    by_cases hij : idx = j
    · subst hij
      simp [h2, hidx]
    · rw [if_neg hij]
      simp only [List.mem_cons] at hj
      rcases hj with hj | hj
      · exact absurd hj.symm hij
      · exact h4 j hj

/-- An entry is complete exactly when every index below `n` is stored. -/
theorem isComplete_iff (n : Nat) (pay : Nat → List Byte) (done : List Nat) (e : ReassemblyEntry)
    (h : EntryInv n pay done e) : isComplete e ↔ ∀ j, j < n → j ∈ done := by
  obtain ⟨h1, _, h3, _⟩ := h
  unfold isComplete
  rw [h1]
  constructor
  · intro hc j hj
    exact (h3 j hj).mp (hc j hj)
  · intro hc j hj
    exact (h3 j hj).mpr (hc j hj)

/-- The fragments of a complete entry, joined, are the payloads in index order. -/
theorem entryInv_join (n : Nat) (pay : Nat → List Byte) (done : List Nat) (e : ReassemblyEntry)
    (h : EntryInv n pay done e) (hall : ∀ j, j < n → j ∈ done) :
    (e.frags.take e.frag_count).flatten = ((List.range n).map pay).flatten := by
  obtain ⟨h1, h2, _, h4⟩ := h
  have heq : e.frags = (List.range n).map pay := by
    apply List.ext_getElem?
    intro j
    by_cases hj : j < n
    · rw [h4 j (hall j hj)]
      simp [hj]
    · rw [List.getElem?_eq_none (by omega), List.getElem?_eq_none (by simp; omega)]
  rw [h1, heq, List.take_of_length_le (by simp)]

theorem update_neighbor_some_ok (nb : List (List Byte × Neighbor)) (clock : Nat)
    (d : List Byte) (rssi : Int) (a : List Byte) :
    ∃ nb1, update_neighbor nb clock d rssi (some a) = .ok nb1 := by
  unfold update_neighbor
  by_cases hd : d = []
  · exact ⟨nb, by rw [if_pos hd]⟩
  · rw [if_neg hd]
    simp only []
    cases mapFind nb d with
    | none =>
      simp only []
      split_ifs
      · exact ⟨_, rfl⟩
      · exact ⟨_, rfl⟩
    | some n =>
      simp only []
      split_ifs
      · exact ⟨_, rfl⟩
      · exact ⟨_, rfl⟩
      · exact ⟨_, rfl⟩

theorem gc_cleanup_queue (s : Engine) (clock : Nat) :
    (gc_cleanup s clock).g_incoming_queue = capQueue 1024 s.g_incoming_queue := by
  simp only [gc_cleanup]

theorem gc_cleanup_timestamps (s : Engine) (clock : Nat) :
    (gc_cleanup s clock).g_msg_timestamps = keptTimestamps clock s.g_msg_timestamps := rfl

theorem storedState_queue (s : Engine) (clock : Nat) (f : ParsedFrame)
    (nb : List (List Byte × Neighbor)) :
    (storedState s clock f nb).g_incoming_queue = s.g_incoming_queue :=
  find_or_create_queue s clock f

theorem storedState_timestamps (s : Engine) (clock : Nat) (f : ParsedFrame)
    (nb : List (List Byte × Neighbor)) :
    (storedState s clock f nb).g_msg_timestamps = s.g_msg_timestamps :=
  find_or_create_timestamps s clock f

/-- The dedupe test passes when the id has no record or only records older than the window:
the record is set to now and the packet is pushed, the queue capped. -/
theorem deliver_eligible (s : Engine) (clock msg_id : Nat) (full : List Byte) (rssi : Int)
    (a : List Byte) (dev : List Byte)
    (h : ∀ p ∈ s.g_msg_timestamps, p.1 = msg_id → sub_u32 (now_s clock) p.2 > DEDUPE_WINDOW) :
    deliver s clock msg_id full rssi (some a) dev =
      { s with
        g_msg_timestamps := mapAssign s.g_msg_timestamps msg_id (now_s clock)
        g_incoming_queue :=
          capQueue MAX_INCOMING_BUF (s.g_incoming_queue ++ [deliveredPacket clock full rssi a dev]) } := by
  unfold deliver
  cases hf : mapFind s.g_msg_timestamps msg_id with
  | none => rfl
  | some t =>
    have := h (msg_id, t) (mapFind_some_mem _ _ _ hf) rfl
    simp only []
    rw [if_pos this]
    rfl

/-- The dedupe test fails when the id has a record within the window: nothing changes. -/
theorem deliver_suppressed (s : Engine) (clock msg_id : Nat) (full : List Byte) (rssi : Int)
    (addr : Option (List Byte)) (dev : List Byte) (t : Nat)
    (hf : mapFind s.g_msg_timestamps msg_id = some t)
    (hw : sub_u32 (now_s clock) t ≤ DEDUPE_WINDOW) :
    deliver s clock msg_id full rssi addr dev = s := by
  unfold deliver
  rw [hf]
  simp only []
  rw [if_neg (by omega)]

theorem storedEntry_entryInv (s : Engine) (clock : Nat) (f : ParsedFrame) (n : Nat)
    (pay : Nat → List Byte) (done : List Nat)
    (hE : EntryInv n pay done (find_or_create s clock f).2)
    (hidx : f.frag_idx < n) (hpay : f.payload = pay f.frag_idx) :
    EntryInv n pay (f.frag_idx :: done) (storedEntry s clock f) := by
  unfold storedEntry
  rw [hpay]
  exact entryInv_store n pay done _ f.frag_idx hE hidx

/-- A stored fragment that does not complete its message: the entry stays open with one more
index stored, nothing is queued, and the dedupe table is only swept. -/
theorem feed_frame_step_incomplete (s : Engine) (clock : Nat) (f : ParsedFrame) (rssi : Int)
    (a : List Byte) (n : Nat) (pay : Nat → List Byte) (done : List Nat)
    (hn32 : n ≤ 32)
    (hE : EntryInv n pay done (find_or_create s clock f).2)
    (hidx : f.frag_idx < n) (hpay : f.payload = pay f.frag_idx)
    (hinc : ¬ ∀ j, j < n → j ∈ f.frag_idx :: done)
    (hwin : sub_u32 (now_s clock) (find_or_create s clock f).2.first_seen ≤ DEDUPE_WINDOW) :
    ∃ s1 e1, feed_frame s clock f rssi (some a) = .ok s1 ∧
      mapFind s1.g_reassembly f.msg_id = some e1 ∧
      EntryInv n pay (f.frag_idx :: done) e1 ∧
      e1.first_seen = (find_or_create s clock f).2.first_seen ∧
      e1.device_id = (find_or_create s clock f).2.device_id ∧
      s1.g_incoming_queue = capQueue 1024 s.g_incoming_queue ∧
      s1.g_msg_timestamps = keptTimestamps clock s.g_msg_timestamps := by
  obtain ⟨nb, hnb⟩ := update_neighbor_some_ok s.g_neighbors clock f.device_id rssi a
  have hE1 := storedEntry_entryInv s clock f n pay done hE hidx hpay
  have hnc : ¬ isComplete (storedEntry s clock f) := by
    rw [isComplete_iff n pay _ _ hE1]
    exact hinc
  have hst : f.frag_idx < (find_or_create s clock f).2.frags.length := by rw [hE.2.1]; exact hidx
  have hfeed := feed_frame_stored s clock f rssi (some a) nb hst (by omega) hnb
    (by rw [hE.1]; exact hn32) (by rw [hE.1, hE.2.1])
  rw [if_neg hnc] at hfeed
  refine ⟨_, storedEntry s clock f, hfeed, ?_, hE1, rfl, rfl, ?_, ?_⟩
  · show mapFind (List.filter _ (mapAssign _ _ _)) _ = _
    apply mapFind_filter_some _ _ _ _ (mapFind_mapAssign_self _ _ _)
    have : ¬ sub_u32 (now_s clock) (storedEntry s clock f).first_seen > DEDUPE_WINDOW := by
      show ¬ sub_u32 (now_s clock) (find_or_create s clock f).2.first_seen > DEDUPE_WINDOW
      omega
    simp [this]
  · rw [gc_cleanup_queue, storedState_queue]
  · rw [gc_cleanup_timestamps, storedState_timestamps]

/-- A stored fragment that completes its message: the payloads are joined in index order and
handed to the dedupe test of lines 243-259, the entry is erased, and the sweep runs. -/
theorem feed_frame_step_complete (s : Engine) (clock : Nat) (f : ParsedFrame) (rssi : Int)
    (a : List Byte) (n : Nat) (pay : Nat → List Byte) (done : List Nat)
    (hn32 : n ≤ 32)
    (hE : EntryInv n pay done (find_or_create s clock f).2)
    (hidx : f.frag_idx < n) (hpay : f.payload = pay f.frag_idx)
    (hcomp : ∀ j, j < n → j ∈ f.frag_idx :: done) :
    ∃ nb, feed_frame s clock f rssi (some a) = .ok
      (gc_cleanup
        { deliver (storedState s clock f nb) clock f.msg_id ((List.range n).map pay).flatten
            rssi (some a) (find_or_create s clock f).2.device_id with
          g_reassembly := mapErase (storedState s clock f nb).g_reassembly f.msg_id } clock) := by
  obtain ⟨nb, hnb⟩ := update_neighbor_some_ok s.g_neighbors clock f.device_id rssi a
  have hE1 := storedEntry_entryInv s clock f n pay done hE hidx hpay
  have hc : isComplete (storedEntry s clock f) := by
    rw [isComplete_iff n pay _ _ hE1]
    exact hcomp
  have hst : f.frag_idx < (find_or_create s clock f).2.frags.length := by rw [hE.2.1]; exact hidx
  have hfeed := feed_frame_stored s clock f rssi (some a) nb hst (by omega) hnb
    (by rw [hE.1]; exact hn32) (by rw [hE.1, hE.2.1])
  rw [if_pos hc, entryInv_join n pay _ _ hE1 hcomp] at hfeed
  exact ⟨nb, hfeed⟩

theorem capQueue_idem (L : Nat) (q : List IncomingPacket) :
    capQueue L (capQueue L q) = capQueue L q := by
  unfold capQueue
  rw [List.length_drop, List.drop_drop]
  congr 1
  omega

theorem capQueue_append_one (L : Nat) (hL : 0 < L) (q : List IncomingPacket)
    (x : IncomingPacket) : capQueue L (capQueue L q ++ [x]) = capQueue L (q ++ [x]) := by
  unfold capQueue
  by_cases h : q.length ≤ L
  · have : q.length - L = 0 := by omega
    rw [this, List.drop_zero]
  · have h1 : (List.drop (q.length - L) q ++ [x]).length - L = 1 := by
      simp only [List.length_append, List.length_drop, List.length_singleton]
      omega
    have h2 : (q ++ [x]).length - L = (q.length - L) + 1 := by
      simp only [List.length_append, List.length_singleton]
      omega
    rw [h1, h2, List.drop_append_of_le_length (by rw [List.length_drop]; omega),
      List.drop_append_of_le_length (by omega), List.drop_drop]

theorem keptTimestamps_subset (clock : Nat) (ts : List (Nat × Nat)) (p : Nat × Nat)
    (h : p ∈ keptTimestamps clock ts) : p ∈ ts :=
  (List.mem_filter.mp h).1

/-- A completing fragment whose message id passes the dedupe test: one packet is queued. -/
theorem feed_frame_step_deliver (s : Engine) (clock : Nat) (f : ParsedFrame) (rssi : Int)
    (a : List Byte) (n : Nat) (pay : Nat → List Byte) (done : List Nat)
    (hn32 : n ≤ 32)
    (hE : EntryInv n pay done (find_or_create s clock f).2)
    (hidx : f.frag_idx < n) (hpay : f.payload = pay f.frag_idx)
    (hcomp : ∀ j, j < n → j ∈ f.frag_idx :: done)
    (helig : ∀ p ∈ s.g_msg_timestamps, p.1 = f.msg_id →
      sub_u32 (now_s clock) p.2 > DEDUPE_WINDOW) :
    ∃ s1, feed_frame s clock f rssi (some a) = .ok s1 ∧
      mapFind s1.g_reassembly f.msg_id = none ∧
      s1.g_incoming_queue = capQueue 1024 (s.g_incoming_queue ++
        [deliveredPacket clock ((List.range n).map pay).flatten rssi a
          (find_or_create s clock f).2.device_id]) ∧
      mapFind s1.g_msg_timestamps f.msg_id = some (now_s clock) ∧
      (∀ p ∈ s1.g_msg_timestamps, p = (f.msg_id, now_s clock) ∨ p ∈ s.g_msg_timestamps) := by
  obtain ⟨nb, hfeed⟩ := feed_frame_step_complete s clock f rssi a n pay done hn32 hE hidx hpay hcomp
  have hel : ∀ p ∈ (storedState s clock f nb).g_msg_timestamps, p.1 = f.msg_id →
      sub_u32 (now_s clock) p.2 > DEDUPE_WINDOW := by
    rw [storedState_timestamps]; exact helig
  rw [deliver_eligible _ _ _ _ _ _ _ hel] at hfeed
  refine ⟨_, hfeed, ?_, ?_, ?_, ?_⟩
  · exact mapFind_filter_none _ _ _ (mapFind_mapErase_self _ _)
  · rw [gc_cleanup_queue]
    simp only [storedState_queue]
    exact capQueue_idem _ _
  · rw [gc_cleanup_timestamps]
    simp only []
    unfold keptTimestamps
    apply mapFind_filter_some _ _ _ _ (mapFind_mapAssign_self _ _ _)
    simp [sub_u32_self]
  · intro p hp
    rw [gc_cleanup_timestamps] at hp
    have hp1 := keptTimestamps_subset _ _ _ hp
    simp only [storedState_timestamps] at hp1
    exact mem_mapAssign _ _ _ p hp1

/-- A completing fragment whose message id has a dedupe record within the window: nothing is
queued and the record stays. -/
theorem feed_frame_step_suppress (s : Engine) (clock : Nat) (f : ParsedFrame) (rssi : Int)
    (a : List Byte) (n : Nat) (pay : Nat → List Byte) (done : List Nat) (t : Nat)
    (hn32 : n ≤ 32)
    (hE : EntryInv n pay done (find_or_create s clock f).2)
    (hidx : f.frag_idx < n) (hpay : f.payload = pay f.frag_idx)
    (hcomp : ∀ j, j < n → j ∈ f.frag_idx :: done)
    (hrec : mapFind s.g_msg_timestamps f.msg_id = some t)
    (hw : sub_u32 (now_s clock) t ≤ DEDUPE_WINDOW) :
    ∃ s1, feed_frame s clock f rssi (some a) = .ok s1 ∧
      mapFind s1.g_reassembly f.msg_id = none ∧
      s1.g_incoming_queue = capQueue 1024 s.g_incoming_queue ∧
      mapFind s1.g_msg_timestamps f.msg_id = some t := by
  obtain ⟨nb, hfeed⟩ := feed_frame_step_complete s clock f rssi a n pay done hn32 hE hidx hpay hcomp
  have hrec1 : mapFind (storedState s clock f nb).g_msg_timestamps f.msg_id = some t := by
    rw [storedState_timestamps]; exact hrec
  rw [deliver_suppressed _ _ _ _ _ _ _ t hrec1 hw] at hfeed
  refine ⟨_, hfeed, ?_, ?_, ?_⟩
  · exact mapFind_filter_none _ _ _ (mapFind_mapErase_self _ _)
  · rw [gc_cleanup_queue]
    simp only [storedState_queue]
  · rw [gc_cleanup_timestamps]
    simp only [storedState_timestamps]
    unfold keptTimestamps
    apply mapFind_filter_some _ _ _ _ hrec
    have : ¬ sub_u32 (now_s clock) t > DEDUPE_WINDOW := by omega
    simp [this]

/-! ## Reassembly: a complete set of fragments -/

theorem perm_head_lt (n idx : Nat) (l : List Nat) (h : (idx :: l).Perm (List.range n)) :
    idx < n :=
  List.mem_range.mp (h.subset (List.mem_cons_self _ _))

theorem perm_last_complete (n idx : Nat) (done : List Nat)
    (h : (idx :: done).Perm (List.range n)) : ∀ j, j < n → j ∈ idx :: done :=
  fun _ hj => h.symm.subset (List.mem_range.mpr hj)

theorem perm_not_complete (n idx idx2 : Nat) (l done : List Nat)
    (h : (idx :: idx2 :: (l ++ done)).Perm (List.range n)) :
    ¬ ∀ j, j < n → j ∈ idx :: done := by
  intro hall
  have hnd : (idx :: idx2 :: (l ++ done)).Nodup := h.nodup_iff.mpr (List.nodup_range n)
  have h2 : idx2 < n :=
    List.mem_range.mp (h.subset (List.mem_cons_of_mem _ (List.mem_cons_self _ _)))
  have hmem := hall idx2 h2
  rw [List.nodup_cons, List.nodup_cons] at hnd
  obtain ⟨hn1, hn2, _⟩ := hnd
  rcases List.mem_cons.mp hmem with h3 | h3
  · apply hn1
    rw [← h3]
    exact List.mem_cons_self _ _
  · exact hn2 (List.mem_append_right _ h3)

/-- Feeding the rest of a complete set into an engine whose dedupe table lets the id pass: the
last frame completes the message and queues one packet. -/
theorem feed_all_deliver_aux (id n : Nat) (pay : Nat → List Byte) (hn32 : n ≤ 32) :
    ∀ (rest : List FrameCall) (c : FrameCall) (s : Engine) (done : List Nat),
      (∀ x ∈ c :: rest, x.frame.msg_id = id ∧ x.frame.payload = pay x.frame.frag_idx) →
      (((c :: rest).map fun x => x.frame.frag_idx) ++ done).Perm (List.range n) →
      EntryInv n pay done (find_or_create s c.clock c.frame).2 →
      (∀ x ∈ c :: rest,
        sub_u32 (now_s x.clock) (find_or_create s c.clock c.frame).2.first_seen ≤ DEDUPE_WINDOW) →
      (∀ p ∈ s.g_msg_timestamps, p.1 = id →
        ∀ x ∈ c :: rest, sub_u32 (now_s x.clock) p.2 > DEDUPE_WINDOW) →
      ∃ s1, feed_all s (c :: rest) = .ok s1 ∧
        mapFind s1.g_reassembly id = none ∧
        s1.g_incoming_queue = capQueue 1024 (s.g_incoming_queue ++
          [deliveredPacket ((c :: rest).getLast (List.cons_ne_nil _ _)).clock
            ((List.range n).map pay).flatten
            ((c :: rest).getLast (List.cons_ne_nil _ _)).rssi
            ((c :: rest).getLast (List.cons_ne_nil _ _)).remote_addr
            (find_or_create s c.clock c.frame).2.device_id]) ∧
        mapFind s1.g_msg_timestamps id = some
          (now_s ((c :: rest).getLast (List.cons_ne_nil _ _)).clock) ∧
        (∀ p ∈ s1.g_msg_timestamps,
          p = (id, now_s ((c :: rest).getLast (List.cons_ne_nil _ _)).clock) ∨
            p ∈ s.g_msg_timestamps) := by
  intro rest
  induction rest with
  | nil =>
    intro c s done hfr hperm hE hwin hts
    have hc := hfr c (List.mem_cons_self _ _)
    have hperm1 : (c.frame.frag_idx :: done).Perm (List.range n) := by simpa using hperm
    obtain ⟨s1, h1, h2, h3, h4, h5⟩ := feed_frame_step_deliver s c.clock c.frame c.rssi
      c.remote_addr n pay done hn32 hE (perm_head_lt n _ _ hperm1) hc.2
      (perm_last_complete n _ _ hperm1)
      (fun p hp hpid => hts p hp (by rw [hpid, hc.1]) c (List.mem_cons_self _ _))
    refine ⟨s1, ?_, ?_, ?_, ?_, ?_⟩
    · simp only [feed_all, h1, andThen_ok]
    · rw [← hc.1]; exact h2
    · rw [h3]; rfl
    · rw [← hc.1]; exact h4
    · rw [← hc.1]; exact h5
  | cons c2 rest ih =>
    intro c s done hfr hperm hE hwin hts
    have hc := hfr c (List.mem_cons_self _ _)
    have hc2 := hfr c2 (List.mem_cons_of_mem _ (List.mem_cons_self _ _))
    have hperm1 : (c.frame.frag_idx :: c2.frame.frag_idx ::
        ((rest.map fun x => x.frame.frag_idx) ++ done)).Perm (List.range n) := by
      simpa using hperm
    obtain ⟨s1, e1, h1, h2, h3, h4, h5, h6, h7⟩ := feed_frame_step_incomplete s c.clock c.frame
      c.rssi c.remote_addr n pay done hn32 hE (perm_head_lt n _ _ hperm1) hc.2
      (perm_not_complete n _ _ _ _ hperm1) (hwin c (List.mem_cons_self _ _))
    have hfind : find_or_create s1 c2.clock c2.frame = (s1, e1) :=
      find_or_create_of_some s1 c2.clock c2.frame e1 (by rw [hc2.1, ← hc.1]; exact h2)
    have hperm2 : (((c2 :: rest).map fun x => x.frame.frag_idx) ++
        (c.frame.frag_idx :: done)).Perm (List.range n) := by
      refine List.Perm.trans ?_ hperm1
      simp only [List.map_cons, List.cons_append]
      exact @List.perm_middle _ _ (c2.frame.frag_idx :: (rest.map fun x => x.frame.frag_idx)) _
    obtain ⟨s2, k1, k2, k3, k4, k5⟩ := ih c2 s1 (c.frame.frag_idx :: done)
      (fun x hx => hfr x (List.mem_cons_of_mem _ hx)) hperm2
      (by rw [hfind]; exact h3)
      (by
        intro x hx
        rw [hfind]
        show sub_u32 (now_s x.clock) e1.first_seen ≤ DEDUPE_WINDOW
        rw [h4]
        exact hwin x (List.mem_cons_of_mem _ hx))
      (by
        intro p hp hpid x hx
        rw [h7] at hp
        exact hts p (keptTimestamps_subset _ _ _ hp) hpid x (List.mem_cons_of_mem _ hx))
    refine ⟨s2, ?_, k2, ?_, ?_, ?_⟩
    · simp only [feed_all, h1, andThen_ok]
      exact k1
    · rw [k3, h6, hfind]
      simp only []
      rw [h5, capQueue_append_one 1024 (by decide), List.getLast_cons (List.cons_ne_nil _ _)]
    · rw [k4, List.getLast_cons (List.cons_ne_nil _ _)]
    · intro p hp
      rw [List.getLast_cons (List.cons_ne_nil _ _)]
      rcases k5 p hp with h | h
      · exact Or.inl h
      · rw [h7] at h
        exact Or.inr (keptTimestamps_subset _ _ _ h)

theorem keptTimestamps_find_recent (clock : Nat) (ts : List (Nat × Nat)) (id t : Nat)
    (h : mapFind ts id = some t) (hw : sub_u32 (now_s clock) t ≤ DEDUPE_WINDOW) :
    mapFind (keptTimestamps clock ts) id = some t := by
  unfold keptTimestamps
  apply mapFind_filter_some _ _ _ _ h
  have : ¬ sub_u32 (now_s clock) t > DEDUPE_WINDOW := by omega
  simp [this]

/-- Feeding the rest of a complete set into an engine that holds a dedupe record of the id
within the window: the last frame completes the message, nothing is queued, the entry is
erased and the record stays. -/
theorem feed_all_suppress_aux (id n t : Nat) (pay : Nat → List Byte) (hn32 : n ≤ 32) :
    ∀ (rest : List FrameCall) (c : FrameCall) (s : Engine) (done : List Nat),
      (∀ x ∈ c :: rest, x.frame.msg_id = id ∧ x.frame.payload = pay x.frame.frag_idx) →
      (((c :: rest).map fun x => x.frame.frag_idx) ++ done).Perm (List.range n) →
      EntryInv n pay done (find_or_create s c.clock c.frame).2 →
      (∀ x ∈ c :: rest,
        sub_u32 (now_s x.clock) (find_or_create s c.clock c.frame).2.first_seen ≤ DEDUPE_WINDOW) →
      mapFind s.g_msg_timestamps id = some t →
      (∀ x ∈ c :: rest, sub_u32 (now_s x.clock) t ≤ DEDUPE_WINDOW) →
      ∃ s1, feed_all s (c :: rest) = .ok s1 ∧
        mapFind s1.g_reassembly id = none ∧
        s1.g_incoming_queue = capQueue 1024 s.g_incoming_queue ∧
        mapFind s1.g_msg_timestamps id = some t := by
  intro rest
  induction rest with
  | nil =>
    intro c s done hfr hperm hE hwin hrec hts
    have hc := hfr c (List.mem_cons_self _ _)
    have hperm1 : (c.frame.frag_idx :: done).Perm (List.range n) := by simpa using hperm
    obtain ⟨s1, h1, h2, h3, h4⟩ := feed_frame_step_suppress s c.clock c.frame c.rssi c.remote_addr
      n pay done t hn32 hE (perm_head_lt n _ _ hperm1) hc.2 (perm_last_complete n _ _ hperm1)
      (by rw [hc.1]; exact hrec) (hts c (List.mem_cons_self _ _))
    refine ⟨s1, ?_, ?_, h3, ?_⟩
    · simp only [feed_all, h1, andThen_ok]
    · rw [← hc.1]; exact h2
    · rw [← hc.1]; exact h4
  | cons c2 rest ih =>
    intro c s done hfr hperm hE hwin hrec hts
    have hc := hfr c (List.mem_cons_self _ _)
    have hc2 := hfr c2 (List.mem_cons_of_mem _ (List.mem_cons_self _ _))
    have hperm1 : (c.frame.frag_idx :: c2.frame.frag_idx ::
        ((rest.map fun x => x.frame.frag_idx) ++ done)).Perm (List.range n) := by
      simpa using hperm
    obtain ⟨s1, e1, h1, h2, h3, h4, _, h6, h7⟩ := feed_frame_step_incomplete s c.clock c.frame
      c.rssi c.remote_addr n pay done hn32 hE (perm_head_lt n _ _ hperm1) hc.2
      (perm_not_complete n _ _ _ _ hperm1) (hwin c (List.mem_cons_self _ _))
    have hfind : find_or_create s1 c2.clock c2.frame = (s1, e1) :=
      find_or_create_of_some s1 c2.clock c2.frame e1 (by rw [hc2.1, ← hc.1]; exact h2)
    have hperm2 : (((c2 :: rest).map fun x => x.frame.frag_idx) ++
        (c.frame.frag_idx :: done)).Perm (List.range n) := by
      refine List.Perm.trans ?_ hperm1
      simp only [List.map_cons, List.cons_append]
      exact @List.perm_middle _ _ (c2.frame.frag_idx :: (rest.map fun x => x.frame.frag_idx)) _
    obtain ⟨s2, k1, k2, k3, k4⟩ := ih c2 s1 (c.frame.frag_idx :: done)
      (fun x hx => hfr x (List.mem_cons_of_mem _ hx)) hperm2
      (by rw [hfind]; exact h3)
      (by
        intro x hx
        rw [hfind]
        show sub_u32 (now_s x.clock) e1.first_seen ≤ DEDUPE_WINDOW
        rw [h4]
        exact hwin x (List.mem_cons_of_mem _ hx))
      (by
        rw [h7]
        exact keptTimestamps_find_recent _ _ _ _ hrec (hts c (List.mem_cons_self _ _)))
      (fun x hx => hts x (List.mem_cons_of_mem _ hx))
    refine ⟨s2, ?_, k2, ?_, k4⟩
    · simp only [feed_all, h1, andThen_ok]
      exact k1
    · rw [k3, h6, capQueue_idem]

/-! ## Reassembly: raw frames -/

theorem decode_frag_idx (raw : List Byte) (raw_len : Nat) (f : ParsedFrame)
    (h : decode raw raw_len = some f) : f.frag_idx = fragIndexOf raw := by
  unfold decode at h
  split_ifs at h
  simp only [Option.some.injEq] at h
  rw [← h]
  rfl

theorem frameOf_of_decode (raw : List Byte) (f : ParsedFrame)
    (h : decode raw raw.length = some f) : frameOf raw = f := by
  unfold frameOf
  rw [h]
  rfl

/-- Raw frames that all decode are processed as their decoded frames. -/
theorem receive_all_eq_feed_all (calls : List RawCall) :
    ∀ (s : Engine), (∀ c ∈ calls, ∃ f, decode c.raw c.raw.length = some f) →
      receive_all s calls = feed_all s (calls.map toFrameCall) := by
  induction calls with
  | nil => intro s _; rfl
  | cons c rest ih =>
    intro s h
    obtain ⟨f, hf⟩ := h c (List.mem_cons_self _ _)
    simp only [receive_all, List.map_cons, feed_all, toFrameCall, frameOf_of_decode c.raw f hf]
    rw [receive_raw_of_decode s c.clock c.raw c.raw.length c.rssi (some c.remote_addr) f
      (le_refl _) hf]
    cases hfeed : feed_frame s c.clock f c.rssi (some c.remote_addr) with
    | error e => rfl
    | ok s1 =>
      simp only [andThen_ok]
      exact ih s1 (fun x hx => h x (List.mem_cons_of_mem _ hx))

theorem completeSet_frames (id n : Nat) (pay : Nat → List Byte) (calls : List RawCall)
    (h : CompleteSet id n pay (calls.map fun c => c.raw)) :
    (∀ x ∈ calls.map toFrameCall, x.frame.msg_id = id ∧ x.frame.frag_count = n ∧
      x.frame.payload = pay x.frame.frag_idx) ∧
    ((calls.map toFrameCall).map fun x => x.frame.frag_idx).Perm (List.range n) := by
  obtain ⟨h1, h2⟩ := h
  constructor
  · intro x hx
    obtain ⟨c, hc, rfl⟩ := List.mem_map.mp hx
    obtain ⟨f, hf, hid, hcnt, hpay⟩ := h1 c.raw (List.mem_map.mpr ⟨c, hc, rfl⟩)
    simp only [toFrameCall, frameOf_of_decode c.raw f (decode_of_parse _ _ hf)]
    exact ⟨hid, hcnt, hpay⟩
  · have : ((calls.map toFrameCall).map fun x => x.frame.frag_idx) =
        (calls.map fun c => c.raw).map fragIndexOf := by
      rw [List.map_map, List.map_map]
      apply List.map_congr_left
      intro c hc
      obtain ⟨f, hf, _⟩ := h1 c.raw (List.mem_map.mpr ⟨c, hc, rfl⟩)
      simp only [Function.comp_apply, toFrameCall,
        frameOf_of_decode c.raw f (decode_of_parse _ _ hf)]
      exact decode_frag_idx _ _ f (decode_of_parse _ _ hf)
    rw [this]
    exact h2

theorem completeSet_decodes (id n : Nat) (pay : Nat → List Byte) (calls : List RawCall)
    (h : CompleteSet id n pay (calls.map fun c => c.raw)) :
    ∀ c ∈ calls, ∃ f, decode c.raw c.raw.length = some f := by
  intro c hc
  obtain ⟨f, hf, _⟩ := h.1 c.raw (List.mem_map.mpr ⟨c, hc, rfl⟩)
  exact ⟨f, decode_of_parse _ _ hf⟩

theorem completeSet_ne_nil (id n : Nat) (pay : Nat → List Byte) (calls : List RawCall)
    (hn : 1 ≤ n) (h : CompleteSet id n pay (calls.map fun c => c.raw)) : calls ≠ [] := by
  intro hnil
  have := h.2.length_eq
  simp [hnil] at this
  omega

/-- A complete set of at most 32 fragments, fed in any order within one window into an engine
with no reassembly entry for the id and no dedupe record that would suppress it, queues exactly
one packet, on the last frame, holding the payloads joined in index order. -/
theorem receive_all_fresh_deliver (id n : Nat) (pay : Nat → List Byte) (hn : 1 ≤ n)
    (hn32 : n ≤ 32) (s : Engine) (calls : List RawCall)
    (hset : CompleteSet id n pay (calls.map fun c => c.raw))
    (hre : mapFind s.g_reassembly id = none) (hwin : WithinWindow calls)
    (hts : ∀ p ∈ s.g_msg_timestamps, p.1 = id →
      ∀ c ∈ calls, sub_u32 (now_s c.clock) p.2 > DEDUPE_WINDOW) :
    ∃ s1 first last, calls.head? = some first ∧ calls.getLast? = some last ∧
      receive_all s calls = .ok s1 ∧
      mapFind s1.g_reassembly id = none ∧
      s1.g_incoming_queue = capQueue 1024 (s.g_incoming_queue ++
        [deliveredPacket last.clock ((List.range n).map pay).flatten last.rssi last.remote_addr
          (frameOf first.raw).device_id]) ∧
      mapFind s1.g_msg_timestamps id = some (now_s last.clock) ∧
      (∀ p ∈ s1.g_msg_timestamps, p = (id, now_s last.clock) ∨ p ∈ s.g_msg_timestamps) := by
  have hne := completeSet_ne_nil id n pay calls hn hset
  obtain ⟨hfr, hperm⟩ := completeSet_frames id n pay calls hset
  rw [receive_all_eq_feed_all calls s (completeSet_decodes id n pay calls hset)]
  cases calls with
  | nil => exact absurd rfl hne
  | cons c rest =>
    have hc := hfr (toFrameCall c) (List.mem_map.mpr ⟨c, List.mem_cons_self _ _, rfl⟩)
    have hnone : mapFind s.g_reassembly (toFrameCall c).frame.msg_id = none := by
      rw [hc.1]; exact hre
    have hfoc := find_or_create_of_none s (toFrameCall c).clock (toFrameCall c).frame hnone
    have hE : EntryInv n pay [] (find_or_create s (toFrameCall c).clock (toFrameCall c).frame).2 := by
      have := entryInv_fresh s (toFrameCall c).clock (toFrameCall c).frame pay hnone
        (by rw [hc.2.1]; exact hn)
      rw [hc.2.1] at this
      exact this
    obtain ⟨s1, k1, k2, k3, k4, k5⟩ := feed_all_deliver_aux id n pay hn32
      (rest.map toFrameCall) (toFrameCall c) s []
      (fun x hx => ⟨(hfr x hx).1, (hfr x hx).2.2⟩)
      (by simpa using hperm) hE
      (by
        intro x hx
        rw [hfoc]
        rw [← List.map_cons] at hx
        obtain ⟨c1, hc1, rfl⟩ := List.mem_map.mp hx
        exact hwin c rfl c1 hc1)
      (by
        intro p hp hpid x hx
        rw [← List.map_cons] at hx
        obtain ⟨c1, hc1, rfl⟩ := List.mem_map.mp hx
        exact hts p hp hpid c1 hc1)
    have hlast : ((toFrameCall c) :: rest.map toFrameCall).getLast (List.cons_ne_nil _ _) =
        toFrameCall ((c :: rest).getLast (List.cons_ne_nil _ _)) :=
      List.getLast_map toFrameCall (c :: rest) (by simp)
    refine ⟨s1, c, (c :: rest).getLast (List.cons_ne_nil _ _), rfl,
      List.getLast?_eq_getLast _ _, k1, k2, ?_, ?_, ?_⟩
    · rw [k3, hlast, hfoc]
      rfl
    · rw [k4, hlast]
      rfl
    · intro p hp
      have := k5 p hp
      rw [hlast] at this
      exact this

/-- A complete set of at most 32 fragments, fed in any order within one window into an engine
with no reassembly entry for the id but a dedupe record of it that is within the window at
every call, queues nothing and leaves no reassembly entry. -/
theorem receive_all_fresh_suppress (id n t : Nat) (pay : Nat → List Byte) (hn : 1 ≤ n)
    (hn32 : n ≤ 32) (s : Engine) (calls : List RawCall)
    (hset : CompleteSet id n pay (calls.map fun c => c.raw))
    (hre : mapFind s.g_reassembly id = none) (hwin : WithinWindow calls)
    (hrec : mapFind s.g_msg_timestamps id = some t)
    (hts : ∀ c ∈ calls, sub_u32 (now_s c.clock) t ≤ DEDUPE_WINDOW) :
    ∃ s1, receive_all s calls = .ok s1 ∧
      mapFind s1.g_reassembly id = none ∧
      s1.g_incoming_queue = capQueue 1024 s.g_incoming_queue ∧
      mapFind s1.g_msg_timestamps id = some t := by
  have hne := completeSet_ne_nil id n pay calls hn hset
  obtain ⟨hfr, hperm⟩ := completeSet_frames id n pay calls hset
  rw [receive_all_eq_feed_all calls s (completeSet_decodes id n pay calls hset)]
  cases calls with
  | nil => exact absurd rfl hne
  | cons c rest =>
    have hc := hfr (toFrameCall c) (List.mem_map.mpr ⟨c, List.mem_cons_self _ _, rfl⟩)
    have hnone : mapFind s.g_reassembly (toFrameCall c).frame.msg_id = none := by
      rw [hc.1]; exact hre
    have hfoc := find_or_create_of_none s (toFrameCall c).clock (toFrameCall c).frame hnone
    have hE : EntryInv n pay [] (find_or_create s (toFrameCall c).clock (toFrameCall c).frame).2 := by
      have := entryInv_fresh s (toFrameCall c).clock (toFrameCall c).frame pay hnone
        (by rw [hc.2.1]; exact hn)
      rw [hc.2.1] at this
      exact this
    exact feed_all_suppress_aux id n t pay hn32
      (rest.map toFrameCall) (toFrameCall c) s []
      (fun x hx => ⟨(hfr x hx).1, (hfr x hx).2.2⟩)
      (by simpa using hperm) hE
      (by
        intro x hx
        rw [hfoc]
        rw [← List.map_cons] at hx
        obtain ⟨c1, hc1, rfl⟩ := List.mem_map.mp hx
        exact hwin c rfl c1 hc1)
      hrec
      (by
        intro x hx
        rw [← List.map_cons] at hx
        obtain ⟨c1, hc1, rfl⟩ := List.mem_map.mp hx
        exact hts c1 hc1)

/-! ## Dedupe: suppression and re-delivery -/

theorem completeSet_perm (id n : Nat) (pay : Nat → List Byte) (l1 l2 : List (List Byte))
    (h : CompleteSet id n pay l1) (hp : l2.Perm l1) : CompleteSet id n pay l2 :=
  ⟨fun r hr => h.1 r (hp.subset hr), (hp.map fragIndexOf).trans h.2⟩

theorem capQueue_capQueue_append (q : List IncomingPacket) (x : IncomingPacket) :
    capQueue 1024 (capQueue 1024 (q ++ [x])) = capQueue 1024 (q ++ [x]) :=
  capQueue_idem 1024 _

/-- C2 (amended). Dedupe suppression: for every complete set of fragments of one message id
(1 to 32 fragments, the range of the completion mask) fed through `emergency_receive_raw` into an engine
with no reassembly entry and no dedupe record for the id, and then fed a second time in any
order, every call of the second pass at most `DEDUPE_WINDOW` = 300 seconds after the first
delivery (each pass within one window of its first call, source addresses present): exactly
one packet is queued in total, by the first pass; the second pass leaves the queue as it is
and leaves no reassembly entry for the id. -/
theorem dedupe_suppression (id n : Nat) (pay : Nat → List Byte) (hn : 1 ≤ n) (hn32 : n ≤ 32)
    (s : Engine) (pass1 pass2 : List RawCall)
    (hset : CompleteSet id n pay (pass1.map fun c => c.raw))
    (hsame : (pass2.map fun c => c.raw).Perm (pass1.map fun c => c.raw))
    (hre : mapFind s.g_reassembly id = none) (hts : mapFind s.g_msg_timestamps id = none)
    (hwin1 : WithinWindow pass1) (hwin2 : WithinWindow pass2)
    (hded : ∀ l ∈ pass1.getLast?, ∀ c ∈ pass2,
      sub_u32 (now_s c.clock) (now_s l.clock) ≤ DEDUPE_WINDOW) :
    ∃ s1 s2 pkt,
      receive_all s pass1 = .ok s1 ∧
      s1.g_incoming_queue = capQueue 1024 (s.g_incoming_queue ++ [pkt]) ∧
      pkt.data = ((List.range n).map pay).flatten ∧
      receive_all s1 pass2 = .ok s2 ∧
      s2.g_incoming_queue = s1.g_incoming_queue ∧
      mapFind s2.g_reassembly id = none := by
  obtain ⟨s1, first, last, _, hlast, h1, h2, h3, h4, _⟩ :=
    receive_all_fresh_deliver id n pay hn hn32 s pass1 hset hre hwin1
      (fun p hp hpid => absurd hpid ((mapFind_eq_none_iff _ _).mp hts p hp))
  obtain ⟨s2, k1, k2, k3, _⟩ :=
    receive_all_fresh_suppress id n (now_s last.clock) pay hn hn32 s1 pass2
      (completeSet_perm id n pay _ _ hset hsame) h2 hwin2 h4
      (fun c hc => hded last hlast c hc)
  refine ⟨s1, s2, _, h1, h3, rfl, k1, ?_, k2⟩
  rw [k3, h3]
  exact capQueue_idem 1024 _

/-- C3 (amended). Re-delivery after the window: for every complete set of fragments of one
message id (1 to 32 fragments, the range of the completion mask) that was delivered at time `t` (first pass, into an engine with no entry
and no record for the id), feeding the same set again, in any order, at times later than
`t + DEDUPE_WINDOW` on the 32-bit clock (each pass within one window of its first call, source
addresses present) queues a second packet with the same payload and sets the dedupe record of
the id to the time of the second delivery. -/
theorem redelivery_after_window (id n : Nat) (pay : Nat → List Byte) (hn : 1 ≤ n)
    (hn32 : n ≤ 32) (s : Engine) (pass1 pass2 : List RawCall)
    (hset : CompleteSet id n pay (pass1.map fun c => c.raw))
    (hsame : (pass2.map fun c => c.raw).Perm (pass1.map fun c => c.raw))
    (hre : mapFind s.g_reassembly id = none) (hts : mapFind s.g_msg_timestamps id = none)
    (hwin1 : WithinWindow pass1) (hwin2 : WithinWindow pass2)
    (hlate : ∀ l ∈ pass1.getLast?, ∀ c ∈ pass2,
      sub_u32 (now_s c.clock) (now_s l.clock) > DEDUPE_WINDOW) :
    ∃ s1 s2 pkt1 pkt2 last1 last2,
      pass1.getLast? = some last1 ∧ pass2.getLast? = some last2 ∧
      receive_all s pass1 = .ok s1 ∧
      s1.g_incoming_queue = capQueue 1024 (s.g_incoming_queue ++ [pkt1]) ∧
      mapFind s1.g_msg_timestamps id = some (now_s last1.clock) ∧
      receive_all s1 pass2 = .ok s2 ∧
      s2.g_incoming_queue = capQueue 1024 (s1.g_incoming_queue ++ [pkt2]) ∧
      pkt2.data = pkt1.data ∧ pkt1.data = ((List.range n).map pay).flatten ∧
      pkt2.timestamp = now_s last2.clock ∧
      mapFind s2.g_msg_timestamps id = some (now_s last2.clock) := by
  have hnone := (mapFind_eq_none_iff _ _).mp hts
  obtain ⟨s1, first, last, _, hlast, h1, h2, h3, h4, h5⟩ :=
    receive_all_fresh_deliver id n pay hn hn32 s pass1 hset hre hwin1
      (fun p hp hpid => absurd hpid (hnone p hp))
  obtain ⟨s2, first2, last2, _, hlast2, k1, _, k3, k4, _⟩ :=
    receive_all_fresh_deliver id n pay hn hn32 s1 pass2
      (completeSet_perm id n pay _ _ hset hsame) h2 hwin2
      (by
        intro p hp hpid c hc
        rcases h5 p hp with h | h
        · rw [h]
          exact hlate last hlast c hc
        · exact absurd hpid (hnone p h))
  exact ⟨s1, s2, _, _, last, last2, hlast, hlast2, h1, h3, h4, k1, k3, rfl, rfl, rfl, k4⟩

theorem samplePass1_completeSet :
    CompleteSet 7 2 samplePayload (samplePass1.map fun c => c.raw) := by
  refine ⟨?_, by decide⟩
  intro r hr
  simp only [samplePass1, List.map_cons, List.map_nil, List.mem_cons, List.mem_singleton,
    List.not_mem_nil, or_false] at hr
  rcases hr with rfl | rfl
  · exact ⟨_, rfl, rfl, rfl, rfl⟩
  · exact ⟨_, rfl, rfl, rfl, rfl⟩

/-- Witness for C2 (amended): the sample message fed at times 1000, 1001 and again at 1100,
1101. -/
theorem dedupe_suppression_witness :
    ∃ s1 s2 pkt,
      receive_all (emergency_protocol_init none 1000) samplePass1 = .ok s1 ∧
      s1.g_incoming_queue =
        capQueue 1024 ((emergency_protocol_init none 1000).g_incoming_queue ++ [pkt]) ∧
      pkt.data = ((List.range 2).map samplePayload).flatten ∧
      receive_all s1 (samplePass2 1100) = .ok s2 ∧
      s2.g_incoming_queue = s1.g_incoming_queue ∧
      mapFind s2.g_reassembly 7 = none :=
  dedupe_suppression 7 2 samplePayload (by decide) (by decide) (emergency_protocol_init none 1000)
    samplePass1 (samplePass2 1100) samplePass1_completeSet (by decide) rfl rfl (by decide)
    (by decide) (by decide)

/-- Witness for C3 (amended): the sample message fed at times 1000, 1001 and again at 1400,
1401. -/
theorem redelivery_after_window_witness :
    ∃ s1 s2 pkt1 pkt2 last1 last2,
      samplePass1.getLast? = some last1 ∧ (samplePass2 1400).getLast? = some last2 ∧
      receive_all (emergency_protocol_init none 1000) samplePass1 = .ok s1 ∧
      s1.g_incoming_queue =
        capQueue 1024 ((emergency_protocol_init none 1000).g_incoming_queue ++ [pkt1]) ∧
      mapFind s1.g_msg_timestamps 7 = some (now_s last1.clock) ∧
      receive_all s1 (samplePass2 1400) = .ok s2 ∧
      s2.g_incoming_queue = capQueue 1024 (s1.g_incoming_queue ++ [pkt2]) ∧
      pkt2.data = pkt1.data ∧ pkt1.data = ((List.range 2).map samplePayload).flatten ∧
      pkt2.timestamp = now_s last2.clock ∧
      mapFind s2.g_msg_timestamps 7 = some (now_s last2.clock) :=
  redelivery_after_window 7 2 samplePayload (by decide) (by decide)
    (emergency_protocol_init none 1000) samplePass1 (samplePass2 1400) samplePass1_completeSet
    (by decide) rfl rfl (by decide) (by decide) (by decide)

/-! ## Fragmentation and reassembly round trip -/

theorem broadcast_frames_eq (s0 : Engine) (clock : Nat) (msg : List Byte) :
    broadcast_frames s0 clock msg = send_frames s0.g_self_device_id (broadcast_msg_id s0) msg := by
  simp [broadcast_frames, emergency_send_broadcast, broadcast_msg_id, Function.comp_def]

theorem send_frag_count_le_32 (len : Nat) (h : len ≤ 640) :
    1 ≤ send_frag_count len ∧ send_frag_count len ≤ 32 ∧ len ≤ send_frag_count len * 20 := by
  rw [send_frag_count_of_le len (by omega)]
  omega

/-- The frames of a broadcast of at most 640 bytes are a complete set of fragments. -/
theorem send_frames_completeSet (self_id : List Byte) (id : Nat) (msg : List Byte)
    (hid : id < 4294967296) (hlen : msg.length ≤ 640) :
    CompleteSet id (send_frag_count msg.length) (fun i => (msg.drop (i * 20)).take 20)
      (send_frames self_id id msg) := by
  obtain ⟨_, h32, _⟩ := send_frag_count_le_32 msg.length hlen
  have hdec : ∀ i, i < send_frag_count msg.length →
      decode (encode_frame self_id id msg (send_frag_count msg.length) i)
          (encode_frame self_id id msg (send_frag_count msg.length) i).length =
        some { msg_id := id, frag_idx := i, frag_count := send_frag_count msg.length, ttl := 4
               device_id := self_id.take 31, payload := (msg.drop (i * 20)).take 20 } :=
    fun i hi => decode_encode_frame self_id id msg _ i hid (by omega) (by omega)
  constructor
  · intro r hr
    obtain ⟨i, hi, rfl⟩ := List.mem_map.mp hr
    exact ⟨_, parse_of_decode _ _ (hdec i (List.mem_range.mp hi)), rfl, rfl, rfl⟩
  · have : (send_frames self_id id msg).map fragIndexOf = List.range (send_frag_count msg.length) := by
      unfold send_frames
      rw [List.map_map]
      conv_rhs => rw [← List.map_id (List.range (send_frag_count msg.length))]
      apply List.map_congr_left
      intro i hi
      simp only [Function.comp_apply, id_eq]
      exact (decode_frag_idx _ _ _ (hdec i (List.mem_range.mp hi))).symm
    rw [this]

/-- C1 (amended). Fragmentation/reassembly round trip: for every message of at most 640 bytes
(at most 32 fragments, the range of the completion mask) and every ordering of the frames that
`emergency_send_broadcast` encodes for it, feeding all of those frames through
`emergency_receive_raw` (with a source address) into an engine that has no reassembly entry
and no dedupe record for that message id, every call within the dedupe window of the first,
queues exactly one packet, and that packet's payload is the original message. -/
theorem broadcast_roundtrip (s0 : Engine) (clock0 : Nat) (msg : List Byte)
    (hlen : msg.length ≤ 640) (s : Engine) (calls : List RawCall)
    (hframes : (calls.map fun c => c.raw).Perm (broadcast_frames s0 clock0 msg))
    (hre : mapFind s.g_reassembly (broadcast_msg_id s0) = none)
    (hts : mapFind s.g_msg_timestamps (broadcast_msg_id s0) = none)
    (hwin : WithinWindow calls) :
    ∃ s1 pkt, receive_all s calls = .ok s1 ∧
      s1.g_incoming_queue = capQueue 1024 (s.g_incoming_queue ++ [pkt]) ∧
      pkt.data = msg ∧
      mapFind s1.g_reassembly (broadcast_msg_id s0) = none := by
  obtain ⟨h1, h32, hcover⟩ := send_frag_count_le_32 msg.length hlen
  rw [broadcast_frames_eq] at hframes
  have hset := completeSet_perm _ _ _ _ _
    (send_frames_completeSet s0.g_self_device_id (broadcast_msg_id s0) msg
      (Nat.mod_lt _ (by decide)) hlen) hframes
  obtain ⟨s1, first, last, _, _, k1, k2, k3, _, _⟩ :=
    receive_all_fresh_deliver _ _ _ h1 h32 s calls hset hre hwin
      (fun p hp hpid => absurd hpid ((mapFind_eq_none_iff _ _).mp hts p hp))
  refine ⟨s1, _, k1, k3, ?_, k2⟩
  show ((List.range (send_frag_count msg.length)).map
    (fun i => (msg.drop (i * 20)).take 20)).flatten = msg
  rw [join_chunks_take]
  exact List.take_of_length_le hcover

set_option maxRecDepth 100000 in
/-- The 33 frames of a 641-byte broadcast, fed in index order: the first 31 calls succeed, the
call with fragment index 31 fills bits 0..31 of the mask and the completion test of line 227
then shifts by 32. -/
theorem longCalls_fault :
    longCalls.length = 33 ∧
    receive_all (emergency_protocol_init none 7) (longCalls.take 31) ≠ .error .shiftOutOfRange ∧
    receive_all (emergency_protocol_init none 7) (longCalls.take 32) = .error .shiftOutOfRange ∧
    receive_all (emergency_protocol_init none 7) longCalls = .error .shiftOutOfRange := by
  decide

theorem replicate_20_ne (b : Byte) : List.replicate 20 b ≠ List.replicate 5101 b := by
  intro h
  have := congrArg List.length h
  rw [List.length_replicate, List.length_replicate] at this
  omega

/-- C1 (as stated) fails for long messages. (1) For a message of 5101 bytes
`emergency_send_broadcast` encodes one frame holding the first 20 bytes; fed to a fresh engine
it is delivered as a complete message of 20 bytes, not the original 5101. (2) For a message of
641 bytes the 33 frames, fed in index order, drive the completion test of line 227 to shift the
32-bit mask by 32 on the frame with index 31: the behaviour is undefined, no delivery of the
original bytes is guaranteed. -/
theorem broadcast_roundtrip_counterexample :
    (∃ s1 : Engine,
      broadcast_frames (emergency_protocol_init (some []) 5) 5 (List.replicate 5101 65) =
        [[69, 80, 1, 0, 0, 0, 6, 0, 1, 4, 0, 0, 20] ++ List.replicate 20 65] ∧
      receive_all (emergency_protocol_init none 7)
        [{ clock := 10, raw := [69, 80, 1, 0, 0, 0, 6, 0, 1, 4, 0, 0, 20] ++ List.replicate 20 65,
           rssi := -40, remote_addr := [120] }] = .ok s1 ∧
      s1.g_incoming_queue.map (fun ip => ip.data) = [List.replicate 20 65] ∧
      (List.replicate 20 65 : List Byte) ≠ List.replicate 5101 65) ∧
    (longCalls.map (fun c => c.raw) =
        broadcast_frames (emergency_protocol_init (some []) 5) 5 (List.replicate 641 65) ∧
      longCalls.length = 33 ∧
      receive_all (emergency_protocol_init none 7) (longCalls.take 31) ≠ .error .shiftOutOfRange ∧
      receive_all (emergency_protocol_init none 7) (longCalls.take 32) = .error .shiftOutOfRange ∧
      receive_all (emergency_protocol_init none 7) longCalls = .error .shiftOutOfRange) := by
  refine ⟨⟨_, ?_, rfl, rfl, replicate_20_ne 65⟩, ?_, longCalls_fault⟩
  · rw [broadcast_frames_eq]
    exact send_frames_overlong
  · simp only [longCalls, List.map_map, Function.comp_def, List.map_id']

theorem sampleCalls_perm :
    (sampleCalls.map fun c => c.raw).Perm (broadcast_frames sampleEngine 1000 sampleMessage) := by
  simp only [sampleCalls, List.map_map, Function.comp_def, List.map_id']
  exact List.reverse_perm _

/-- Witness for C1 (amended): the two frames of the 25-byte `sampleMessage` broadcast from
`sampleEngine`, received in reverse order by a freshly initialised engine. -/
theorem broadcast_roundtrip_witness :
    ∃ s1 pkt, receive_all (emergency_protocol_init none 1000) sampleCalls = .ok s1 ∧
      s1.g_incoming_queue =
        capQueue 1024 ((emergency_protocol_init none 1000).g_incoming_queue ++ [pkt]) ∧
      pkt.data = sampleMessage ∧
      mapFind s1.g_reassembly (broadcast_msg_id sampleEngine) = none :=
  broadcast_roundtrip sampleEngine 1000 sampleMessage (by decide)
    (emergency_protocol_init none 1000) sampleCalls sampleCalls_perm rfl rfl (by decide)

/-! ## Effect of a broadcast -/

theorem send_frag_count_lt (len : Nat) : send_frag_count len < 256 := by
  unfold send_frag_count
  simp only []
  split_ifs
  · decide
  · exact Nat.mod_lt _ (by decide)

theorem send_frag_count_pos (len : Nat) : 1 ≤ send_frag_count len := by
  unfold send_frag_count
  simp only []
  split_ifs <;> omega

theorem encodedChunk_eq (msg : List Byte) (i : Nat) :
    encodedChunk msg i = (msg.drop (i * 20)).take 20 := by
  simp [encodedChunk, List.take_eq_take]

/-- Every frame of one broadcast passes the decoder, whatever the message length. -/
theorem send_frames_parse (self_id : List Byte) (id : Nat) (msg : List Byte)
    (hid : id < 4294967296) :
    (send_frames self_id id msg).map (fun fr => parse_header fr fr.length) =
      (List.range (send_frag_count msg.length)).map (fun i => .ok (some
        { msg_id := id, frag_idx := i, frag_count := send_frag_count msg.length, ttl := 4
          device_id := self_id.take 31, payload := encodedChunk msg i })) := by
  unfold send_frames
  rw [List.map_map]
  apply List.map_congr_left
  intro i hi
  have hi2 : i < send_frag_count msg.length := List.mem_range.mp hi
  have h256 := send_frag_count_lt msg.length
  simp only [Function.comp_apply]
  rw [parse_header_eq_decode _ _ (le_refl _),
    decode_encode_frame _ _ _ _ _ hid h256 (by omega), encodedChunk_eq]

/-- C18. With an absent message `emergency_send_broadcast` returns -1 and changes no state.
With any message it returns 0 and appends to the back of the queue one packet per produced
frame, in fragment order, each holding that frame and tagged with rssi 0, the address
"local" and the local sender id; the neighbor table, the reassembly map, the dedupe table,
the self id and the packets queued before are unchanged. -/
theorem send_broadcast_effect (s : Engine) (clock : Nat) (msg : List Byte) :
    emergency_send_broadcast s clock none = (-1, s) ∧
    (emergency_send_broadcast s clock (some msg)).1 = 0 ∧
    (emergency_send_broadcast s clock (some msg)).2.g_incoming_queue =
      s.g_incoming_queue ++
        (send_frames s.g_self_device_id (broadcast_msg_id s) msg).map (fun fr =>
          { data := fr, rssi := 0, remote_addr := strBytes "local",
            device_id := s.g_self_device_id, timestamp := now_s clock }) ∧
    (send_frames s.g_self_device_id (broadcast_msg_id s) msg).length =
      send_frag_count msg.length ∧
    (send_frames s.g_self_device_id (broadcast_msg_id s) msg).map
        (fun fr => (parse_header fr fr.length).map (Option.map ParsedFrame.frag_idx)) =
      (List.range (send_frag_count msg.length)).map (fun i => .ok (some i)) ∧
    (emergency_send_broadcast s clock (some msg)).2.g_neighbors = s.g_neighbors ∧
    (emergency_send_broadcast s clock (some msg)).2.g_reassembly = s.g_reassembly ∧
    (emergency_send_broadcast s clock (some msg)).2.g_msg_timestamps = s.g_msg_timestamps ∧
    (emergency_send_broadcast s clock (some msg)).2.g_recent_messages = s.g_recent_messages ∧
    (emergency_send_broadcast s clock (some msg)).2.g_self_device_id = s.g_self_device_id := by
  refine ⟨rfl, rfl, rfl, by simp [send_frames], ?_, rfl, rfl, rfl, rfl, rfl⟩
  have h := send_frames_parse s.g_self_device_id (broadcast_msg_id s) msg
    (Nat.mod_lt _ (by decide))
  have h2 := congrArg (List.map (fun r : Except Fault (Option ParsedFrame) =>
    r.map (Option.map ParsedFrame.frag_idx))) h
  simp only [List.map_map, Function.comp_def] at h2
  exact h2

/-! ## Header round trip -/

/-- What a successful decode says about the buffer. -/
theorem decode_some_inv (raw : List Byte) (n : Nat) (f : ParsedFrame)
    (h : decode raw n = some f) :
    12 ≤ n ∧ (raw.getD 0 0).val = 69 ∧ (raw.getD 1 0).val = 80 ∧ (raw.getD 2 0).val = 1 ∧
    11 + declaredDevLen raw + 2 + declaredPayloadLen raw ≤ n ∧
    f.payload = (raw.drop (11 + declaredDevLen raw + 2)).take (declaredPayloadLen raw) ∧
    (n ≤ raw.length → declaredPayloadLen raw = f.payload.length) := by
  unfold decode at h
  split_ifs at h with h1 h2 h3 h4 h5 h6
  have hf := Option.some.inj h
  subst hf
  refine ⟨by omega, not_not.mp h2, not_not.mp h3, not_not.mp h4, by omega, rfl, ?_⟩
  intro hn
  simp only [List.length_take, List.length_drop]
  omega

/-- C11. Every frame produced by `emergency_send_broadcast` passes the decoder's validation
and decodes to version 1, the message id `(counter before the call + 1) mod 2^32` (the same in
every frame of the call, the counter advancing by exactly one), the fragment index and count
that were encoded, hop count 4, the first `min |self id| 31` bytes of the self id as sender id,
and as payload exactly the encoded chunk, whose length is the big-endian 2-byte prefix. -/
theorem send_broadcast_header_roundtrip (s : Engine) (clock : Nat) (msg : List Byte) :
    (emergency_send_broadcast s clock (some msg)).2.g_next_msg_id =
      (s.g_next_msg_id + 1) % 4294967296 ∧
    (broadcast_frames s clock msg).length = send_frag_count msg.length ∧
    (broadcast_frames s clock msg).map (fun fr => parse_header fr fr.length) =
      (List.range (send_frag_count msg.length)).map (fun i => .ok (some
        { msg_id := (s.g_next_msg_id + 1) % 4294967296, frag_idx := i
          frag_count := send_frag_count msg.length, ttl := 4
          device_id := s.g_self_device_id.take (min s.g_self_device_id.length 31)
          payload := encodedChunk msg i })) ∧
    (broadcast_frames s clock msg).map (fun fr => ((fr.getD 2 0).val, declaredPayloadLen fr)) =
      (List.range (send_frag_count msg.length)).map (fun i => (1, (encodedChunk msg i).length)) := by
  have hmin : s.g_self_device_id.take (min s.g_self_device_id.length 31) =
      s.g_self_device_id.take 31 := by
    rw [List.take_eq_take]
    simp [Nat.min_comm]
  rw [broadcast_frames_eq, hmin]
  refine ⟨rfl, by simp [send_frames], ?_, ?_⟩
  · exact send_frames_parse _ _ _ (Nat.mod_lt _ (by decide))
  · have h := send_frames_parse s.g_self_device_id (broadcast_msg_id s) msg
      (Nat.mod_lt _ (by decide))
    apply List.ext_getElem
    · simp [send_frames]
    · intro n h1 h2
      have hn : n < send_frag_count msg.length := by simpa using h2
      have hlt : n < (send_frames s.g_self_device_id (broadcast_msg_id s) msg).length := by
        simpa using h1
      have hp := congrArg (fun l => l[n]?) h
      simp only [List.getElem?_map, List.getElem?_eq_getElem hlt, List.getElem?_range hn,
        Option.map_some'] at hp
      have hd := decode_some_inv _ _ _ (decode_of_parse _ _ (Option.some.inj hp))
      simp only [List.getElem_map, List.getElem_range]
      rw [hd.2.2.2.1, hd.2.2.2.2.2.2 (le_refl _)]

/-! ## Polling -/

theorem poll_incoming_empty (s : Engine) (max_len : Nat) (hq : s.g_incoming_queue = []) :
    emergency_poll_incoming s max_len = (0, [], s) := by
  unfold emergency_poll_incoming
  rw [hq]

/-- Every path of `emergency_poll_incoming` pops the oldest packet and touches nothing else;
what it hands out depends on that packet alone. -/
theorem poll_incoming_cons (s : Engine) (max_len : Nat) (ip : IncomingPacket)
    (rest : List IncomingPacket) (hq : s.g_incoming_queue = ip :: rest) :
    (emergency_poll_incoming s max_len).2.2 = { s with g_incoming_queue := rest } ∧
    ((emergency_poll_incoming s max_len).1, (emergency_poll_incoming s max_len).2.1) =
      pollOutput s ip max_len := by
  unfold pollOutput emergency_poll_incoming
  rw [hq]
  simp only []
  split_ifs <;> exact ⟨rfl, rfl⟩

theorem pollOutput_congr (s t : Engine) (ip : IncomingPacket) (max_len : Nat) :
    pollOutput s ip max_len = pollOutput t ip max_len := by
  unfold pollOutput emergency_poll_incoming
  simp only []
  split_ifs <;> rfl

/-- Successive polls walk the queue from its front. -/
theorem poll_each_eq : ∀ (ms : List Nat) (s : Engine), ms.length ≤ s.g_incoming_queue.length →
    (poll_each s ms).2 = { s with g_incoming_queue := s.g_incoming_queue.drop ms.length } ∧
    (poll_each s ms).1 = List.zipWith (fun ip m => pollOutput s ip m) s.g_incoming_queue ms := by
  intro ms
  induction ms with
  | nil => intro s _; exact ⟨rfl, by simp [poll_each]⟩
  | cons m ms ih =>
    intro s hlen
    cases hq : s.g_incoming_queue with
    | nil => rw [hq] at hlen; simp at hlen
    | cons ip rest =>
      obtain ⟨h1, h2⟩ := poll_incoming_cons s m ip rest hq
      have hl : ms.length ≤ ({ s with g_incoming_queue := rest } : Engine).g_incoming_queue.length := by
        rw [hq] at hlen
        simpa using hlen
      obtain ⟨i1, i2⟩ := ih _ hl
      have hf : (fun (ip : IncomingPacket) (m : Nat) =>
          pollOutput { s with g_incoming_queue := rest } ip m) =
          (fun ip m => pollOutput s ip m) := by
        funext ip m
        exact pollOutput_congr _ _ _ _
      constructor
      · show (poll_each (emergency_poll_incoming s m).2.2 ms).2 = _
        rw [h1, i1]
        rfl
      · show ((emergency_poll_incoming s m).1, (emergency_poll_incoming s m).2.1) ::
          (poll_each (emergency_poll_incoming s m).2.2 ms).1 = _
        rw [h1, i2, h2, hf]
        rfl

theorem declaredPayloadLen_lt (raw : List Byte) : declaredPayloadLen raw < 65536 := by
  unfold declaredPayloadLen
  have h1 := (raw.getD (11 + declaredDevLen raw) 0).isLt
  have h2 := (raw.getD (11 + declaredDevLen raw + 1) 0).isLt
  apply @Nat.or_lt_two_pow _ _ 16
  · rw [Nat.shiftLeft_eq]
    omega
  · omega

theorem head_byte_iff (data : List Byte) (i : Nat) (b : Byte) (h : i < data.length) :
    data[i]? = some b ↔ (data.getD i 0).val = b.val := by
  rw [List.getD_eq_getElem?_getD, List.getElem?_eq_getElem h]
  simp only [Option.some.injEq, Option.getD_some]
  exact ⟨fun e => congrArg Fin.val e, fun e => Fin.ext e⟩

/-- A queued packet that holds a well-formed frame: the poll hands out the frame's payload,
truncated to the room in the buffer. -/
theorem poll_of_decode (s : Engine) (ip : IncomingPacket) (rest : List IncomingPacket)
    (max_len : Nat) (f : ParsedFrame) (hq : s.g_incoming_queue = ip :: rest)
    (hdec : decode ip.data ip.data.length = some f) (hroom : f.payload.length ≤ max_len) :
    emergency_poll_incoming s max_len =
      ((f.payload.length : Int), f.payload, { s with g_incoming_queue := rest }) := by
  obtain ⟨h12, h0, h1, _, hlen, hpay, hpl⟩ := decode_some_inv _ _ _ hdec
  have hpl2 := hpl (le_refl _)
  have hcond : ip.data.length ≥ 12 ∧ ip.data[0]? = some 69 ∧ ip.data[1]? = some 80 :=
    ⟨h12, (head_byte_iff _ 0 69 (by omega)).mpr h0, (head_byte_iff _ 1 80 (by omega)).mpr h1⟩
  have hlt := declaredPayloadLen_lt ip.data
  unfold declaredPayloadLen declaredDevLen at hlen hpay hpl2 hlt
  unfold emergency_poll_incoming
  rw [hq]
  simp only [if_pos hcond]
  rw [if_neg (by omega), if_neg (by omega), if_neg (by omega), ← hpay, hpl2,
    toInt32_of_lt _ (by omega)]

/-- What a poll hands out for the loopback packet of fragment `i`. -/
theorem pollOutput_loopback (s t : Engine) (clock : Nat) (msg : List Byte) (i m : Nat)
    (hi : i < send_frag_count msg.length) (hm : 20 ≤ m) :
    pollOutput t (loopbackPacket s clock
        (encode_frame s.g_self_device_id (broadcast_msg_id s) msg (send_frag_count msg.length) i)) m =
      ((((msg.drop (i * 20)).take 20).length : Int), (msg.drop (i * 20)).take 20) := by
  have h256 := send_frag_count_lt msg.length
  have hdec := decode_encode_frame s.g_self_device_id (broadcast_msg_id s) msg
    (send_frag_count msg.length) i (Nat.mod_lt _ (by decide)) h256 (by omega)
  have hroom : ((msg.drop (i * 20)).take 20).length ≤ m := by
    rw [List.length_take]
    omega
  have hp := poll_of_decode
    { t with g_incoming_queue := [loopbackPacket s clock
        (encode_frame s.g_self_device_id (broadcast_msg_id s) msg (send_frag_count msg.length) i)] }
    _ [] m _ rfl hdec hroom
  unfold pollOutput
  rw [hp]

theorem send_broadcast_queue (s : Engine) (clock : Nat) (msg : List Byte) :
    (emergency_send_broadcast s clock (some msg)).2.g_incoming_queue =
      s.g_incoming_queue ++ (send_frames s.g_self_device_id (broadcast_msg_id s) msg).map
        (loopbackPacket s clock) := rfl

/-- Polling the frames of one broadcast, queued on an empty queue, hands out the chunks in
fragment order and empties the queue. -/
theorem poll_each_broadcast (s : Engine) (clock : Nat) (msg : List Byte) (ms : List Nat)
    (hq : s.g_incoming_queue = []) (hms : ms.length = send_frag_count msg.length)
    (hroom : ∀ m ∈ ms, 20 ≤ m) :
    (poll_each (emergency_send_broadcast s clock (some msg)).2 ms).1 =
      (List.range (send_frag_count msg.length)).map
        (fun i => ((((msg.drop (i * 20)).take 20).length : Int), (msg.drop (i * 20)).take 20)) ∧
    (poll_each (emergency_send_broadcast s clock (some msg)).2 ms).2.g_incoming_queue = [] := by
  have hqueue := send_broadcast_queue s clock msg
  rw [hq, List.nil_append] at hqueue
  have hql : (emergency_send_broadcast s clock (some msg)).2.g_incoming_queue.length =
      send_frag_count msg.length := by
    rw [hqueue]
    simp [send_frames]
  obtain ⟨h1, h2⟩ := poll_each_eq ms (emergency_send_broadcast s clock (some msg)).2 (by omega)
  constructor
  · rw [h2]
    apply List.ext_getElem
    · simp [hql, hms]
    · intro n hn1 hn2
      have hn : n < send_frag_count msg.length := by simpa using hn2
      have hmem : ms[n] ∈ ms := List.getElem_mem _
      simp only [List.getElem_zipWith, List.getElem_map, List.getElem_range, hqueue, send_frames]
      exact pollOutput_loopback s _ clock msg n _ hn (hroom _ hmem)
  · rw [h1]
    show List.drop ms.length (emergency_send_broadcast s clock (some msg)).2.g_incoming_queue = []
    apply List.drop_of_length_le
    omega

/-- C12. On an empty queue `emergency_poll_incoming` returns 0 and changes nothing. On every
non-empty queue it removes exactly the oldest packet, leaves the remaining packets in order and
leaves the neighbor table, the reassembly map, the dedupe table and the message-id counter
unchanged, and what it hands out is determined by that oldest packet; so successive polls
hand out the queued packets in the order they were enqueued. -/
theorem poll_incoming_fifo (s : Engine) (max_len : Nat) :
    (s.g_incoming_queue = [] → emergency_poll_incoming s max_len = (0, [], s)) ∧
    (∀ ip rest, s.g_incoming_queue = ip :: rest →
      (emergency_poll_incoming s max_len).2.2 = { s with g_incoming_queue := rest } ∧
      (emergency_poll_incoming s max_len).2.2.g_incoming_queue = rest ∧
      (emergency_poll_incoming s max_len).2.2.g_neighbors = s.g_neighbors ∧
      (emergency_poll_incoming s max_len).2.2.g_reassembly = s.g_reassembly ∧
      (emergency_poll_incoming s max_len).2.2.g_msg_timestamps = s.g_msg_timestamps ∧
      (emergency_poll_incoming s max_len).2.2.g_next_msg_id = s.g_next_msg_id ∧
      ((emergency_poll_incoming s max_len).1, (emergency_poll_incoming s max_len).2.1) =
        pollOutput s ip max_len) ∧
    (∀ ms : List Nat, ms.length ≤ s.g_incoming_queue.length →
      (poll_each s ms).2 = { s with g_incoming_queue := s.g_incoming_queue.drop ms.length } ∧
      (poll_each s ms).1 = List.zipWith (fun ip m => pollOutput s ip m) s.g_incoming_queue ms) := by
  refine ⟨poll_incoming_empty s max_len, ?_, fun ms h => poll_each_eq ms s h⟩
  intro ip rest hq
  obtain ⟨h1, h2⟩ := poll_incoming_cons s max_len ip rest hq
  rw [h1]
  exact ⟨rfl, rfl, rfl, rfl, rfl, rfl, h2⟩

/-- Witness for C12: an empty queue, and `sampleEngine` with a second packet queued behind its
first, polled twice. -/
theorem poll_incoming_fifo_witness :
    emergency_poll_incoming (emergency_protocol_init none 0) 8 =
      (0, [], emergency_protocol_init none 0) ∧
    (emergency_poll_incoming sampleEngine 2).2.2.g_incoming_queue = [] ∧
    (poll_each (emergency_send_broadcast sampleEngine 1000 (some [72, 73])).2 [2, 8]).1 =
      [(2, [1, 2]), (2, [72, 73])] :=
  ⟨(poll_incoming_fifo (emergency_protocol_init none 0) 8).1 rfl,
   ((poll_incoming_fifo sampleEngine 2).2.1 _ _ rfl).2.1,
   ((poll_incoming_fifo (emergency_send_broadcast sampleEngine 1000 (some [72, 73])).2 0).2.2
      [2, 8] (by decide)).2⟩

/-! ## Loopback through the public interface -/

/-- C19. After `emergency_protocol_init` with any self id, for every message of length
`len ≤ 5100`, `emergency_send_broadcast` followed by `k = max 1 (ceil (len / 20))` calls of
`emergency_poll_incoming`, each with room for at least 20 bytes, returns in order the `k`
consecutive chunks of the message, each call's return value being that chunk's length; the
chunks concatenated are the message, a further poll returns 0, and a message of 1 to 20 bytes
is returned whole by a single poll. -/
theorem loopback_roundtrip (self_id : Option (List Byte)) (c0 c1 : Nat) (msg : List Byte)
    (ms : List Nat) (m_next : Nat) (hlen : msg.length ≤ 5100)
    (hms : ms.length = max 1 ((msg.length + 19) / 20)) (hroom : ∀ m ∈ ms, 20 ≤ m) :
    (emergency_send_broadcast (emergency_protocol_init self_id c0) c1 (some msg)).1 = 0 ∧
    (poll_each (emergency_send_broadcast (emergency_protocol_init self_id c0) c1 (some msg)).2
        ms).1 =
      (List.range (max 1 ((msg.length + 19) / 20))).map (fun i =>
        (((bytesBetween msg (20 * i) (min msg.length (20 * i + 20))).length : Int),
          bytesBetween msg (20 * i) (min msg.length (20 * i + 20)))) ∧
    ((poll_each (emergency_send_broadcast (emergency_protocol_init self_id c0) c1 (some msg)).2
        ms).1.map Prod.snd).flatten = msg ∧
    (emergency_poll_incoming
      (poll_each (emergency_send_broadcast (emergency_protocol_init self_id c0) c1 (some msg)).2
        ms).2 m_next).1 = 0 ∧
    (1 ≤ msg.length → msg.length ≤ 20 → ∀ m, 20 ≤ m →
      (emergency_poll_incoming
        (emergency_send_broadcast (emergency_protocol_init self_id c0) c1 (some msg)).2 m).1 =
          (msg.length : Int) ∧
      (emergency_poll_incoming
        (emergency_send_broadcast (emergency_protocol_init self_id c0) c1 (some msg)).2 m).2.1 =
          msg) := by
  have hn := send_frag_count_of_le msg.length hlen
  obtain ⟨h1, h2⟩ := poll_each_broadcast (emergency_protocol_init self_id c0) c1 msg ms rfl
    (by rw [hn]; exact hms) hroom
  rw [hn] at h1
  refine ⟨rfl, ?_, ?_, ?_, ?_⟩
  · simp only [bytesBetween_chunk]
    exact h1
  · rw [h1, List.map_map]
    simp only [Function.comp_def]
    rw [join_chunks_take]
    apply List.take_of_length_le
    omega
  · rw [poll_incoming_empty _ _ h2]
  · intro h1len h20 m hm
    have hk : send_frag_count msg.length = 1 := by
      rw [hn]
      omega
    obtain ⟨g1, _⟩ := poll_each_broadcast (emergency_protocol_init self_id c0) c1 msg [m] rfl
      (by rw [hk]; rfl) (by simpa using hm)
    rw [hk] at g1
    have hwhole : (msg.drop (0 * 20)).take 20 = msg := by
      rw [Nat.zero_mul, List.drop_zero]
      exact List.take_of_length_le h20
    have hr : List.range 1 = [0] := rfl
    rw [hr] at g1
    simp only [poll_each, List.map_cons, List.map_nil, hwhole, List.cons.injEq,
      Prod.mk.injEq, and_true] at g1
    exact g1

/-- Witness for C19: the 25-byte message `A..Y` sent after initialisation and polled twice. -/
theorem loopback_roundtrip_witness :
    ((poll_each (emergency_send_broadcast (emergency_protocol_init (some [100, 101]) 5) 7
        (some sampleMessage)).2 [20, 64]).1.map Prod.snd).flatten = sampleMessage :=
  (loopback_roundtrip (some [100, 101]) 5 7 sampleMessage [20, 64] 9 (by decide) (by decide)
    (by decide)).2.2.1

/-! ## The sweep -/

theorem sub_u32_eq_elapsedMod (a b : Nat) : sub_u32 a b = elapsedMod a b := by
  unfold sub_u32 elapsedMod
  omega

theorem capQueue_length (L : Nat) (q : List IncomingPacket) :
    (capQueue L q).length = min q.length L := by
  unfold capQueue
  rw [List.length_drop]
  omega

/-- C15. A sweep at time `now` removes exactly the dedupe records with
`(now - timestamp) mod 2^32 > 300`, exactly the reassembly entries with
`(now - first_seen) mod 2^32 > 300` and exactly the neighbor records with
`(now - last_seen) mod 2^32 > 600`, keeps every other record unchanged and in place, and
leaves in the delivery queue the newest `min n 1024` of its `n` packets in their original
order; the self id and the message-id counter are untouched. -/
theorem gc_cleanup_postcondition (s : Engine) (clock : Nat) :
    (gc_cleanup s clock).g_msg_timestamps =
      s.g_msg_timestamps.filter (fun p => decide (¬ elapsedMod (now_s clock) p.2 > 300)) ∧
    (gc_cleanup s clock).g_reassembly =
      s.g_reassembly.filter (fun p => decide (¬ elapsedMod (now_s clock) p.2.first_seen > 300)) ∧
    (gc_cleanup s clock).g_neighbors =
      s.g_neighbors.filter (fun p => decide (¬ elapsedMod (now_s clock) p.2.last_seen > 600)) ∧
    (gc_cleanup s clock).g_incoming_queue =
      s.g_incoming_queue.drop (s.g_incoming_queue.length - min s.g_incoming_queue.length 1024) ∧
    (gc_cleanup s clock).g_incoming_queue.length = min s.g_incoming_queue.length 1024 ∧
    (gc_cleanup s clock).g_self_device_id = s.g_self_device_id ∧
    (gc_cleanup s clock).g_next_msg_id = s.g_next_msg_id := by
  have hq : s.g_incoming_queue.length - min s.g_incoming_queue.length 1024 =
      s.g_incoming_queue.length - 1024 := by omega
  refine ⟨?_, ?_, ?_, ?_, ?_, rfl, rfl⟩
  · simp only [gc_cleanup, sub_u32_eq_elapsedMod, DEDUPE_WINDOW, decide_not]
  · simp only [gc_cleanup, sub_u32_eq_elapsedMod, DEDUPE_WINDOW, decide_not]
  · simp only [gc_cleanup, sub_u32_eq_elapsedMod, DEDUPE_WINDOW, decide_not]
  · rw [hq]
    simp only [gc_cleanup, capQueue]
  · simp only [gc_cleanup]
    exact capQueue_length 1024 _

/-- The state a sweep leaves satisfies the sweep's postcondition. -/
theorem gc_cleanup_sweepPost (s : Engine) (clock : Nat) :
    SweepPost (gc_cleanup s clock) (now_s clock) := by
  refine ⟨?_, ?_, ?_, ?_⟩
  · intro p hp
    simp only [gc_cleanup, List.mem_filter, sub_u32_eq_elapsedMod, DEDUPE_WINDOW] at hp
    simpa using hp.2
  · intro p hp
    simp only [gc_cleanup, List.mem_filter, sub_u32_eq_elapsedMod, DEDUPE_WINDOW] at hp
    simpa using hp.2
  · intro p hp
    simp only [gc_cleanup, List.mem_filter, sub_u32_eq_elapsedMod, DEDUPE_WINDOW] at hp
    simpa using hp.2
  · simp only [gc_cleanup]
    rw [capQueue_length]
    omega

/-- A frame that is stored is followed by the sweep of line 265. -/
theorem feed_frame_stored_sweepPost (s s1 : Engine) (clock : Nat) (f : ParsedFrame) (rssi : Int)
    (addr : Option (List Byte)) (hst : isStored s clock f)
    (h : feed_frame s clock f rssi addr = .ok s1) : SweepPost s1 (now_s clock) := by
  rcases feed_frame_ok_cases s s1 clock f rssi addr h with ⟨hn, _⟩ | ⟨_, nb, _, h1 | ⟨full, h1⟩⟩
  · exact absurd hst hn
  · rw [h1]
    exact gc_cleanup_sweepPost _ _
  · rw [h1]
    exact gc_cleanup_sweepPost _ _

/-- C16 (failing input). In `sampleEngine` at time 5000 the dedupe record, the reassembly entry
and the neighbor record are all older than 600 seconds. The well-formed frame `discardedFrame`
(message 9, index 5 of 2) is discarded by the index bound of line 191 and the call returns the
state unswept, so the returned state violates the sweep's postcondition; the sibling frame
`storedFrame` (index 1 of 2) is stored and the returned state satisfies it. -/
theorem receive_raw_discard_skips_sweep :
    parse_header discardedFrame discardedFrame.length =
      .ok (some { msg_id := 9, frag_idx := 5, frag_count := 2, ttl := 4, device_id := [65],
                  payload := [7] }) ∧
    emergency_receive_raw sampleEngine 5000 (some discardedFrame) discardedFrame.length (-40)
      (some [120]) = .ok (0, sampleEngine) ∧
    ¬ SweepPost sampleEngine (now_s 5000) ∧
    sampleEngine.g_msg_timestamps = [(5, 900)] ∧
    elapsedMod (now_s 5000) 900 = 4100 ∧
    (∃ s1, emergency_receive_raw sampleEngine 5000 (some storedFrame) storedFrame.length (-40)
      (some [120]) = .ok (0, s1) ∧ SweepPost s1 (now_s 5000) ∧ s1.g_msg_timestamps = [(9, 5000)]) := by
  refine ⟨by decide, by decide, by decide, rfl, by decide, _, rfl, by decide, by decide⟩

/-! ## The fragment count on receipt -/

/-- C17 (counterexample). The decoder and lines 176-198 never test the fragment-count field.
The well-formed frame `zeroCountFrame` (count 0, index 0, payload `[7]`), received in the
initial state, gets a reassembly entry of one slot, is found complete by the empty loop of
line 225 and is delivered at once as a packet with an empty payload. The well-formed frame
`overCountFrame` (count 40, index 0) gets a reassembly entry of 40 slots that stays in the
map. -/
theorem receive_raw_accepts_any_fragment_count :
    parse_header zeroCountFrame zeroCountFrame.length =
      .ok (some { msg_id := 77, frag_idx := 0, frag_count := 0, ttl := 4, device_id := [66],
                  payload := [7] }) ∧
    (emergency_protocol_init (some [100]) 100).g_incoming_queue = [] ∧
    (emergency_protocol_init (some [100]) 100).g_reassembly = [] ∧
    (∃ s1, emergency_receive_raw (emergency_protocol_init (some [100]) 100) 100
        (some zeroCountFrame) zeroCountFrame.length (-40) (some [120]) = .ok (0, s1) ∧
      s1.g_incoming_queue =
        [{ data := [], rssi := -40, remote_addr := [120], device_id := [66], timestamp := 100 }]) ∧
    parse_header overCountFrame overCountFrame.length =
      .ok (some { msg_id := 78, frag_idx := 0, frag_count := 40, ttl := 4, device_id := [66],
                  payload := [7] }) ∧
    (∃ s1, emergency_receive_raw (emergency_protocol_init (some [100]) 100) 100
        (some overCountFrame) overCountFrame.length (-40) (some [120]) = .ok (0, s1) ∧
      s1.g_reassembly.map (fun p => (p.1, p.2.frag_count, p.2.frags.length, p.2.received_mask)) =
        [(78, 40, 40, 1)]) := by
  refine ⟨by decide, rfl, rfl, ⟨_, rfl, by decide⟩, by decide, ⟨_, rfl, by decide⟩⟩

/-! ## The absent source address -/

theorem update_neighbor_null_eq_empty (nb : List (List Byte × Neighbor)) (clock : Nat)
    (device_id : List Byte) (rssi : Int)
    (h : ∀ n, mapFind nb device_id = some n → n.address = []) :
    update_neighbor nb clock device_id rssi none =
      update_neighbor nb clock device_id rssi (some []) := by
  unfold update_neighbor
  by_cases hd : device_id = []
  · rw [if_pos hd, if_pos hd]
  · rw [if_neg hd, if_neg hd]
    cases hf : mapFind nb device_id with
    | none => rfl
    | some n =>
      have ha := h n hf
      simp only [ha, ne_eq, not_true_eq_false, if_false]

/-- Where the sender is untracked or tracked with an empty address, the absent address is
never dereferenced and the call does what it does with the empty-string address. -/
theorem feed_frame_null_eq_empty (s : Engine) (clock : Nat) (f : ParsedFrame) (rssi : Int)
    (h : ∀ n, mapFind s.g_neighbors f.device_id = some n → n.address = []) :
    feed_frame s clock f rssi none = feed_frame s clock f rssi (some []) := by
  have hnb : (find_or_create s clock f).1.g_neighbors = s.g_neighbors :=
    find_or_create_neighbors s clock f
  have hu := update_neighbor_null_eq_empty s.g_neighbors clock f.device_id rssi h
  unfold feed_frame
  simp only [hnb, hu]
  rfl

/-- C20 (failing input). The state `sampleEngine` is reachable and tracks sender `A` with the
non-empty address `x`. The well-formed frame `storedFrame` from `A` is stored; with an absent
source address line 218 builds `string(remote_addr)` from the null pointer, which the model
reports as the fault `nullAddress`, while the same call with the empty-string address
completes. -/
theorem receive_raw_null_address_fault :
    Reachable sampleEngine ∧
    (mapFind sampleEngine.g_neighbors [65]).map (fun n => n.address) = some [120] ∧
    parse_header storedFrame storedFrame.length =
      .ok (some { msg_id := 9, frag_idx := 1, frag_count := 2, ttl := 4, device_id := [65],
                  payload := [7] }) ∧
    emergency_receive_raw sampleEngine 1001 (some storedFrame) storedFrame.length (-40) none =
      .error .nullAddress ∧
    (∃ s1, emergency_receive_raw sampleEngine 1001 (some storedFrame) storedFrame.length (-40)
      (some []) = .ok (0, s1) ∧
      (mapFind s1.g_neighbors [65]).map (fun n => n.address) = some []) := by
  refine ⟨sampleEngine_reachable, by decide, by decide, by decide, _, rfl, by decide⟩

/-! ## Order-independent reassembly -/

/-- Feeding frames of one message while some index `miss` is still outstanding: every frame is
stored, the message stays open and nothing is queued. -/
theorem feed_all_open_aux (id n : Nat) (pay : Nat → List Byte) (hn32 : n ≤ 32) (miss : Nat)
    (hmiss : miss < n) :
    ∀ (rest : List FrameCall) (c : FrameCall) (s : Engine) (done : List Nat),
      (∀ x ∈ c :: rest, x.frame.msg_id = id ∧ x.frame.payload = pay x.frame.frag_idx ∧
        x.frame.frag_idx < n ∧ x.frame.frag_idx ≠ miss) →
      miss ∉ done →
      EntryInv n pay done (find_or_create s c.clock c.frame).2 →
      (∀ x ∈ c :: rest,
        sub_u32 (now_s x.clock) (find_or_create s c.clock c.frame).2.first_seen ≤ DEDUPE_WINDOW) →
      ∃ s1, feed_all s (c :: rest) = .ok s1 ∧
        s1.g_incoming_queue = capQueue 1024 s.g_incoming_queue := by
  intro rest
  induction rest with
  | nil =>
    intro c s done hfr hdone hE hwin
    obtain ⟨hid, hpay, hlt, hne⟩ := hfr c (List.mem_cons_self _ _)
    have hinc : ¬ ∀ j, j < n → j ∈ c.frame.frag_idx :: done := by
      intro hall
      rcases List.mem_cons.mp (hall miss hmiss) with h | h
      · exact hne h.symm
      · exact hdone h
    obtain ⟨s1, e1, h1, _, _, _, _, h6, _⟩ := feed_frame_step_incomplete s c.clock c.frame
      c.rssi c.remote_addr n pay done hn32 hE hlt hpay hinc (hwin c (List.mem_cons_self _ _))
    exact ⟨s1, by simp only [feed_all, h1, andThen_ok], h6⟩
  | cons c2 rest ih =>
    intro c s done hfr hdone hE hwin
    obtain ⟨hid, hpay, hlt, hne⟩ := hfr c (List.mem_cons_self _ _)
    have hc2 := hfr c2 (List.mem_cons_of_mem _ (List.mem_cons_self _ _))
    have hinc : ¬ ∀ j, j < n → j ∈ c.frame.frag_idx :: done := by
      intro hall
      rcases List.mem_cons.mp (hall miss hmiss) with h | h
      · exact hne h.symm
      · exact hdone h
    obtain ⟨s1, e1, h1, h2, h3, h4, _, h6, _⟩ := feed_frame_step_incomplete s c.clock c.frame
      c.rssi c.remote_addr n pay done hn32 hE hlt hpay hinc (hwin c (List.mem_cons_self _ _))
    have hfind : find_or_create s1 c2.clock c2.frame = (s1, e1) :=
      find_or_create_of_some s1 c2.clock c2.frame e1 (by rw [hc2.1, ← hid]; exact h2)
    obtain ⟨s2, k1, k2⟩ := ih c2 s1 (c.frame.frag_idx :: done)
      (fun x hx => hfr x (List.mem_cons_of_mem _ hx))
      (by
        intro hm
        rcases List.mem_cons.mp hm with h | h
        · exact hne h.symm
        · exact hdone h)
      (by rw [hfind]; exact h3)
      (by
        intro x hx
        rw [hfind]
        show sub_u32 (now_s x.clock) e1.first_seen ≤ DEDUPE_WINDOW
        rw [h4]
        exact hwin x (List.mem_cons_of_mem _ hx))
    refine ⟨s2, ?_, ?_⟩
    · simp only [feed_all, h1, andThen_ok]
      exact k1
    · rw [k2, h6]
      exact capQueue_idem 1024 _

/-- A proper, non-empty prefix of a complete set leaves the message open: nothing is queued. -/
theorem receive_all_prefix_open (id n : Nat) (pay : Nat → List Byte) (hn : 1 ≤ n)
    (hn32 : n ≤ 32) (s : Engine) (calls : List RawCall)
    (hset : CompleteSet id n pay (calls.map fun c => c.raw))
    (hre : mapFind s.g_reassembly id = none) (hwin : WithinWindow calls)
    (k : Nat) (hk1 : 1 ≤ k) (hk : k < calls.length) :
    ∃ sk, receive_all s (calls.take k) = .ok sk ∧
      sk.g_incoming_queue = capQueue 1024 s.g_incoming_queue := by
  obtain ⟨hfr, hperm⟩ := completeSet_frames id n pay calls hset
  have hdec := completeSet_decodes id n pay calls hset
  rw [receive_all_eq_feed_all (calls.take k) s (fun c hc => hdec c (List.mem_of_mem_take hc))]
  have hnodup : ((calls.map toFrameCall).map fun x => x.frame.frag_idx).Nodup :=
    hperm.nodup_iff.mpr (List.nodup_range n)
  have hlt : ∀ x ∈ calls.map toFrameCall, x.frame.frag_idx < n := by
    intro x hx
    have : x.frame.frag_idx ∈ List.range n :=
      hperm.subset (List.mem_map.mpr ⟨x, hx, rfl⟩)
    exact List.mem_range.mp this
  have hsplit : calls = calls.take k ++ calls[k] :: calls.drop (k + 1) := by
    rw [← List.drop_eq_getElem_cons hk, List.take_append_drop]
  have hmissmem : calls[k] ∈ calls := List.getElem_mem _
  have hne : ∀ x ∈ (calls.take k).map toFrameCall,
      x.frame.frag_idx ≠ (toFrameCall calls[k]).frame.frag_idx := by
    intro x hx heq
    rw [hsplit] at hnodup
    simp only [List.map_append, List.map_cons] at hnodup
    have hdis := (List.nodup_append.mp hnodup).2.2
    exact hdis (List.mem_map.mpr ⟨x, hx, rfl⟩) (by rw [heq]; exact List.mem_cons_self _ _)
  cases hcalls : calls with
  | nil => rw [hcalls] at hk; simp at hk
  | cons c rest =>
    obtain ⟨k1, rfl⟩ : ∃ k1, k = k1 + 1 := ⟨k - 1, by omega⟩
    have hc := hfr (toFrameCall c) (by rw [hcalls]; exact List.mem_map.mpr ⟨c, List.mem_cons_self _ _, rfl⟩)
    have hnone : mapFind s.g_reassembly (toFrameCall c).frame.msg_id = none := by
      rw [hc.1]; exact hre
    have hfoc := find_or_create_of_none s (toFrameCall c).clock (toFrameCall c).frame hnone
    have hE : EntryInv n pay [] (find_or_create s (toFrameCall c).clock (toFrameCall c).frame).2 := by
      have := entryInv_fresh s (toFrameCall c).clock (toFrameCall c).frame pay hnone
        (by rw [hc.2.1]; exact hn)
      rw [hc.2.1] at this
      exact this
    have htake : (calls.take (k1 + 1)).map toFrameCall =
        toFrameCall c :: (rest.take k1).map toFrameCall := by
      rw [hcalls]
      rfl
    have hsub : ∀ x ∈ toFrameCall c :: (rest.take k1).map toFrameCall,
        x ∈ calls.map toFrameCall := by
      intro x hx
      rw [← htake] at hx
      obtain ⟨c1, hc1, rfl⟩ := List.mem_map.mp hx
      exact List.mem_map.mpr ⟨c1, List.mem_of_mem_take hc1, rfl⟩
    obtain ⟨s1, g1, g2⟩ := feed_all_open_aux id n pay hn32
      (toFrameCall calls[k1 + 1]).frame.frag_idx
      (hlt _ (List.mem_map.mpr ⟨_, hmissmem, rfl⟩))
      ((rest.take k1).map toFrameCall) (toFrameCall c) s []
      (fun x hx => ⟨(hfr x (hsub x hx)).1, (hfr x (hsub x hx)).2.2, hlt x (hsub x hx),
        hne x (by rw [htake]; exact hx)⟩)
      (List.not_mem_nil _) hE
      (by
        intro x hx
        rw [hfoc]
        rw [← htake] at hx
        obtain ⟨c1, hc1, rfl⟩ := List.mem_map.mp hx
        exact hwin c (by rw [hcalls]; rfl) c1 (List.mem_of_mem_take hc1))
    refine ⟨s1, ?_, g2⟩
    rw [← hcalls, htake]
    exact g1

theorem capQueue_of_le (L : Nat) (q : List IncomingPacket) (h : q.length ≤ L) :
    capQueue L q = q := by
  unfold capQueue
  rw [Nat.sub_eq_zero_of_le h, List.drop_zero]

theorem shuffledCalls_completeSet :
    CompleteSet 11 3 triplePayload (shuffledCalls.map fun c => c.raw) := by
  refine ⟨?_, by decide⟩
  intro r hr
  simp only [shuffledCalls, List.map_cons, List.map_nil, List.mem_cons, List.mem_singleton,
    List.not_mem_nil, or_false] at hr
  rcases hr with rfl | rfl | rfl
  · exact ⟨_, rfl, rfl, rfl, rfl⟩
  · exact ⟨_, rfl, rfl, rfl, rfl⟩
  · exact ⟨_, rfl, rfl, rfl, rfl⟩

/-- C14. Order-independent reassembly: for every message id, every fragment count `n` with
`1 ≤ n ≤ 32` and every ordering of `n` well-formed frames that carry the id, the count `n` and
the indices `0 .. n-1`, feeding them through `emergency_receive_raw` (source addresses present)
into an engine with no reassembly entry and no dedupe record for the id, all calls within the
dedupe window of the first, queues nothing before the last frame (the queue is the old queue,
trimmed by the sweep to its capacity) and, on the last frame, queues exactly one packet, whose
payload is the `n` fragment payloads joined in index order. -/
theorem order_independent_reassembly (id n : Nat) (pay : Nat → List Byte) (hn : 1 ≤ n)
    (hn32 : n ≤ 32) (s : Engine) (calls : List RawCall)
    (hset : CompleteSet id n pay (calls.map fun c => c.raw))
    (hre : mapFind s.g_reassembly id = none) (hts : mapFind s.g_msg_timestamps id = none)
    (hwin : WithinWindow calls) :
    calls.length = n ∧
    (∀ k, 1 ≤ k → k < n → ∃ sk, receive_all s (calls.take k) = .ok sk ∧
      sk.g_incoming_queue = capQueue 1024 s.g_incoming_queue ∧
      (s.g_incoming_queue.length ≤ 1024 → sk.g_incoming_queue = s.g_incoming_queue)) ∧
    ∃ s1 pkt, receive_all s calls = .ok s1 ∧
      s1.g_incoming_queue = capQueue 1024 (s.g_incoming_queue ++ [pkt]) ∧
      pkt.data = ((List.range n).map pay).flatten := by
  have hlen : calls.length = n := by
    have := hset.2.length_eq
    simpa using this
  refine ⟨hlen, ?_, ?_⟩
  · intro k hk1 hk
    obtain ⟨sk, g1, g2⟩ := receive_all_prefix_open id n pay hn hn32 s calls hset hre hwin k hk1
      (by omega)
    exact ⟨sk, g1, g2, fun hq => by rw [g2, capQueue_of_le 1024 _ hq]⟩
  · obtain ⟨s1, first, last, _, _, h1, _, h3, _, _⟩ :=
      receive_all_fresh_deliver id n pay hn hn32 s calls hset hre hwin
        (fun p hp hpid => absurd hpid ((mapFind_eq_none_iff _ _).mp hts p hp))
    exact ⟨s1, _, h1, h3, rfl⟩

/-- Witness for C14: the three fragments of message 11 received in the order 2, 0, 1 by a
freshly initialised engine. -/
theorem order_independent_reassembly_witness :
    shuffledCalls.length = 3 ∧
    (∀ k, 1 ≤ k → k < 3 → ∃ sk,
      receive_all (emergency_protocol_init none 1000) (shuffledCalls.take k) = .ok sk ∧
      sk.g_incoming_queue = capQueue 1024 (emergency_protocol_init none 1000).g_incoming_queue ∧
      ((emergency_protocol_init none 1000).g_incoming_queue.length ≤ 1024 →
        sk.g_incoming_queue = (emergency_protocol_init none 1000).g_incoming_queue)) ∧
    ∃ s1 pkt, receive_all (emergency_protocol_init none 1000) shuffledCalls = .ok s1 ∧
      s1.g_incoming_queue =
        capQueue 1024 ((emergency_protocol_init none 1000).g_incoming_queue ++ [pkt]) ∧
      pkt.data = ((List.range 3).map triplePayload).flatten :=
  order_independent_reassembly 11 3 triplePayload (by decide) (by decide)
    (emergency_protocol_init none 1000) shuffledCalls shuffledCalls_completeSet rfl rfl
    (by decide)

/-! ## The neighbor listing -/

theorem intercalate_cons_cons {α : Type} (sep x y : List α) (l : List (List α)) :
    List.intercalate sep (x :: y :: l) = x ++ sep ++ List.intercalate sep (y :: l) := by
  simp [List.intercalate, List.intersperse]

theorem intercalate_singleton {α : Type} (sep x : List α) :
    List.intercalate sep [x] = x := by
  simp [List.intercalate, List.intersperse]

/-- One pass of the loop body streams one object. -/
theorem json_records_cons (k : List Byte) (n : Neighbor) (rest : List (List Byte × Neighbor))
    (first : Bool) (ss : List Byte) :
    json_records ((k, n) :: rest) first ss =
      json_records rest false
        ((if first then ss else ss ++ strBytes ",") ++ jsonObject n) := by
  have e1 : strBytes "\x7b" ++ strBytes "\"device_id\":\"" = strBytes "\x7b\"device_id\":\"" := by
    decide
  have e2 : strBytes "\"," ++ strBytes "\"address\":\"" = strBytes "\",\"address\":\"" := by
    decide
  have e3 : strBytes "\"," ++ strBytes "\"rssi\":" = strBytes "\",\"rssi\":" := by decide
  have e4 : strBytes "," ++ strBytes "\"last_seen\":" = strBytes ",\"last_seen\":" := by decide
  rw [json_records]
  unfold jsonObject
  rw [← e1, ← e2, ← e3, ← e4]
  cases first
  · simp only [Bool.not_false, if_true, if_false, Bool.false_eq_true, List.append_assoc]
  · simp only [Bool.not_true, if_true, if_false, Bool.false_eq_true, List.append_assoc]

theorem json_records_eq : ∀ (l : List (List Byte × Neighbor)) (ss : List Byte),
    json_records l true ss = ss ++ List.intercalate (strBytes ",") (l.map fun p => jsonObject p.2) ∧
    json_records l false ss =
      ss ++ (if l = [] then [] else strBytes ",") ++
        List.intercalate (strBytes ",") (l.map fun p => jsonObject p.2) := by
  intro l
  induction l with
  | nil => intro ss; simp [json_records, List.intercalate]
  | cons p rest ih =>
    intro ss
    obtain ⟨k, n⟩ := p
    rw [json_records_cons, json_records_cons]
    cases rest with
    | nil => simp [json_records, intercalate_singleton]
    | cons q rest2 =>
      simp only [(ih _).2, List.map_cons, intercalate_cons_cons, if_true, if_false,
        List.append_assoc, Bool.false_eq_true, reduceCtorEq]
      exact ⟨trivial, trivial⟩

/-- The text the loop of lines 415-431 streams is the serialization of the specification. -/
theorem json_text_eq (s : Engine) :
    json_records s.g_neighbors true (strBytes "[") ++ strBytes "]" =
      jsonArray (s.g_neighbors.map Prod.snd) := by
  rw [(json_records_eq s.g_neighbors (strBytes "[")).1]
  unfold jsonArray
  rw [List.map_map]
  rfl

/-- C13. With `str` the serialization of the current neighbor records as `[`, the objects
`{"device_id":"<id>","address":"<addr>","rssi":<int>,"last_seen":<uint>}` separated by commas,
and `]` (so `str` is `[]` for an empty table; its length fitting the `int` that is returned),
`emergency_get_neighbors_json` returns -1 and writes nothing if and only if
`|str| + 1 > max_len`, and otherwise writes `str` followed by a terminator and returns
`|str|`. -/
theorem get_neighbors_json_capacity (s : Engine) (max_len : Nat)
    (hfit : (jsonArray (s.g_neighbors.map Prod.snd)).length < 2147483648) :
    (s.g_neighbors = [] → jsonArray (s.g_neighbors.map Prod.snd) = strBytes "[]") ∧
    ((emergency_get_neighbors_json s max_len).1 = -1 ↔
      (jsonArray (s.g_neighbors.map Prod.snd)).length + 1 > max_len) ∧
    ((jsonArray (s.g_neighbors.map Prod.snd)).length + 1 > max_len →
      emergency_get_neighbors_json s max_len = (-1, none)) ∧
    (¬ (jsonArray (s.g_neighbors.map Prod.snd)).length + 1 > max_len →
      emergency_get_neighbors_json s max_len =
        (((jsonArray (s.g_neighbors.map Prod.snd)).length : Int),
          some (jsonArray (s.g_neighbors.map Prod.snd) ++ [0]))) := by
  have hpos : ∀ h : ¬ (jsonArray (s.g_neighbors.map Prod.snd)).length + 1 > max_len,
      emergency_get_neighbors_json s max_len =
        (((jsonArray (s.g_neighbors.map Prod.snd)).length : Int),
          some (jsonArray (s.g_neighbors.map Prod.snd) ++ [0])) := by
    intro h
    unfold emergency_get_neighbors_json
    simp only [json_text_eq]
    rw [if_neg h, toInt32_of_lt _ hfit]
  have hneg : (jsonArray (s.g_neighbors.map Prod.snd)).length + 1 > max_len →
      emergency_get_neighbors_json s max_len = (-1, none) := by
    intro h
    unfold emergency_get_neighbors_json
    simp only [json_text_eq]
    rw [if_pos h]
  refine ⟨?_, ?_, hneg, hpos⟩
  · intro he
    rw [he]
    decide
  · constructor
    · intro h1
      by_contra hc
      rw [hpos hc] at h1
      simp only at h1
      omega
    · intro h
      rw [hneg h]

/-- Witness for C13: the one neighbor of `sampleEngine`, listed into a buffer of 100 bytes and
refused by a buffer of 61 bytes. -/
theorem get_neighbors_json_capacity_witness :
    jsonArray (sampleEngine.g_neighbors.map Prod.snd) =
      strBytes "[\x7b\"device_id\":\"A\",\"address\":\"x\",\"rssi\":-50,\"last_seen\":1000\x7d]" ∧
    emergency_get_neighbors_json sampleEngine 100 =
      (61, some (jsonArray (sampleEngine.g_neighbors.map Prod.snd) ++ [0])) ∧
    emergency_get_neighbors_json sampleEngine 61 = (-1, none) :=
  ⟨by decide,
   (get_neighbors_json_capacity sampleEngine 100 (by decide)).2.2.2 (by decide),
   (get_neighbors_json_capacity sampleEngine 61 (by decide)).2.2.1 (by decide)⟩

/-! ## Fragment counts beyond the completion mask -/

/-- While some index below 32 is missing, the completion loop of lines 224-232 stops there and
answers "incomplete", whatever the expected count. -/
theorem check_complete_of_missing (mask : Nat) : ∀ (r i : Nat),
    (∃ j, i ≤ j ∧ j < i + r ∧ j < 32 ∧ mask.testBit j = false) →
    check_complete mask r i = .ok false := by
  intro r
  induction r with
  | zero =>
    intro i h
    obtain ⟨j, h1, h2, _, _⟩ := h
    omega
  | succ r ih =>
    intro i h
    obtain ⟨j, h1, h2, h3, h4⟩ := h
    unfold check_complete
    rw [if_neg (by omega)]
    by_cases hb : (mask >>> i) &&& 1 = 0
    · rw [if_pos hb]
    · rw [if_neg hb]
      have hne : j ≠ i := by
        intro hji
        rw [hji] at h4
        exact hb ((mask_bit_zero_iff mask i).mpr h4)
      exact ih (i + 1) ⟨j, by omega, by omega, h3, h4⟩

/-- A fragment with index below 32 that is stored while another index below 32 of its message
is still missing: the entry stays open and the sweep runs, for any expected count. -/
theorem feed_frame_stored_open (s : Engine) (clock : Nat) (f : ParsedFrame) (rssi : Int)
    (a : List Byte) (hidx : f.frag_idx < 32)
    (hst : f.frag_idx < (find_or_create s clock f).2.frags.length)
    (hmiss : ∃ j, j < (find_or_create s clock f).2.frag_count ∧ j < 32 ∧ j ≠ f.frag_idx ∧
      (find_or_create s clock f).2.received_mask.testBit j = false) :
    ∃ nb, feed_frame s clock f rssi (some a) = .ok (gc_cleanup (storedState s clock f nb) clock) := by
  obtain ⟨nb, hnb⟩ := update_neighbor_some_ok s.g_neighbors clock f.device_id rssi a
  have hs1 : (find_or_create s clock f).1.g_neighbors = s.g_neighbors :=
    find_or_create_neighbors s clock f
  obtain ⟨j, hj1, hj2, hj3, hj4⟩ := hmiss
  have e : check_complete ((find_or_create s clock f).2.received_mask ||| 1 <<< f.frag_idx)
      (find_or_create s clock f).2.frag_count 0 = .ok false := by
    apply check_complete_of_missing
    refine ⟨j, Nat.zero_le _, by omega, hj2, ?_⟩
    rw [Nat.testBit_or, hj4, testBit_one_shiftLeft]
    simp
    exact fun h => hj3 h.symm
  refine ⟨nb, ?_⟩
  unfold feed_frame
  have hnot : ¬ (f.frag_idx ≥ (find_or_create s clock f).2.frags.length) := by omega
  simp only [if_neg hnot, store_frag, if_pos hst, mark_received, if_pos hidx, andThen_ok, hs1,
    hnb]
  rw [e]
  simp only [andThen_ok]
  rfl

/-- C17 (amended). Fragment counts are not validated by `emergency_receive_raw`: a frame that
passes the decoder with a fragment-count field greater than 32 is accepted. For every such
frame with fragment index below 32 (source address present) and every engine state that has no
reassembly entry for its id, or has one with that same count and number of slots in which some
other index below 32 is still missing, the call completes and queues no packet (the queue is
only trimmed to its capacity by the sweep); when there was no entry, one with that many slots is
created, holds the fragment and stays open. -/
theorem fragment_count_above_mask_accepted (s : Engine) (clock : Nat) (raw : List Byte)
    (f : ParsedFrame) (rssi : Int) (a : List Byte)
    (hparse : parse_header raw raw.length = .ok (some f)) (hcnt : 32 < f.frag_count)
    (hidx : f.frag_idx < 32)
    (hentry : ∀ e ∈ mapFind s.g_reassembly f.msg_id,
      e.frag_count = f.frag_count ∧ e.frags.length = f.frag_count ∧
        ∃ j, j < 32 ∧ j ≠ f.frag_idx ∧ e.received_mask.testBit j = false) :
    ∃ s1, emergency_receive_raw s clock (some raw) raw.length rssi (some a) = .ok (0, s1) ∧
      s1.g_incoming_queue = capQueue 1024 s.g_incoming_queue ∧
      (mapFind s.g_reassembly f.msg_id = none →
        ∃ e, mapFind s1.g_reassembly f.msg_id = some e ∧ e.frag_count = f.frag_count ∧
          e.frags.length = f.frag_count ∧ e.frags[f.frag_idx]? = some f.payload) := by
  have hfc : fragerCountMax f.frag_count = f.frag_count := by
    unfold fragerCountMax
    rw [if_neg (by omega)]
  have hshape : (find_or_create s clock f).2.frag_count = f.frag_count ∧
      (find_or_create s clock f).2.frags.length = f.frag_count ∧
      ∃ j, j < 32 ∧ j ≠ f.frag_idx ∧
        (find_or_create s clock f).2.received_mask.testBit j = false := by
    cases hfind : mapFind s.g_reassembly f.msg_id with
    | none =>
      rw [find_or_create_of_none s clock f hfind]
      refine ⟨rfl, by simp [hfc], ?_⟩
      by_cases h0 : f.frag_idx = 0
      · exact ⟨1, by omega, by omega, Nat.zero_testBit 1⟩
      · exact ⟨0, by omega, fun h => h0 h.symm, Nat.zero_testBit 0⟩
    | some e =>
      rw [find_or_create_of_some s clock f e hfind]
      exact hentry e (by rw [hfind]; rfl)
  obtain ⟨hc, hl, j, hj1, hj2, hj3⟩ := hshape
  obtain ⟨nb, hfeed⟩ := feed_frame_stored_open s clock f rssi a hidx (by omega)
    ⟨j, by omega, hj1, hj2, hj3⟩
  refine ⟨gc_cleanup (storedState s clock f nb) clock, ?_, ?_, ?_⟩
  · rw [receive_raw_of_parse s clock raw raw.length rssi (some a) f hparse, hfeed]
    rfl
  · rw [gc_cleanup_queue, storedState_queue]
  · intro hnone
    have hfoc := find_or_create_of_none s clock f hnone
    refine ⟨storedEntry s clock f, ?_, hc, ?_, ?_⟩
    · show mapFind (List.filter _ (mapAssign _ _ _)) _ = _
      apply mapFind_filter_some _ _ _ _ (mapFind_mapAssign_self _ _ _)
      have hfs : (storedEntry s clock f).first_seen = now_s clock := by
        show (find_or_create s clock f).2.first_seen = now_s clock
        rw [hfoc]
      have : ¬ sub_u32 (now_s clock) (storedEntry s clock f).first_seen > DEDUPE_WINDOW := by
        rw [hfs, sub_u32_self]
        decide
      simp [this]
    · show ((find_or_create s clock f).2.frags.set f.frag_idx f.payload).length = f.frag_count
      rw [List.length_set, hl]
    · show ((find_or_create s clock f).2.frags.set f.frag_idx f.payload)[f.frag_idx]? = _
      exact List.getElem?_set_self (by omega)

/-- Witness for C17 (amended): the frame `overCountFrame` (count 40, index 0) received in the
initial state, and the frame `overCountFrame1` (count 40, index 1) received by the engine that
holds the open entry. -/
theorem fragment_count_above_mask_accepted_witness :
    (∃ s1, emergency_receive_raw (emergency_protocol_init (some [100]) 100) 100
        (some overCountFrame) overCountFrame.length (-40) (some [120]) = .ok (0, s1) ∧
      s1.g_incoming_queue =
        capQueue 1024 (emergency_protocol_init (some [100]) 100).g_incoming_queue ∧
      (mapFind (emergency_protocol_init (some [100]) 100).g_reassembly 78 = none →
        ∃ e, mapFind s1.g_reassembly 78 = some e ∧ e.frag_count = 40 ∧
          e.frags.length = 40 ∧ e.frags[0]? = some [7])) ∧
    (∃ s1, emergency_receive_raw overCountEngine 101
        (some overCountFrame1) overCountFrame1.length (-40) (some [120]) = .ok (0, s1) ∧
      s1.g_incoming_queue = capQueue 1024 overCountEngine.g_incoming_queue ∧
      (mapFind overCountEngine.g_reassembly 78 = none →
        ∃ e, mapFind s1.g_reassembly 78 = some e ∧ e.frag_count = 40 ∧
          e.frags.length = 40 ∧ e.frags[1]? = some [8])) :=
  ⟨fragment_count_above_mask_accepted (emergency_protocol_init (some [100]) 100) 100
      overCountFrame
      { msg_id := 78, frag_idx := 0, frag_count := 40, ttl := 4, device_id := [66],
        payload := [7] }
      (-40) [120] (by decide) (by decide) (by decide) (by decide),
   fragment_count_above_mask_accepted overCountEngine 101 overCountFrame1
      { msg_id := 78, frag_idx := 1, frag_count := 40, ttl := 4, device_id := [66],
        payload := [8] }
      (-40) [120] (by decide) (by decide) (by decide) (by decide)⟩

/-- The engine `overCountEngine` is what the first frame leaves, so it is reachable. -/
theorem overCountEngine_reachable : Reachable overCountEngine :=
  @Reachable.receive _ _ 0 100 (some overCountFrame) 15 (-40) (some [120])
    (Reachable.init (some [100]) 100) (by decide)

/-! ## Memory safety when out-of-range shifts yield values -/

theorem onlyNull_ok {α : Type} (a : α) : OnlyNull (.ok a : Except Fault α) :=
  fun _ h => (by cases h)

theorem onlyNull_andThen {α β : Type} (r : Except Fault α) (k : α → Except Fault β)
    (hr : OnlyNull r) (hk : ∀ a, r = .ok a → OnlyNull (k a)) : OnlyNull (andThen r k) := by
  cases r with
  | ok a => exact hk a rfl
  | error e =>
    intro e1 h
    have h1 : e = e1 := by simpa using h
    rw [← h1]
    exact hr e rfl

theorem update_neighbor_onlyNull (nb : List (List Byte × Neighbor)) (clock : Nat)
    (d : List Byte) (rssi : Int) (addr : Option (List Byte)) :
    OnlyNull (update_neighbor nb clock d rssi addr) := by
  unfold update_neighbor
  by_cases hd : d = []
  · rw [if_pos hd]
    exact onlyNull_ok _
  · rw [if_neg hd]
    simp only []
    cases mapFind nb d with
    | none =>
      simp only []
      split_ifs <;> exact onlyNull_ok _
    | some n =>
      simp only []
      by_cases ha : n.address ≠ []
      · rw [if_pos ha]
        cases addr with
        | none =>
          intro e h
          simpa using h.symm
        | some a =>
          simp only []
          split_ifs <;> exact onlyNull_ok _
      · rw [if_neg ha]
        exact onlyNull_ok _

/-- With one slot per expected fragment, lines 169-266 never index outside the fragment vector,
whatever the out-of-range shifts yield: the store is guarded by line 191 and the join runs
over `frag_count` slots of a vector that has them all. -/
theorem feed_frame_with_onlyNull (o : ShiftOracle) (s : Engine) (clock : Nat) (f : ParsedFrame)
    (rssi : Int) (addr : Option (List Byte)) (h : FragsSized s) :
    OnlyNull (feed_frame_with o s clock f rssi addr) := by
  have hsz := find_or_create_entry_sized s clock f h
  have hle := frag_count_le_fragerCountMax (find_or_create s clock f).2.frag_count
  unfold feed_frame_with
  simp only []
  split_ifs with hidx hc
  · exact onlyNull_ok _
  · have hst : f.frag_idx < (find_or_create s clock f).2.frags.length := by omega
    simp only [store_frag, if_pos hst, andThen_ok]
    apply onlyNull_andThen _ _ (update_neighbor_onlyNull _ _ _ _ _)
    intro nb _
    rw [join_frags_eq _ _ 0 (by simp only [List.length_set]; omega)]
    exact onlyNull_ok _
  · have hst : f.frag_idx < (find_or_create s clock f).2.frags.length := by omega
    simp only [store_frag, if_pos hst, andThen_ok]
    apply onlyNull_andThen _ _ (update_neighbor_onlyNull _ _ _ _ _)
    intro nb _
    exact onlyNull_ok _

/-- What a call of lines 169-266 with the oracle leaves in the reassembly map: entries that were
there, or the entry of the frame with its fragment stored. -/
theorem feed_frame_with_reassembly (o : ShiftOracle) (s s1 : Engine) (clock : Nat)
    (f : ParsedFrame) (rssi : Int) (addr : Option (List Byte))
    (hfeed : feed_frame_with o s clock f rssi addr = .ok s1) :
    ∀ p ∈ s1.g_reassembly, p ∈ (find_or_create s clock f).1.g_reassembly ∨
      (p.2.frag_count = (find_or_create s clock f).2.frag_count ∧
        p.2.frags.length = (find_or_create s clock f).2.frags.length) := by
  unfold feed_frame_with at hfeed
  simp only [] at hfeed
  by_cases hidx : f.frag_idx ≥ (find_or_create s clock f).2.frags.length
  · rw [if_pos hidx] at hfeed
    have e : s1 = (find_or_create s clock f).1 := by simpa using hfeed.symm
    intro p hp
    rw [e] at hp
    exact Or.inl hp
  · rw [if_neg hidx] at hfeed
    have hst : f.frag_idx < (find_or_create s clock f).2.frags.length := by omega
    simp only [store_frag, if_pos hst, andThen_ok] at hfeed
    obtain ⟨nb, _, hfeed⟩ := andThen_eq_ok hfeed
    have hassign : ∀ p ∈ mapAssign (find_or_create s clock f).1.g_reassembly f.msg_id
        { (find_or_create s clock f).2 with
          frags := (find_or_create s clock f).2.frags.set f.frag_idx f.payload
          received_mask := mark_received_with o (find_or_create s clock f).2.received_mask
            f.frag_idx },
        p ∈ (find_or_create s clock f).1.g_reassembly ∨
          (p.2.frag_count = (find_or_create s clock f).2.frag_count ∧
            p.2.frags.length = (find_or_create s clock f).2.frags.length) := by
      intro p hp
      rcases mem_mapAssign _ _ _ p hp with hp1 | hp1
      · right
        rw [hp1]
        exact ⟨rfl, List.length_set _ _ _⟩
      · exact Or.inl hp1
    split_ifs at hfeed
    · obtain ⟨full, _, hfeed⟩ := andThen_eq_ok hfeed
      simp only [Except.ok.injEq] at hfeed
      intro p hp
      rw [← hfeed] at hp
      have hp1 := (List.mem_filter.mp hp).1
      have hp2 : p ∈ mapErase _ f.msg_id := hp1
      unfold mapErase at hp2
      have hp3 := (List.mem_filter.mp hp2).1
      rw [deliver_reassembly] at hp3
      exact hassign p hp3
    · simp only [Except.ok.injEq] at hfeed
      intro p hp
      rw [← hfeed] at hp
      exact hassign p (List.mem_filter.mp hp).1

theorem feed_frame_with_fragsSized (o : ShiftOracle) (s s1 : Engine) (clock : Nat)
    (f : ParsedFrame) (rssi : Int) (addr : Option (List Byte))
    (hfeed : feed_frame_with o s clock f rssi addr = .ok s1) (h : FragsSized s) :
    FragsSized s1 := by
  intro p hp
  rcases feed_frame_with_reassembly o s s1 clock f rssi addr hfeed p hp with h1 | ⟨h1, h2⟩
  · exact find_or_create_fragsSized s clock f h p h1
  · rw [h1, h2]
    exact find_or_create_entry_sized s clock f h

/-- What a call of `emergency_receive_raw` with the oracle that completes has done. -/
theorem receive_raw_with_ok_cases (o : ShiftOracle) (s s1 : Engine) (clock : Nat)
    (raw : Option (List Byte)) (raw_len : Nat) (rssi : Int) (addr : Option (List Byte))
    (status : Int)
    (h : emergency_receive_raw_with o s clock raw raw_len rssi addr = .ok (status, s1)) :
    s1 = s ∨ ∃ f, feed_frame_with o s clock f rssi addr = .ok s1 := by
  unfold emergency_receive_raw_with at h
  cases raw with
  | none =>
    simp only [Except.ok.injEq, Prod.mk.injEq] at h
    exact Or.inl h.2.symm
  | some buf =>
    simp only at h
    by_cases h0 : raw_len = 0
    · rw [if_pos h0] at h
      simp only [Except.ok.injEq, Prod.mk.injEq] at h
      exact Or.inl h.2.symm
    · rw [if_neg h0] at h
      obtain ⟨s2, hp, h⟩ := andThen_eq_ok h
      simp only [Except.ok.injEq, Prod.mk.injEq] at h
      obtain ⟨_, rfl⟩ := h
      unfold parse_raw_frame_and_feed_with at hp
      obtain ⟨parsed, _, hp⟩ := andThen_eq_ok hp
      cases parsed with
      | none =>
        simp only [Except.ok.injEq] at hp
        exact Or.inl hp.symm
      | some f => exact Or.inr ⟨f, hp⟩

/-- Also when out-of-range shifts yield values, every reassembly entry of a reachable state has
one slot per expected fragment. -/
theorem reachableWith_fragsSized (s : Engine) (h : ReachableWith s) : FragsSized s := by
  induction h with
  | init d c => intro p hp; simp [emergency_protocol_init] at hp
  | send c m _ ih =>
    intro p hp
    rw [send_broadcast_reassembly] at hp
    exact ih p hp
  | receive o c raw raw_len rssi addr _ hr ih =>
    rcases receive_raw_with_ok_cases o _ _ c raw raw_len rssi addr _ hr with rfl | ⟨f, hf⟩
    · exact ih
    · exact feed_frame_with_fragsSized o _ _ c f rssi addr hf ih
  | poll m _ ih =>
    intro p hp
    rw [poll_incoming_reassembly] at hp
    exact ih p hp

/-- Where the completion loop of `feed_frame` gives an answer, the loop with the oracle gives
the same one. -/
theorem check_complete_with_agrees (o : ShiftOracle) (mask : Nat) : ∀ (r i : Nat) (b : Bool),
    check_complete mask r i = .ok b → check_complete_with o mask r i = b := by
  intro r
  induction r with
  | zero =>
    intro i b h
    simp only [check_complete, Except.ok.injEq] at h
    simp only [check_complete_with, h]
  | succ r ih =>
    intro i b h
    unfold check_complete at h
    unfold check_complete_with
    by_cases h32 : 32 ≤ i
    · rw [if_pos h32] at h
      cases h
    · rw [if_neg h32] at h
      rw [if_neg h32]
      by_cases hb : (mask >>> i) &&& 1 = 0
      · rw [if_pos hb] at h
        rw [if_pos hb]
        simpa using h
      · rw [if_neg hb] at h
        rw [if_neg hb]
        exact ih (i + 1) b h

/-- A call of lines 169-266 that completes without an out-of-range shift does the same with
every oracle. -/
theorem feed_frame_with_agrees (o : ShiftOracle) (s s1 : Engine) (clock : Nat) (f : ParsedFrame)
    (rssi : Int) (addr : Option (List Byte)) (h : feed_frame s clock f rssi addr = .ok s1) :
    feed_frame_with o s clock f rssi addr = .ok s1 := by
  unfold feed_frame at h
  unfold feed_frame_with
  simp only [] at h ⊢
  by_cases hidx : f.frag_idx ≥ (find_or_create s clock f).2.frags.length
  · rw [if_pos hidx] at h
    rw [if_pos hidx]
    exact h
  · rw [if_neg hidx] at h
    rw [if_neg hidx]
    have hst : f.frag_idx < (find_or_create s clock f).2.frags.length := by omega
    simp only [store_frag, if_pos hst, andThen_ok] at h ⊢
    obtain ⟨mask, hmk, h⟩ := andThen_eq_ok h
    have hmask : mark_received_with o (find_or_create s clock f).2.received_mask f.frag_idx =
        mask := by
      unfold mark_received at hmk
      unfold mark_received_with
      by_cases h32 : f.frag_idx < 32
      · rw [if_pos h32] at hmk
        rw [if_pos h32]
        simpa using hmk
      · rw [if_neg h32] at hmk
        cases hmk
    rw [hmask]
    obtain ⟨nb, hnb, h⟩ := andThen_eq_ok h
    rw [hnb]
    simp only [andThen_ok]
    obtain ⟨complete, hcp, h⟩ := andThen_eq_ok h
    rw [check_complete_with_agrees o _ _ _ _ hcp]
    exact h

theorem receive_raw_with_agrees (o : ShiftOracle) (s : Engine) (clock : Nat)
    (raw : Option (List Byte)) (raw_len : Nat) (rssi : Int) (addr : Option (List Byte))
    (r : Int × Engine) (h : emergency_receive_raw s clock raw raw_len rssi addr = .ok r) :
    emergency_receive_raw_with o s clock raw raw_len rssi addr = .ok r := by
  unfold emergency_receive_raw at h
  unfold emergency_receive_raw_with
  cases raw with
  | none => exact h
  | some buf =>
    simp only at h ⊢
    by_cases h0 : raw_len = 0
    · rw [if_pos h0] at h
      rw [if_pos h0]
      exact h
    · rw [if_neg h0] at h
      rw [if_neg h0]
      obtain ⟨s2, hp, h⟩ := andThen_eq_ok h
      have hp2 : parse_raw_frame_and_feed_with o s clock buf raw_len rssi addr = .ok s2 := by
        unfold parse_raw_frame_and_feed at hp
        unfold parse_raw_frame_and_feed_with
        obtain ⟨parsed, hparse, hp⟩ := andThen_eq_ok hp
        rw [hparse]
        simp only [andThen_ok]
        cases parsed with
        | none => exact hp
        | some f => exact feed_frame_with_agrees o s s2 clock f rssi addr hp
      rw [hp2]
      exact h

/-- Every state reachable without an out-of-range shift is reachable when such shifts yield
values. -/
theorem reachable_with (s : Engine) (h : Reachable s) : ReachableWith s := by
  induction h with
  | init d c => exact ReachableWith.init d c
  | send c m _ ih => exact ReachableWith.send c m ih
  | receive c raw raw_len rssi addr _ hr ih =>
    exact ReachableWith.receive x86Shifts c raw raw_len rssi addr ih
      (receive_raw_with_agrees x86Shifts _ c raw raw_len rssi addr _ hr)
  | poll m _ ih => exact ReachableWith.poll m ih

theorem receive_all_with_reachable (o : ShiftOracle) : ∀ (calls : List RawCall) (s s1 : Engine),
    ReachableWith s → receive_all_with o s calls = .ok s1 → ReachableWith s1 := by
  intro calls
  induction calls with
  | nil =>
    intro s s1 hs h
    simp only [receive_all_with, Except.ok.injEq] at h
    rw [← h]
    exact hs
  | cons c rest ih =>
    intro s s1 hs h
    unfold receive_all_with at h
    obtain ⟨r, hr, h⟩ := andThen_eq_ok h
    obtain ⟨status, s2⟩ := r
    exact ih s2 s1 (ReachableWith.receive o c.clock (some c.raw) c.raw.length c.rssi
      (some c.remote_addr) hs hr) h

theorem run_with_reachable (o : ShiftOracle) (s : Engine) (calls : List RawCall)
    (hs : ReachableWith s) : ReachableWith (run_with o s calls) := by
  unfold run_with
  cases h : receive_all_with o s calls with
  | ok s1 => exact receive_all_with_reachable o calls s s1 hs h
  | error e => exact hs

/-- With a source address and one slot per expected fragment, lines 169-266 run to their end
whatever the out-of-range shifts yield. -/
theorem feed_frame_with_some_ok (o : ShiftOracle) (s : Engine) (clock : Nat) (f : ParsedFrame)
    (rssi : Int) (a : List Byte) (h : FragsSized s) :
    ∃ s1, feed_frame_with o s clock f rssi (some a) = .ok s1 := by
  have hsz := find_or_create_entry_sized s clock f h
  have hle := frag_count_le_fragerCountMax (find_or_create s clock f).2.frag_count
  obtain ⟨nb, hnb⟩ := update_neighbor_some_ok (find_or_create s clock f).1.g_neighbors clock
    f.device_id rssi a
  unfold feed_frame_with
  simp only []
  split_ifs with hidx hc
  · exact ⟨_, rfl⟩
  · have hst : f.frag_idx < (find_or_create s clock f).2.frags.length := by omega
    simp only [store_frag, if_pos hst, andThen_ok, hnb]
    rw [join_frags_eq _ _ 0 (by simp only [List.length_set]; omega)]
    exact ⟨_, rfl⟩
  · have hst : f.frag_idx < (find_or_create s clock f).2.frags.length := by omega
    simp only [store_frag, if_pos hst, andThen_ok, hnb]
    exact ⟨_, rfl⟩

/-- C5. Receive is safe on hostile bytes: for every reachable engine state (reachable also
through calls in which an out-of-range shift of the mask yielded some value) and every buffer
passed with its true length `raw_len ≥ 1`, `emergency_receive_raw` reads only buffer offsets
below `raw_len` and indexes the fragment vector of the reassembly entry only below its size,
both when it stores fragment `frag_idx` and when it joins the indices below `frag_count`. This
holds where the call ends at an out-of-range shift and, whatever value such a shift yields,
where the call runs on through the completion loop and the join: no out-of-bounds branch is
reachable, and the only early end left is the null source address of line 218. -/
theorem receive_raw_in_bounds (o : ShiftOracle) (s : Engine) (hs : ReachableWith s)
    (clock : Nat) (buf : List Byte) (rssi : Int) (addr : Option (List Byte))
    (hlen : 1 ≤ buf.length) :
    emergency_receive_raw s clock (some buf) buf.length rssi addr ≠ .error .bufferOverread ∧
    emergency_receive_raw s clock (some buf) buf.length rssi addr ≠ .error .fragIndexOutOfRange ∧
    (∀ e, emergency_receive_raw_with o s clock (some buf) buf.length rssi addr = .error e →
      e = Fault.nullAddress) ∧
    (∀ a, addr = some a →
      ∃ s1, emergency_receive_raw_with o s clock (some buf) buf.length rssi addr = .ok (0, s1)) := by
  have hne : buf.length ≠ 0 := by omega
  have hsized := reachableWith_fragsSized s hs
  have key : InBounds (emergency_receive_raw s clock (some buf) buf.length rssi addr) := by
    simp only [emergency_receive_raw, if_neg hne, parse_raw_frame_and_feed,
      parse_header_eq_decode buf buf.length (le_refl _), andThen_ok]
    cases hdec : decode buf buf.length with
    | none => exact inBounds_ok _
    | some f =>
      simp only []
      apply inBounds_andThen _ _ (feed_frame_inBounds s clock f rssi addr hsized)
      intro a _
      exact inBounds_ok _
  have key2 : OnlyNull (emergency_receive_raw_with o s clock (some buf) buf.length rssi addr) := by
    simp only [emergency_receive_raw_with, if_neg hne, parse_raw_frame_and_feed_with,
      parse_header_eq_decode buf buf.length (le_refl _), andThen_ok]
    cases hdec : decode buf buf.length with
    | none => exact onlyNull_ok _
    | some f =>
      simp only []
      apply onlyNull_andThen _ _ (feed_frame_with_onlyNull o s clock f rssi addr hsized)
      intro a _
      exact onlyNull_ok _
  refine ⟨key.1, key.2, key2, ?_⟩
  intro a ha
  rw [ha]
  simp only [emergency_receive_raw_with, if_neg hne, parse_raw_frame_and_feed_with,
    parse_header_eq_decode buf buf.length (le_refl _), andThen_ok]
  cases hdec : decode buf buf.length with
  | none => exact ⟨s, rfl⟩
  | some f =>
    simp only []
    obtain ⟨s1, h1⟩ := feed_frame_with_some_ok o s clock f rssi a hsized
    rw [h1]
    exact ⟨s1, rfl⟩

set_option maxRecDepth 100000 in
/-- With the shifts of an x86-64 build, 32 frames that declare 40 fragments complete the message:
after the frames 0 to 30 the frame with index 31 fills the mask, the completion loop runs past
bit 31, the join runs over all 40 slots and a packet of 32 bytes is queued. -/
theorem overCount_run_delivers :
    (emergency_receive_raw_with x86Shifts
        (run_with x86Shifts (emergency_protocol_init (some [100]) 100) overCountCalls) 100
        (some (overCountFragment 31)) (overCountFragment 31).length (-40)
        (some [120])).toOption.map (fun r => r.2.g_incoming_queue.map fun ip => ip.data) =
      some [(List.range 32).map toByte] := by
  decide

/-- Witness for C5: (1) the engine that has received the fragments 0 to 30 of a message
declaring 40 fragments receives fragment 31: with the shifts of an x86-64 build the call runs
through the completion loop and the join and queues a packet; (2) a hostile 13-byte frame
declaring fragment 200 of 255, without a source address, fed to the freshly initialised
engine. -/
theorem receive_raw_in_bounds_witness :
    ((∀ e, emergency_receive_raw_with x86Shifts
        (run_with x86Shifts (emergency_protocol_init (some [100]) 100) overCountCalls) 100
        (some (overCountFragment 31)) (overCountFragment 31).length (-40) (some [120]) =
          .error e → e = Fault.nullAddress) ∧
      (∃ s1, emergency_receive_raw_with x86Shifts
        (run_with x86Shifts (emergency_protocol_init (some [100]) 100) overCountCalls) 100
        (some (overCountFragment 31)) (overCountFragment 31).length (-40) (some [120]) =
          .ok (0, s1)) ∧
      (emergency_receive_raw_with x86Shifts
        (run_with x86Shifts (emergency_protocol_init (some [100]) 100) overCountCalls) 100
        (some (overCountFragment 31)) (overCountFragment 31).length (-40)
        (some [120])).toOption.map (fun r => r.2.g_incoming_queue.map fun ip => ip.data) =
          some [(List.range 32).map toByte]) ∧
    (emergency_receive_raw (emergency_protocol_init none 0) 5
        (some [69, 80, 1, 0, 0, 0, 7, 200, 255, 4, 0, 0, 0])
        ([69, 80, 1, 0, 0, 0, 7, 200, 255, 4, 0, 0, 0] : List Byte).length 0 none
      ≠ .error .bufferOverread ∧
     emergency_receive_raw (emergency_protocol_init none 0) 5
        (some [69, 80, 1, 0, 0, 0, 7, 200, 255, 4, 0, 0, 0])
        ([69, 80, 1, 0, 0, 0, 7, 200, 255, 4, 0, 0, 0] : List Byte).length 0 none
      ≠ .error .fragIndexOutOfRange ∧
     (∀ e, emergency_receive_raw_with x86Shifts (emergency_protocol_init none 0) 5
        (some [69, 80, 1, 0, 0, 0, 7, 200, 255, 4, 0, 0, 0])
        ([69, 80, 1, 0, 0, 0, 7, 200, 255, 4, 0, 0, 0] : List Byte).length 0 none = .error e →
          e = Fault.nullAddress)) :=
  ⟨⟨(receive_raw_in_bounds x86Shifts _
        (run_with_reachable x86Shifts _ overCountCalls (ReachableWith.init (some [100]) 100))
        100 (overCountFragment 31) (-40) (some [120]) (by decide)).2.2.1,
    (receive_raw_in_bounds x86Shifts _
        (run_with_reachable x86Shifts _ overCountCalls (ReachableWith.init (some [100]) 100))
        100 (overCountFragment 31) (-40) (some [120]) (by decide)).2.2.2 [120] rfl,
    overCount_run_delivers⟩,
   ⟨(receive_raw_in_bounds x86Shifts _ (ReachableWith.init none 0) 5
        [69, 80, 1, 0, 0, 0, 7, 200, 255, 4, 0, 0, 0] 0 none (by decide)).1,
    (receive_raw_in_bounds x86Shifts _ (ReachableWith.init none 0) 5
        [69, 80, 1, 0, 0, 0, 7, 200, 255, 4, 0, 0, 0] 0 none (by decide)).2.1,
    (receive_raw_in_bounds x86Shifts _ (ReachableWith.init none 0) 5
        [69, 80, 1, 0, 0, 0, 7, 200, 255, 4, 0, 0, 0] 0 none (by decide)).2.2.1⟩⟩

/-! ## Complete sets of more than 32 fragments -/

/-- The frames of a broadcast are a complete set of fragments, whatever the message length. -/
theorem send_frames_completeSet_any (self_id : List Byte) (id : Nat) (msg : List Byte)
    (hid : id < 4294967296) :
    CompleteSet id (send_frag_count msg.length) (fun i => (msg.drop (i * 20)).take 20)
      (send_frames self_id id msg) := by
  have h256 := send_frag_count_lt msg.length
  have hdec : ∀ i, i < send_frag_count msg.length →
      decode (encode_frame self_id id msg (send_frag_count msg.length) i)
          (encode_frame self_id id msg (send_frag_count msg.length) i).length =
        some { msg_id := id, frag_idx := i, frag_count := send_frag_count msg.length, ttl := 4
               device_id := self_id.take 31, payload := (msg.drop (i * 20)).take 20 } :=
    fun i hi => decode_encode_frame self_id id msg _ i hid h256 (by omega)
  constructor
  · intro r hr
    obtain ⟨i, hi, rfl⟩ := List.mem_map.mp hr
    exact ⟨_, parse_of_decode _ _ (hdec i (List.mem_range.mp hi)), rfl, rfl, rfl⟩
  · have : (send_frames self_id id msg).map fragIndexOf = List.range (send_frag_count msg.length) := by
      unfold send_frames
      rw [List.map_map]
      conv_rhs => rw [← List.map_id (List.range (send_frag_count msg.length))]
      apply List.map_congr_left
      intro i hi
      simp only [Function.comp_apply, id_eq]
      exact (decode_frag_idx _ _ _ (hdec i (List.mem_range.mp hi))).symm
    rw [this]

/-- The 33 frames of `longCalls` are a complete set of fragments of message 6. -/
theorem longCalls_completeSet :
    CompleteSet 6 33 (fun i => ((List.replicate 641 65).drop (i * 20)).take 20)
      (longCalls.map fun c => c.raw) := by
  have h := send_frames_completeSet_any [] 6 (List.replicate 641 65) (by decide)
  have hl : (List.replicate 641 (65 : Byte)).length = 641 := List.length_replicate _ _
  have hc : send_frag_count 641 = 33 := by decide
  rw [hl, hc] at h
  have e : (longCalls.map fun c => c.raw) = send_frames [] 6 (List.replicate 641 65) := by
    simp only [longCalls, List.map_map, Function.comp_def, List.map_id', broadcast_frames_eq]
    rfl
  rw [e]
  exact h

set_option maxRecDepth 100000 in
theorem longCalls_withinWindow : WithinWindow longCalls ∧ WithinWindow longCallsLate := by
  decide

set_option maxRecDepth 100000 in
/-- With the shifts of an x86-64 build the 33 frames of `longCalls`, fed twice, queue one packet
of 640 bytes (not the 641 of the message) and leave a reassembly entry for the id behind. -/
theorem longCalls_twice_x86 :
    (receive_all_with x86Shifts (emergency_protocol_init none 7)
        (longCalls ++ longCalls)).toOption.map
      (fun s => (s.g_incoming_queue.map (fun ip => ip.data.length),
        (mapFind s.g_reassembly 6).isSome)) = some ([640], true) := by
  decide

set_option maxRecDepth 100000 in
/-- With the shifts of an x86-64 build the 33 frames of `longCalls`, fed at time 10 and again at
time 500, queue a packet of 640 bytes and then one of 621 bytes. -/
theorem longCalls_late_x86 :
    (receive_all_with x86Shifts (emergency_protocol_init none 7)
        (longCalls ++ longCallsLate)).toOption.map
      (fun s => s.g_incoming_queue.map (fun ip => ip.data.length)) = some [640, 621] := by
  decide

/-- C2 (as stated) fails for a complete set of more than 32 fragments. The 33 frames of a
641-byte broadcast are a complete set of message 6; fed in index order to a fresh engine, the
frame with index 31 drives the completion test of line 227 to shift the 32-bit mask by 32: the
behaviour is undefined and the first pass yields no state with the message delivered. With the
shifts of an x86-64 build the set fed twice queues one packet of 640 bytes and leaves a
reassembly entry for the id, where the claim says none is left. -/
theorem dedupe_suppression_counterexample :
    CompleteSet 6 33 (fun i => ((List.replicate 641 65).drop (i * 20)).take 20)
      (longCalls.map fun c => c.raw) ∧
    mapFind (emergency_protocol_init none 7).g_reassembly 6 = none ∧
    mapFind (emergency_protocol_init none 7).g_msg_timestamps 6 = none ∧
    WithinWindow longCalls ∧
    receive_all (emergency_protocol_init none 7) longCalls = .error .shiftOutOfRange ∧
    (∀ s1, receive_all (emergency_protocol_init none 7) longCalls ≠ .ok s1) ∧
    (receive_all_with x86Shifts (emergency_protocol_init none 7)
        (longCalls ++ longCalls)).toOption.map
      (fun s => (s.g_incoming_queue.map (fun ip => ip.data.length),
        (mapFind s.g_reassembly 6).isSome)) = some ([640], true) := by
  refine ⟨longCalls_completeSet, rfl, rfl, longCalls_withinWindow.1, longCalls_fault.2.2.2, ?_,
    longCalls_twice_x86⟩
  intro s1 h
  rw [longCalls_fault.2.2.2] at h
  cases h

/-- C3 (as stated) fails for a complete set of more than 32 fragments. The 33 frames of a
641-byte broadcast are a complete set of message 6; fed in index order to a fresh engine, the
frame with index 31 drives the completion test of line 227 to shift the 32-bit mask by 32: the
behaviour is undefined and no first delivery of the message is guaranteed. With the shifts of
an x86-64 build the set fed at time 10 and again at time 500 queues a packet of 640 bytes and
then one of 621 bytes: the second payload is not the first. -/
theorem redelivery_after_window_counterexample :
    CompleteSet 6 33 (fun i => ((List.replicate 641 65).drop (i * 20)).take 20)
      (longCalls.map fun c => c.raw) ∧
    (longCallsLate.map fun c => c.raw) = (longCalls.map fun c => c.raw) ∧
    mapFind (emergency_protocol_init none 7).g_reassembly 6 = none ∧
    mapFind (emergency_protocol_init none 7).g_msg_timestamps 6 = none ∧
    WithinWindow longCalls ∧ WithinWindow longCallsLate ∧
    (∀ s1, receive_all (emergency_protocol_init none 7) longCalls ≠ .ok s1) ∧
    (receive_all_with x86Shifts (emergency_protocol_init none 7)
        (longCalls ++ longCallsLate)).toOption.map
      (fun s => s.g_incoming_queue.map (fun ip => ip.data.length)) = some [640, 621] := by
  refine ⟨longCalls_completeSet, ?_, rfl, rfl, longCalls_withinWindow.1,
    longCalls_withinWindow.2, ?_, longCalls_late_x86⟩
  · simp only [longCallsLate, List.map_map, Function.comp_def]
  · intro s1 h
    rw [longCalls_fault.2.2.2] at h
    cases h

end EmergencyProtocol
